import Mathlib

/-!
# SGSolve viewer: the solver worker and the game tab

A shallow embedding of `viewer/hpp/sgsolverworker.hpp` (the step-wise driver of the
twist algorithm) and of the slots of `viewer/cpp/sggamehandler.cpp` (the game tab),
with the properties of their control flow.

Conventions of the embedding

* a C++ `double` is a `Dbl`: the comparisons of the sources are the only operations on
  doubles that the embedded code performs, and `Dbl` carries exactly what they see;
* a C++ `int` is an `Int` (no arithmetic of the embedded code can overflow: the only
  arithmetic is `+1` and `-1` on indices);
* a `std::vector` is a `List`; reading it out of range is undefined behaviour, which the
  embedded functions report as `none`;
* the classes of the solver library that the viewer uses but whose sources are not part of
  the viewer (`SGGame`, `SGEnv`, `SGSolution`, `SGApprox`) are given by their data, and the
  methods of `SGApprox` that the worker calls are parameters (`Engine`, `EngineSetup`), as
  are the methods of `SGGame` that edit the numbers of actions and states (`GameOps`);
* a signal that a widget emits while a slot changes it runs the connected slot at once, as
  Qt does for the connections of the handler; where the handler disconnects the signal
  first, nothing runs;
* the update of the polygons by the approximation engine, whose sources are not part of
  the viewer either, is modelled from the specification, on payoffs in exact arithmetic.
-/

namespace SGSolve

/-! ## Doubles -/

/-- Value of a C++ double as comparisons see it: not-a-number, minus infinity, a finite
value (the rational number it denotes) or plus infinity. -/
inductive Dbl where
  | nan
  | ninf
  | fin (q : ℚ)
  | pinf
deriving DecidableEq

namespace Dbl

/-- The C++ comparison `a < b` of two doubles; false when an operand is not a number. -/
def lt : Dbl → Dbl → Bool
  | ninf, fin _ => true
  | ninf, pinf => true
  | fin a, fin b => decide (a < b)
  | fin _, pinf => true
  | _, _ => false

/-- The C++ comparison `a > b` of two doubles. -/
def gt (a b : Dbl) : Bool := lt b a

/-- The order `a ≤ b` on doubles (IEEE: false when an operand is not a number). It is not
used by the embedded code, only to state properties. -/
def le : Dbl → Dbl → Bool
  | ninf, ninf => true
  | ninf, fin _ => true
  | ninf, pinf => true
  | fin a, fin b => decide (a ≤ b)
  | fin _, pinf => true
  | pinf, pinf => true
  | _, _ => false

end Dbl

/-! ## Data of the solver library -/

/-- Modelled from the spec: SGPoint (sgpoint.hpp is not among the sources), a payoff
vector for the two players. -/
structure SGPoint where
  x : Dbl
  y : Dbl
deriving DecidableEq

/-- Modelled from the spec: SGTuple (sgtuple.hpp is not among the sources), one payoff
vector per state. -/
abbrev SGTuple := List SGPoint

/-- Modelled from the spec: SGGame (sggame.hpp is not among the sources), with the data the
spec lists for a game: discount factor, number of states, number of actions of each player
in each state, stage payoffs and transition probabilities per state and action pair, the
per-player unconstrained flags and the per-state lists of equilibrium actions. -/
structure SGGame where
  delta : Dbl
  numStates : Int
  numActions : List (List Int)
  payoffs : List (List SGPoint)
  probabilities : List (List (List Dbl))
  unconstrained : List Bool
  eqActions : List (List Bool)
deriving DecidableEq

namespace SGGame

/-- Modelled from the spec: SGGame::setDiscountFactor (sggame.hpp is not among the sources)
stores the new discount factor. -/
def setDiscountFactor (g : SGGame) (newDelta : Dbl) : SGGame :=
  { g with delta := newDelta }

/-- Modelled from the spec: SGGame::setConstrained (sggame.hpp is not among the sources)
stores the vector of per-player unconstrained flags. -/
def setConstrained (g : SGGame) (flags : List Bool) : SGGame :=
  { g with unconstrained := flags }

/-- Modelled from the spec: SGGame::getConstrained returns the per-player unconstrained
flags. -/
def getConstrained (g : SGGame) : List Bool := g.unconstrained

/-- Modelled from the spec: SGGame::getNumStates. -/
def getNumStates (g : SGGame) : Int := g.numStates

/-- Modelled from the spec: SGGame::getNumActions, indexed by state and then by player. -/
def getNumActions (g : SGGame) : List (List Int) := g.numActions

end SGGame

/-- Modelled from the spec: SGEnv (sgenv.hpp is not among the sources), the two parameters
that the worker reads: `getParam(ERRORTOL)` and `getParam(MAXITERATIONS)`. -/
structure SGEnv where
  errorTol : Dbl
  maxIterations : Int
deriving DecidableEq

/-- Modelled from the spec: SGIteration (sgiteration.hpp is not among the sources), the
record of one iteration that the engine may store in the solution. -/
structure SGIteration where
  iteration : Int
  pivot : SGTuple
  direction : SGPoint
deriving DecidableEq

/-- Modelled from the spec: SGSolution (sgsolution.hpp is not among the sources): a copy of
the game, the trajectory of the pivot, and the stored iterations. -/
structure SGSolution where
  game : SGGame
  extremeTuples : List SGTuple
  iterations : List SGIteration
deriving DecidableEq

/-- Modelled from the spec: SGApprox (sgapprox.hpp is not among the sources). The worker
reads `numIterations` and `extremeTuples`; pivot, direction and threat payoffs stand for the
rest of the approximation, which only the engine's own methods touch. -/
structure SGApprox where
  numIterations : Int
  extremeTuples : List SGTuple
  pivot : SGTuple
  currentDirection : SGPoint
  threatTuple : SGTuple
deriving DecidableEq

/-- What a call of `SGApprox::generate` can do: return the distance between successive
approximations, or raise an exception (one that derives from `std::exception`, as every
exception of the library and of the standard library does). Either way the approximation
and the solution it writes to are left in a new state. -/
inductive GenOutcome where
  | returned (distance : Dbl) (approx : SGApprox) (soln : SGSolution)
  | raised (approx : SGApprox) (soln : SGSolution)
deriving DecidableEq

/-- The methods of the solver library that `SGSolverWorker::iterate` calls and whose bodies
are not among the sources, as parameters.

* `generate` is `SGApprox::generate`, acting on the approximation and on the solution it
  holds a reference to;
* `end_` is `SGApprox::end`, which finalizes the computation; the worker calls it from its
  exception handler, and it is taken to return normally;
* `pushRaises s t` tells whether `SGSolution::push_back` of the tuple `t` on the solution
  `s` raises (`std::bad_alloc`) instead of appending. -/
structure Engine where
  generate : SGApprox → SGSolution → GenOutcome
  end_ : SGApprox → SGSolution → SGApprox × SGSolution
  pushRaises : SGSolution → SGTuple → Bool

/-! ## The solver worker (`viewer/hpp/sgsolverworker.hpp`) -/

/-- Code for status at the end of the iteration (`SGSolverWorker::STATUS`). -/
inductive STATUS where
  | FAILED
  | CONVERGED
  | NOTCONVERGED
deriving DecidableEq, Repr

/-- The data members of `SGSolverWorker`. `status` is `none` as long as no statement has
assigned the member (the constructor does not). The pointer `logTextEdit` is neither read
nor written by the members embedded here and is left out. -/
structure SGSolverWorker where
  env : SGEnv
  soln : SGSolution
  approx : SGApprox
  status : Option STATUS
deriving DecidableEq

/-- What the worker does that an observer outside the worker sees: the calls of the engine
(`generate` and `end` by `iterate`, `initialize` by the constructor) and the emissions of
the signal `resultReady(bool)`. -/
inductive Event where
  | generate
  | end_
  | resultReady (done : Bool)
  | initialize_
deriving DecidableEq, Repr

/-- Outcome of a sequence of `soln.push_back` calls: all done, or one of them raised and
left the solution as the earlier ones made it. -/
inductive PushOutcome where
  | done (soln : SGSolution)
  | raised (soln : SGSolution)
deriving DecidableEq

/-- The loop `for (tuple = extremeTuples.begin(); tuple != extremeTuples.end(); ++tuple)
soln.push_back(*tuple)`; a single `push_back` is the case of a one-element list. -/
def pushAll (e : Engine) : SGSolution → List SGTuple → PushOutcome
  | s, [] => .done s
  | s, t :: ts =>
    if e.pushRaises s t then .raised s
    else pushAll e { s with extremeTuples := s.extremeTuples ++ [t] } ts

/-- Lines 76-85 of `iterate`: "Add the extreme tuples array to soln". `none` is the
undefined behaviour of `extremeTuples.back()` on an empty vector. -/
def recordTuples (e : Engine) (w : SGSolverWorker) : Option PushOutcome :=
  if w.approx.numIterations = 0 then
    some (pushAll e w.soln w.approx.extremeTuples)
  else
    match w.approx.extremeTuples.getLast? with
    | none => none
    | some t => some (pushAll e w.soln [t])

/-- State of the worker and what it did during one call of `iterate`. -/
structure IterateResult where
  worker : SGSolverWorker
  events : List Event
deriving DecidableEq

/-- The handler `catch (exception & e)` of `iterate`, entered with the approximation and the
solution as the failed statement left them, after the events `before`. -/
def iterateCatch (e : Engine) (w : SGSolverWorker) (a : SGApprox) (s : SGSolution)
    (before : List Event) : IterateResult :=
  let r := e.end_ a s
  { worker := { w with approx := r.1, soln := r.2, status := some STATUS.FAILED },
    events := before ++ [Event.end_, Event.resultReady true] }

/-- The slot `SGSolverWorker::iterate`: runs one iteration of the twist algorithm and emits
the resultReady signal. `none` is undefined behaviour (see `recordTuples`). -/
def iterate (e : Engine) (w : SGSolverWorker) : Option IterateResult :=
  match recordTuples e w with
  | none => none
  | some (.raised s) => some (iterateCatch e w w.approx s [])
  | some (.done s) =>
    match e.generate w.approx s with
    | .raised a s1 => some (iterateCatch e w a s1 [Event.generate])
    | .returned d a s1 =>
      if d.gt w.env.errorTol && decide (a.numIterations < w.env.maxIterations) then
        some { worker := { w with approx := a, soln := s1, status := some STATUS.NOTCONVERGED },
               events := [Event.generate, Event.resultReady false] }
      else
        let r := e.end_ a s1
        some { worker := { w with approx := r.1, soln := r.2, status := some STATUS.CONVERGED },
               events := [Event.generate, Event.end_, Event.resultReady true] }

/-- Member `SGSolverWorker::getStatus`. -/
def SGSolverWorker.getStatus (w : SGSolverWorker) : Option STATUS := w.status

/-- The two steps of the solver library that the constructor of the worker runs and whose
bodies are not among the sources, as parameters: the constructor `SGApprox(env, game,
soln)` and the method `SGApprox::initialize`, acting on the approximation and on the
solution it holds a reference to (`none` when it raises, which ends the construction). -/
structure EngineSetup where
  newApprox : SGEnv → SGGame → SGSolution → SGApprox
  initialize_ : SGApprox → SGSolution → Option (SGApprox × SGSolution)

/-- Modelled from the spec: the constructor `SGSolution(game)` (sgsolution.hpp is not among
the sources): a copy of the game with an empty trajectory and no stored iteration. -/
def SGSolution.ofGame (game : SGGame) : SGSolution :=
  { game := game, extremeTuples := [], iterations := [] }

/-- The constructor `SGSolverWorker(env, game, logTextEdit)`: the member initializers `env`,
`soln(game)`, `approx(env, game, soln)`, then the body `approx.initialize()`. No initializer
and no statement assigns `status`. The result is the worker with the calls of the engine
made; `none` when `initialize` raises. -/
def SGSolverWorker.construct (c : EngineSetup) (env : SGEnv) (game : SGGame) :
    Option (SGSolverWorker × List Event) :=
  let soln := SGSolution.ofGame game
  let approx := c.newApprox env game soln
  match c.initialize_ approx soln with
  | none => none
  | some (a, s) =>
    some ({ env := env, soln := s, approx := a, status := none }, [Event.initialize_])

/-- Whether an exception is raised inside the try block of `iterate` called on `w`: by one
of the `push_back` calls that record the trajectory, or else by `generate`. -/
def raisedInside (e : Engine) (w : SGSolverWorker) : Bool :=
  match recordTuples e w with
  | none => false
  | some (.raised _) => true
  | some (.done s) =>
    match e.generate w.approx s with
    | .raised _ _ => true
    | .returned _ _ _ => false

/-- Modelled from the spec: the driving loop (the main window that runs it is not among the
sources), which invokes `iterate` again and again until the status of the worker is not
NOTCONVERGED. It makes at most `fuel` calls. The result is the number of calls of `iterate`
made and the worker as the last call left it; it is `none` when the loop has not stopped
within `fuel` calls, or when a call has undefined behaviour. -/
def drive (e : Engine) : Nat → SGSolverWorker → Option (Nat × SGSolverWorker)
  | 0, _ => none
  | fuel + 1, w =>
    match iterate e w with
    | none => none
    | some r =>
      if r.worker.status = some STATUS.NOTCONVERGED then
        match drive e fuel r.worker with
        | none => none
        | some (n, w1) => some (n + 1, w1)
      else some (1, r.worker)

/-! ## The game tab (`viewer/cpp/sggamehandler.cpp`) -/

/-- Element `i` of a `std::vector` read with `operator[]` at an `int` index; `none` is the
undefined behaviour of an index out of range. -/
def vecGet? {α : Type} (xs : List α) (i : Int) : Option α :=
  if i < 0 then none else xs[i.toNat]?

/-- Qt's `QString::number(int)`: the decimal text of an integer. -/
def qNumber (n : Int) : String := toString n

/-- Qt's `QString::toDouble`: the value of the text when it reads as a number, and 0 when the
conversion fails. Which texts read as which number is Qt's matter and is the parameter
`parse`. -/
def toDouble (parse : String → Option Dbl) (text : String) : Dbl :=
  match parse text with
  | some v => v
  | none => Dbl.fin 0

/-- A `QLineEdit`, by the text it shows. -/
structure QLineEdit where
  text : String
deriving DecidableEq

/-- A `QCheckBox`, by its check state. -/
structure QCheckBox where
  checked : Bool
deriving DecidableEq

/-- A `QComboBox`, by the labels of its entries and its current index (-1 when there is no
current entry). -/
structure QComboBox where
  items : List String
  currentIndex : Int
deriving DecidableEq

namespace QComboBox

/-- Member `QComboBox::count`: the number of entries. -/
def count (c : QComboBox) : Int := c.items.length

/-- Member `QComboBox::setCurrentIndex`: an index that is not the index of an entry leaves the box
without current entry. -/
def setCurrentIndex (c : QComboBox) (index : Int) : QComboBox :=
  if 0 ≤ index ∧ index < c.count then { c with currentIndex := index }
  else { c with currentIndex := -1 }

end QComboBox

/-- An `SGPayoffTableModel`: the model of the payoff table, by the state that is currently
being edited (the game it points to is the handler's). -/
structure SGPayoffTableModel where
  state : Int
deriving DecidableEq

/-- An `SGProbabilityTableModel`: as the payoff model, with tomorrow's state added. -/
structure SGProbabilityTableModel where
  state : Int
  nextState : Int
deriving DecidableEq

/-- An `SGTableView`: whether its scroll bars are disabled, and the cells (row, column) that
its selection model holds as selected, in the order of `selectedIndexes()`. -/
structure SGTableView where
  scrollBarsDisabled : Bool
  selection : List (Int × Int) := []
deriving DecidableEq

/-- A widget held by the layout `probabilityTableLayout`: the label of a probability table,
or the view of one. -/
inductive LayoutWidget where
  | label (text : String)
  | tableView
deriving DecidableEq

/-- The data members of `SGGameHandler` that its slots read or write. `payoffModel` is a
pointer (`none` is NULL). -/
structure SGGameHandler where
  game : SGGame
  errorTol : Dbl
  deltaEdit : QLineEdit
  errorTolEdit : QLineEdit
  numStatesEdit : QLineEdit
  numActionsEdits : List QLineEdit
  payoffModel : Option SGPayoffTableModel
  probabilityModels : List SGProbabilityTableModel
  payoffTableView : SGTableView
  probabilityTableViews : List SGTableView
  currentStateCombo : QComboBox
  feasibleCheckBox : QCheckBox
  probabilityTableLayout : List LayoutWidget := []
deriving DecidableEq

namespace SGGameHandler

/-- The loop `for (int player = 0; player < 2; player ++)` of `setState`, from `player` on
for `k` more rounds: `numActionsEdits[player]->setText(QString::number(
game.getNumActions()[state][player]))`. -/
def setNumActionsEdits (g : SGGame) (state : Int) : Nat → Nat → List QLineEdit →
    Option (List QLineEdit)
  | 0, _, edits => some edits
  | k + 1, player, edits =>
    match vecGet? g.getNumActions state with
    | none => none
    | some row =>
      match row[player]?, edits[player]? with
      | some n, some _ =>
        setNumActionsEdits g state k (player + 1) (edits.set player { text := qNumber n })
      | _, _ => none

/-- The loop `for (int nextState = 0; nextState < game.getNumStates(); nextState++)` of
`setState`, from `nextState` on for `k` more rounds: `probabilityModels[nextState]
->setState(state)`, and the view `probabilityTableViews[nextState]` is asked to resize. -/
def setStateModels (state : Int) (views : List SGTableView) : Nat → Nat →
    List SGProbabilityTableModel → Option (List SGProbabilityTableModel)
  | 0, _, models => some models
  | k + 1, nextState, models =>
    match models[nextState]?, views[nextState]? with
    | some m, some _ =>
      setStateModels state views k (nextState + 1) (models.set nextState { m with state := state })
    | _, _ => none

/-- Slot `SGGameHandler::setState`. The signal `currentIndexChanged` of the state selector is
disconnected around `setCurrentIndex`, so no slot runs from within. -/
def setState (h : SGGameHandler) (state : Int) : Option SGGameHandler :=
  match setNumActionsEdits h.game state 2 0 h.numActionsEdits with
  | none => none
  | some edits =>
    match h.payoffModel with
    | none => none
    | some pm =>
      match setStateModels state h.probabilityTableViews h.game.getNumStates.toNat 0
          h.probabilityModels with
      | none => none
      | some models =>
        some { h with
          numActionsEdits := edits
          payoffModel := some { pm with state := state }
          probabilityModels := models
          currentStateCombo := h.currentStateCombo.setCurrentIndex state }

/-- Slot `SGGameHandler::currentStateChanged`. -/
def currentStateChanged (h : SGGameHandler) (newS : Int) : Option SGGameHandler :=
  h.setState newS

/-- Slot `SGGameHandler::discountFactorChanged`. -/
def discountFactorChanged (parse : String → Option Dbl) (h : SGGameHandler) (text : String) :
    SGGameHandler :=
  let newDelta := toDouble parse text
  if newDelta.gt (Dbl.fin 0) && newDelta.lt (Dbl.fin 1) then
    { h with game := h.game.setDiscountFactor newDelta }
  else h

/-- Slot `SGGameHandler::errorTolChanged`. -/
def errorTolChanged (parse : String → Option Dbl) (h : SGGameHandler) (text : String) :
    SGGameHandler :=
  let newErrorTol := toDouble parse text
  if newErrorTol.gt (Dbl.fin 0) && newErrorTol.lt (Dbl.fin 1) then
    { h with errorTol := newErrorTol }
  else h

/-- Slot `SGGameHandler::setConstrained`; the argument (the new check state that the signal
`stateChanged(int)` carries) is not read. -/
def setConstrained (h : SGGameHandler) (_newState : Int) : SGGameHandler :=
  if h.feasibleCheckBox.checked then
    { h with game := h.game.setConstrained (List.replicate 2 true) }
  else
    { h with game := h.game.setConstrained (List.replicate 2 false) }

end SGGameHandler

/-! ### Loading and editing of the game -/

namespace SGGame

/-- Modelled from the spec: SGGame::getDelta returns the discount factor. -/
def getDelta (g : SGGame) : Dbl := g.delta

end SGGame

/-- The methods of `SGGame` that edit the numbers of actions and of states, which the game
tab invokes and whose bodies are not among the sources (sggame.hpp), as parameters. The
handler does not read what they return; each is given by the game it leaves.

* `addAction g state player position` and `removeAction g state player action`;
* `addState g position` and `removeState g state`. -/
structure GameOps where
  addAction : SGGame → Int → Int → Int → SGGame
  removeAction : SGGame → Int → Int → Int → SGGame
  addState : SGGame → Int → SGGame
  removeState : SGGame → Int → SGGame

/-- An invocation of one of the editing methods of `SGGame` by the handler, with its
arguments. -/
inductive GameCall where
  | addAction (state player position : Int)
  | removeAction (state player action : Int)
  | addState (position : Int)
  | removeState (state : Int)
deriving DecidableEq, Repr

namespace QComboBox

/-- Member `QComboBox::addItem`: a new last entry; a box that had no entry gets the current
index 0. -/
def addItem (c : QComboBox) (text : String) : QComboBox :=
  { items := c.items ++ [text]
    currentIndex := if c.items = [] then 0 else c.currentIndex }

/-- Member `QComboBox::removeItem`: nothing for an index that is out of range. Else the entry
is removed; the current entry stays current (its index is one less when the removed entry
was before it), and when the current entry is the removed one, the entry that takes its
place, or else the last entry, becomes current (none when no entry is left). -/
def removeItem (c : QComboBox) (index : Int) : QComboBox :=
  if 0 ≤ index ∧ index < c.count then
    let items := c.items.eraseIdx index.toNat
    if index < c.currentIndex then
      { items := items, currentIndex := c.currentIndex - 1 }
    else if index = c.currentIndex then
      { items := items
        currentIndex := if items = [] then -1 else min ((items.length : Int) - 1) c.currentIndex }
    else
      { items := items, currentIndex := c.currentIndex }
  else c

end QComboBox

namespace SGGameHandler

/-- The loop `while (state > newS) currentStateCombo->removeItem(--state)` of
`changeNumberOfStates`, for at most `k` rounds; the result is the value of `state` and the
box after the loop. -/
def removeItemsAbove (newS : Int) : Nat → Int → QComboBox → Int × QComboBox
  | 0, state, c => (state, c)
  | k + 1, state, c =>
    if state > newS then removeItemsAbove newS k (state - 1) (c.removeItem (state - 1))
    else (state, c)

/-- The loop `while (state < newS) currentStateCombo->addItem(QString::number(state++))` of
`changeNumberOfStates`, for at most `k` rounds. -/
def addItemsUpTo (newS : Int) : Nat → Int → QComboBox → Int × QComboBox
  | 0, state, c => (state, c)
  | k + 1, state, c =>
    if state < newS then addItemsUpTo newS k (state + 1) (c.addItem (qNumber state))
    else (state, c)

/-- Member `SGGameHandler::changeNumberOfStates`. The first loop makes `count - newS` rounds
and the second `newS - state` rounds, which is the number of rounds given to them. The
signal `currentIndexChanged` of the state selector is disconnected meanwhile, so no slot
runs from within. -/
def changeNumberOfStates (h : SGGameHandler) (newS : Int) : SGGameHandler :=
  let state := h.currentStateCombo.count
  let r1 := removeItemsAbove newS (state - newS).toNat state h.currentStateCombo
  let r2 := addItemsUpTo newS (newS - r1.1).toNat r1.1 r1.2
  { h with
    numStatesEdit := { text := qNumber h.game.getNumStates }
    currentStateCombo := r2.2.setCurrentIndex 0 }

/-- Member `SGGameHandler::pushBackProbabilityTable`: a new view with disabled scroll bars, a
label and the view in the layout, and a new model for tomorrow's state `newState`. -/
def pushBackProbabilityTable (h : SGGameHandler) (newState : Int) : SGGameHandler :=
  { h with
    probabilityTableViews := h.probabilityTableViews ++ [{ scrollBarsDisabled := true }]
    probabilityTableLayout := h.probabilityTableLayout ++
      [LayoutWidget.label ("State " ++ qNumber newState ++ ":"), LayoutWidget.tableView]
    probabilityModels := h.probabilityModels ++ [{ state := 0, nextState := newState }] }

/-- The loop `for (int state = 0; state < game.getNumStates(); state++)
pushBackProbabilityTable(state)` of `initializeModels`, from `state` on for `k` rounds. -/
def pushBackTables : Nat → Int → SGGameHandler → SGGameHandler
  | 0, _, h => h
  | k + 1, state, h => pushBackTables k (state + 1) (h.pushBackProbabilityTable state)

/-- Member `SGGameHandler::initializeModels`: a new payoff model on state 0, set on the payoff
view (whose selection starts empty with the new model); the probability models, the layout
and the views are cleared, and one table per state is added. -/
def initializeModels (h : SGGameHandler) : SGGameHandler :=
  pushBackTables h.game.getNumStates.toNat 0
    { h with
      payoffModel := some { state := 0 }
      payoffTableView := { h.payoffTableView with selection := [] }
      probabilityModels := []
      probabilityTableLayout := []
      probabilityTableViews := [] }

/-- Member `SGGameHandler::popBackProbabilityTable`: the last model, the last two widgets of
the layout and the last view are removed. `none` is the undefined behaviour of `back()` and
`pop_back()` on an empty vector, and of `takeAt(count()-1)->widget()` on a layout without
widget. -/
def popBackProbabilityTable (h : SGGameHandler) : Option SGGameHandler :=
  if h.probabilityModels = [] then none
  else if h.probabilityTableLayout.length < 2 then none
  else if h.probabilityTableViews = [] then none
  else
    some { h with
      probabilityModels := h.probabilityModels.dropLast
      probabilityTableLayout := h.probabilityTableLayout.dropLast.dropLast
      probabilityTableViews := h.probabilityTableViews.dropLast }

/-- The call `feasibleCheckBox->setChecked(checked)` as it runs in the handler: when the
check state changes, the box emits `stateChanged(int)`, and the slot `setConstrained` that
line 255 connects to it runs, with the new check state (2 for checked, 0 for unchecked). -/
def setFeasibleChecked (h : SGGameHandler) (checked : Bool) : SGGameHandler :=
  if h.feasibleCheckBox.checked = checked then h
  else
    ({ h with feasibleCheckBox := { checked := checked } } : SGGameHandler).setConstrained
      (if checked then 2 else 0)

/-- The call `deltaEdit->setText(text)` as it runs in the handler: when the text changes, the
edit emits `textChanged`, and the slot `discountFactorChanged` that line 231 connects to it
runs on the new text. -/
def setDeltaText (parse : String → Option Dbl) (h : SGGameHandler) (text : String) :
    SGGameHandler :=
  if h.deltaEdit.text = text then h
  else discountFactorChanged parse { h with deltaEdit := { text := text } } text

/-- Member `SGGameHandler::setGame`. `parse` is the reading of texts as numbers of
`QString::toDouble`, and `showNumber` is `QString::number(double)`. `none` is the undefined
behaviour of reading `getConstrained()` or `getNumActions()` out of range. -/
def setGame (parse : String → Option Dbl) (showNumber : Dbl → String) (h : SGGameHandler)
    (game : SGGame) : Option SGGameHandler :=
  let h1 : SGGameHandler := { h with game := game }
  match h1.game.getConstrained[0]? with
  | none => none
  | some c0 =>
    match (if c0 then h1.game.getConstrained[1]? else some false) with
    | none => none
    | some both =>
      let h2 := h1.setFeasibleChecked both
      let h3 := h2.changeNumberOfStates h2.game.getNumStates
      let h4 := setDeltaText parse h3 (showNumber h3.game.getDelta)
      match setNumActionsEdits h4.game 0 2 0 h4.numActionsEdits with
      | none => none
      | some edits => some ({ h4 with numActionsEdits := edits } : SGGameHandler).initializeModels

/-- The loops `for (int nextState = 0; nextState < game.getNumStates(); nextState++)` of
`actionAdded` and `actionRemoved`, which tell `probabilityModels[nextState]` and
`probabilityTableViews[nextState]` that the layout has changed, from `nextState` on for `k`
rounds: whether every index used is in range. -/
def tablesInRange (models : List SGProbabilityTableModel) (views : List SGTableView) :
    Nat → Nat → Bool
  | 0, _ => true
  | k + 1, nextState =>
    match models[nextState]?, views[nextState]? with
    | some _, some _ => tablesInRange models views k (nextState + 1)
    | _, _ => false

end SGGameHandler

/-- Result of an edit request of the game tab: the handler as the slot leaves it, and the
invocations of editing methods of `SGGame` that the slot has made, in order. -/
structure EditResult where
  handler : SGGameHandler
  calls : List GameCall
deriving DecidableEq

namespace SGGameHandler

/-- The row or column after or at which an action is edited: from the first selected cell of
the payoff table when there is a selection (the column for player 1, the row otherwise), and
else the default `action`. -/
def selectedAction (h : SGGameHandler) (player : Int) (offset : Int) (action : Int) : Int :=
  match h.payoffTableView.selection with
  | [] => action
  | index :: _ => if player = 1 then index.2 + offset else index.1 + offset

/-- The statements that end `actionAdded` and `actionRemoved` alike, once the game is edited:
`numActionsEdits[player]->setText(QString::number(game.getNumActions()[state][player]))`,
`payoffModel->emitLayoutChanged()` and the loop over the probability tables. `none` is
undefined behaviour: an index out of range in `getNumActions()`, `numActionsEdits`,
`probabilityModels` or `probabilityTableViews`, or a NULL `payoffModel`. -/
def showNumActions (h : SGGameHandler) (state player : Int) : Option SGGameHandler :=
  match (vecGet? h.game.getNumActions state).bind (fun row => vecGet? row player),
      vecGet? h.numActionsEdits player, h.payoffModel with
  | some n, some _, some _ =>
    if tablesInRange h.probabilityModels h.probabilityTableViews h.game.getNumStates.toNat 0
    then some { h with numActionsEdits := h.numActionsEdits.set player.toNat { text := qNumber n } }
    else none
  | _, _, _ => none

/-- Slot `SGGameHandler::actionAdded`. `none` is undefined behaviour: an index out of range
in `getNumActions()`, or that of `showNumActions`. -/
def actionAdded (ops : GameOps) (h : SGGameHandler) (player : Int) : Option EditResult :=
  if player < 0 ∨ player > 1 then some { handler := h, calls := [] }
  else
    match (vecGet? h.game.getNumActions h.currentStateCombo.currentIndex).bind
        (fun row => vecGet? row player) with
    | none => none
    | some n =>
      match showNumActions
          { h with game := ops.addAction h.game h.currentStateCombo.currentIndex player
                     (h.selectedAction player 1 n) }
          h.currentStateCombo.currentIndex player with
      | none => none
      | some h1 =>
        some { handler := h1
               calls := [GameCall.addAction h.currentStateCombo.currentIndex player
                 (h.selectedAction player 1 n)] }

/-- Slot `SGGameHandler::action1Added`. -/
def action1Added (ops : GameOps) (h : SGGameHandler) : Option EditResult := h.actionAdded ops 0

/-- Slot `SGGameHandler::action2Added`. -/
def action2Added (ops : GameOps) (h : SGGameHandler) : Option EditResult := h.actionAdded ops 1

/-- Slot `SGGameHandler::actionRemoved`. `none` is undefined behaviour, as for
`actionAdded`. -/
def actionRemoved (ops : GameOps) (h : SGGameHandler) (player : Int) : Option EditResult :=
  match (vecGet? h.game.getNumActions h.currentStateCombo.currentIndex).bind
      (fun row => vecGet? row player) with
  | none => none
  | some n =>
    if n = 1 then some { handler := h, calls := [] }
    else
      match showNumActions
          { h with game := ops.removeAction h.game h.currentStateCombo.currentIndex player
                     (h.selectedAction player 0 (n - 1)) }
          h.currentStateCombo.currentIndex player with
      | none => none
      | some h1 =>
        some { handler := h1
               calls := [GameCall.removeAction h.currentStateCombo.currentIndex player
                 (h.selectedAction player 0 (n - 1))] }

/-- Slot `SGGameHandler::action1Removed`. -/
def action1Removed (ops : GameOps) (h : SGGameHandler) : Option EditResult :=
  h.actionRemoved ops 0

/-- Slot `SGGameHandler::action2Removed`. -/
def action2Removed (ops : GameOps) (h : SGGameHandler) : Option EditResult :=
  h.actionRemoved ops 1

/-- The statements of `stateAdded` before the `setState` that ends it: `game.addState`,
`changeNumberOfStates`, the text of `numStatesEdit`, and a probability table more for the
state that is now the last. -/
def stateAddedTables (ops : GameOps) (h : SGGameHandler) : SGGameHandler :=
  let h1 : SGGameHandler :=
    { h with game := ops.addState h.game (h.currentStateCombo.currentIndex + 1) }
  let h2 := h1.changeNumberOfStates h1.game.getNumStates
  let h3 : SGGameHandler := { h2 with numStatesEdit := { text := qNumber h2.game.getNumStates } }
  h3.pushBackProbabilityTable (h3.game.getNumStates - 1)

/-- Slot `SGGameHandler::stateAdded`. `none` is the undefined behaviour of the `setState`
that ends it. -/
def stateAdded (ops : GameOps) (h : SGGameHandler) : Option EditResult :=
  match (stateAddedTables ops h).setState (h.currentStateCombo.currentIndex + 1) with
  | none => none
  | some h1 =>
    some { handler := h1, calls := [GameCall.addState (h.currentStateCombo.currentIndex + 1)] }

/-- The new current state that `stateRemoved` computes from the current one. -/
def stateRemovedNewState (state : Int) : Int := if state > 0 then state - 1 else 0

/-- The statements of `stateRemoved` between `popBackProbabilityTable`, which has left the
handler `h1`, and the `setState` that ends it: the state selector is set to
`min(state,newState)` and loses its last entry (its signal `currentIndexChanged` is
disconnected meanwhile), `game.removeState(state)`, and the text of `numStatesEdit`. -/
def stateRemovedTables (ops : GameOps) (h1 : SGGameHandler) (state : Int) : SGGameHandler :=
  let c1 := h1.currentStateCombo.setCurrentIndex (min state (stateRemovedNewState state))
  let c2 := c1.removeItem (c1.count - 1)
  let h2 : SGGameHandler :=
    { h1 with currentStateCombo := c2, game := ops.removeState h1.game state }
  { h2 with numStatesEdit := { text := qNumber h2.game.getNumStates } }

/-- Slot `SGGameHandler::stateRemoved`. `none` is the undefined behaviour of
`popBackProbabilityTable` or of the `setState` that ends it. -/
def stateRemoved (ops : GameOps) (h : SGGameHandler) : Option EditResult :=
  if h.game.getNumStates = 1 then some { handler := h, calls := [] }
  else
    match h.popBackProbabilityTable with
    | none => none
    | some h1 =>
      match (stateRemovedTables ops h1 h.currentStateCombo.currentIndex).setState
          (stateRemovedNewState h.currentStateCombo.currentIndex) with
      | none => none
      | some h2 =>
        some { handler := h2
               calls := [GameCall.removeState h.currentStateCombo.currentIndex] }

/-- The loop of the destructor `~SGGameHandler`, `for (int state = 0; state <
game.getNumStates(); state++) delete probabilityModels[state]`, from `state` on for `k`
rounds: whether every index used is in range. -/
def deleteModelsInRange (models : List SGProbabilityTableModel) : Nat → Nat → Bool
  | 0, _ => true
  | k + 1, state =>
    match models[state]? with
    | some _ => deleteModelsInRange models k (state + 1)
    | none => false

/-- The destructor `~SGGameHandler`: whether its behaviour is defined, that is, whether every
index into `probabilityModels` that it uses is in range. -/
def destructorDefined (h : SGGameHandler) : Bool :=
  deleteModelsInRange h.probabilityModels h.game.getNumStates.toNat 0

end SGGameHandler

namespace SGGame

/-- The game is not empty: it has at least one state, and every number of actions in its
table (one per player in every state) is at least one. -/
def HasStatesAndActions (g : SGGame) : Prop :=
  1 ≤ g.numStates ∧ ∀ row ∈ g.numActions, ∀ n ∈ row, (1 : Int) ≤ n

end SGGame

namespace SGGameHandler

/-- The size invariant of the game tab: the number of probability models, the number of
probability views and the number of entries of the state selector all equal the number of
states of the game, and the models are, in order, those of tomorrow's states 0, 1 and so
on. -/
def TabSizes (h : SGGameHandler) : Prop :=
  (h.probabilityModels.length : Int) = h.game.getNumStates ∧
  (h.probabilityTableViews.length : Int) = h.game.getNumStates ∧
  h.currentStateCombo.count = h.game.getNumStates ∧
  h.probabilityModels.map (fun m => m.nextState)
    = (List.range h.probabilityModels.length).map (fun (i : Nat) => (i : Int))

/-- The size invariant of the game tab can be checked by computation. -/
instance TabSizes.decidable (h : SGGameHandler) : Decidable h.TabSizes :=
  inferInstanceAs (Decidable
    ((h.probabilityModels.length : Int) = h.game.getNumStates ∧
      (h.probabilityTableViews.length : Int) = h.game.getNumStates ∧
      h.currentStateCombo.count = h.game.getNumStates ∧
      h.probabilityModels.map (fun m => m.nextState)
        = (List.range h.probabilityModels.length).map (fun (i : Nat) => (i : Int))))

end SGGameHandler

/-! ### Navigation between the states -/

namespace SGGameHandler

/-- Slot `SGGameHandler::nextState`. `none` is the undefined behaviour of `setState`. -/
def nextState (h : SGGameHandler) : Option SGGameHandler :=
  if h.currentStateCombo.currentIndex < h.currentStateCombo.count - 1 then
    h.setState (h.currentStateCombo.currentIndex + 1)
  else some h

/-- Slot `SGGameHandler::prevState`. `none` is the undefined behaviour of `setState`. -/
def prevState (h : SGGameHandler) : Option SGGameHandler :=
  if h.currentStateCombo.currentIndex > 0 then
    h.setState (h.currentStateCombo.currentIndex - 1)
  else some h

end SGGameHandler

namespace QComboBox

/-- Entry `i` of the box is labelled with the decimal text of `i`, for every entry. -/
def Numbered (c : QComboBox) : Prop :=
  c.items = (List.range c.items.length).map (fun (i : Nat) => qNumber (i : Int))

/-- Whether the entries are labelled with their indices can be checked by computation. -/
instance Numbered.decidable (c : QComboBox) : Decidable c.Numbered :=
  inferInstanceAs (Decidable
    (c.items = (List.range c.items.length).map (fun (i : Nat) => qNumber (i : Int))))

end QComboBox

namespace SGGame

/-- The table of the numbers of actions has one row per state, and in every row one number
per player. -/
def ActionsPerState (g : SGGame) : Prop :=
  (g.getNumActions.length : Int) = g.getNumStates ∧ ∀ row ∈ g.getNumActions, row.length = 2

/-- The shape of the table of the numbers of actions can be checked by computation. -/
instance ActionsPerState.decidable (g : SGGame) : Decidable g.ActionsPerState :=
  inferInstanceAs (Decidable
    ((g.getNumActions.length : Int) = g.getNumStates ∧
      ∀ row ∈ g.getNumActions, row.length = 2))

end SGGame

namespace SGGameHandler

/-- The game tab goes with its game: the size invariant holds, there is one edit of the
number of actions per player, the payoff model is there, and the table of the numbers of
actions of the game has one row per state with one number per player. -/
def TabReady (h : SGGameHandler) : Prop :=
  h.TabSizes ∧ h.numActionsEdits.length = 2 ∧ h.payoffModel ≠ none ∧ h.game.ActionsPerState

/-- Whether the game tab goes with its game can be checked by computation. -/
instance TabReady.decidable (h : SGGameHandler) : Decidable h.TabReady :=
  inferInstanceAs (Decidable
    (h.TabSizes ∧ h.numActionsEdits.length = 2 ∧ h.payoffModel ≠ none ∧
      h.game.ActionsPerState))

end SGGameHandler

/-! ## The polygons of the approximation engine

The correspondence approximation is, per state, a convex polygon stored as a cyclically
ordered sequence of vertices; a step inserts the new pivot of each state into its polygon. -/

/-- Modelled from the spec: a vertex of a polygon of the correspondence approximation (the
approximation engine is not among the sources): a payoff vector of the two players, in exact
arithmetic. -/
structure Vertex where
  x : ℚ
  y : ℚ
deriving DecidableEq, Repr

/-- Twice the signed area of the triangle `a b c`: positive when `c` lies strictly to the
left of the directed line from `a` to `b`. -/
def orient (a b c : Vertex) : ℚ :=
  (b.x - a.x) * (c.y - a.y) - (b.y - a.y) * (c.x - a.x)

/-- Vertex `i` of a polygon, and the origin for an index out of range. -/
def vertexAt (P : List Vertex) (i : Nat) : Vertex := P.getD i { x := 0, y := 0 }

/-- Modelled from the spec: the vertices of a polygon are in convex cyclic order. The polygon
has at least three vertices, all different, and every vertex other than the two ends of an
edge (a vertex and its cyclic successor) lies strictly to the left of that edge; so the
directions of the edges turn left all the way round. -/
def ConvexCyclic (P : List Vertex) : Prop :=
  3 ≤ P.length ∧ P.Nodup ∧
  ∀ i < P.length, ∀ c ∈ P, c ≠ vertexAt P i → c ≠ vertexAt P ((i + 1) % P.length) →
    0 < orient (vertexAt P i) (vertexAt P ((i + 1) % P.length)) c

/-- Where a point lies with respect to a directed edge, up to the tolerance. -/
inductive Side where
  | inside
  | outside
  | near
deriving DecidableEq, Repr

/-- Modelled from the spec: the comparison of the pivot `p` with the edge from `a` to `b`,
using the configured tolerance: inside when it lies to the left by more than the tolerance,
outside when it lies to the right by more than the tolerance, near otherwise. -/
def side (tol : ℚ) (p a b : Vertex) : Side :=
  if tol < orient a b p then Side.inside
  else if orient a b p < -tol then Side.outside
  else Side.near

/-- The side of the pivot with respect to edge `i` of the polygon, from vertex `i` to its
cyclic successor. -/
def edgeSide (tol : ℚ) (p : Vertex) (P : List Vertex) (i : Nat) : Side :=
  side tol p (vertexAt P i) (vertexAt P ((i + 1) % P.length))

/-- The first edge, from edge `i` on and among `k` edges, that does not have the pivot
inside; `i + k` when there is none. -/
def chainEnd (tol : ℚ) (p : Vertex) (Q : List Vertex) : Nat → Nat → Nat
  | 0, i => i
  | k + 1, i => if edgeSide tol p Q i = Side.inside then chainEnd tol p Q k (i + 1) else i

/-- Whether the rotation of the polygon by `r` starts where the boundary seen from the pivot
ends: its first edge has the pivot inside and its closing edge has the pivot outside. -/
def tangentStart (tol : ℚ) (p : Vertex) (P : List Vertex) (r : Nat) : Bool :=
  decide (edgeSide tol p (P.rotate r) 0 = Side.inside) &&
  decide (edgeSide tol p (P.rotate r) (P.length - 1) = Side.outside)

/-- Modelled from the spec: the update of one polygon by `step` (standard incremental
boundary maintenance): "insert the new pivot into the state's polygon preserving cyclic
convex order, discarding vertices rendered interior".

* A pivot that every edge has inside is not a new extreme point: the polygon stays.
* A pivot that is near some edge is a numerical degeneracy: `none`.
* Otherwise the polygon is turned so that it starts at the vertex where the edges seen
  from the pivot end; the vertices up to the first edge seen from the pivot are kept, the
  others are rendered interior and discarded, and the pivot closes the polygon. -/
def insertPivot (tol : ℚ) (p : Vertex) (P : List Vertex) : Option (List Vertex) :=
  if (List.range P.length).all (fun i => decide (edgeSide tol p P i = Side.inside)) then some P
  else if (List.range P.length).any (fun i => decide (edgeSide tol p P i = Side.near)) then none
  else
    match (List.range P.length).find? (tangentStart tol p P) with
    | none => none
    | some r =>
      some ((P.rotate r).take (chainEnd tol p (P.rotate r) P.length 0 + 1) ++ [p])

/-- Modelled from the spec: the polygons of the states from state `s` on, updated each with
the new pivot of its state; `none` when an update fails. -/
def stepFrom (tol : ℚ) (pivot : Nat → Vertex) : Nat → List (List Vertex) →
    Option (List (List Vertex))
  | _, [] => some []
  | s, P :: rest =>
    match insertPivot tol (pivot s) P, stepFrom tol pivot (s + 1) rest with
    | some P1, some rest1 => some (P1 :: rest1)
    | _, _ => none

/-- Modelled from the spec: `step` of the approximation engine, as far as the polygons go:
"per state, the action-pair attaining the maximal directional value becomes that state's new
pivot. Insert the new pivot into the state's polygon". The new pivot of each state, which
the engine obtains from the constraint solver, is the parameter `pivot`; `none` is the
status Failed. -/
def step (tol : ℚ) (pivot : Nat → Vertex) (polygons : List (List Vertex)) :
    Option (List (List Vertex)) :=
  stepFrom tol pivot 0 polygons

/-- Modelled from the spec: `n` calls of `step` in a row, from iteration `it` on. The
constraint solver is the parameter `solver`: it gives the new pivot of each state from the
number of the iteration (which fixes the direction) and the current polygons. -/
def steps (tol : ℚ) (solver : Nat → List (List Vertex) → Nat → Vertex) :
    Nat → Nat → List (List Vertex) → Option (List (List Vertex))
  | 0, _, polygons => some polygons
  | n + 1, it, polygons =>
    match step tol (solver it polygons) polygons with
    | none => none
    | some next => steps tol solver n (it + 1) next

/-- Convex cyclic order can be checked by computation. -/
instance ConvexCyclic.decidable (P : List Vertex) : Decidable (ConvexCyclic P) :=
  inferInstanceAs (Decidable (3 ≤ P.length ∧ P.Nodup ∧
    ∀ i < P.length, ∀ c ∈ P, c ≠ vertexAt P i → c ≠ vertexAt P ((i + 1) % P.length) →
      0 < orient (vertexAt P i) (vertexAt P ((i + 1) % P.length)) c))

/-! ## Sample data

A one-state game, engines with a fixed behaviour, and workers and handlers on them, on which
the properties below are instantiated. -/

/-- A game with one state and one action for each player. -/
def sampleGame : SGGame :=
  { delta := Dbl.fin 0
    numStates := 1
    numActions := [[1, 1]]
    payoffs := [[{ x := Dbl.fin 0, y := Dbl.fin 0 }]]
    probabilities := [[[Dbl.fin 1]]]
    unconstrained := [false, false]
    eqActions := [[]] }

/-- An engine whose `generate` counts the iteration, makes the pivot the last extreme tuple
and returns the distance `d`; its `end` does nothing and no `push_back` raises. -/
def countingEngine (d : Dbl) : Engine :=
  { generate := fun a s =>
      GenOutcome.returned d
        { a with numIterations := a.numIterations + 1
                 extremeTuples := a.extremeTuples ++ [a.pivot] } s
    end_ := fun a s => (a, s)
    pushRaises := fun _ _ => false }

/-- An engine whose `generate` raises an exception. -/
def failingEngine : Engine :=
  { generate := fun a s => GenOutcome.raised a s
    end_ := fun a s => (a, s)
    pushRaises := fun _ _ => false }

/-- An engine whose `generate` counts the iteration and returns the distance `d`, as
`countingEngine`, and whose `end` stores the iteration reached in the solution. -/
def finishingEngine (d : Dbl) : Engine :=
  { generate := fun a s =>
      GenOutcome.returned d
        { a with numIterations := a.numIterations + 1
                 extremeTuples := a.extremeTuples ++ [a.pivot] } s
    end_ := fun a s =>
      (a, { s with iterations := s.iterations ++
        [{ iteration := a.numIterations, pivot := a.pivot, direction := a.currentDirection }] })
    pushRaises := fun _ _ => false }

/-- An engine whose `generate` raises an exception after it has counted the iteration, and
whose `end` stores the iteration reached in the solution. -/
def failingFinishingEngine : Engine :=
  { generate := fun a s => GenOutcome.raised { a with numIterations := a.numIterations + 1 } s
    end_ := fun a s =>
      (a, { s with iterations := s.iterations ++
        [{ iteration := a.numIterations, pivot := a.pivot, direction := a.currentDirection }] })
    pushRaises := fun _ _ => false }

/-- A worker on the sample game with error tolerance 1, after `n` iterations, with the
iteration cap `cap` and the status `st`. -/
def sampleWorker (n cap : Int) (st : Option STATUS) : SGSolverWorker :=
  { env := { errorTol := Dbl.fin 1, maxIterations := cap }
    soln := { game := sampleGame, extremeTuples := [], iterations := [] }
    approx :=
      { numIterations := n
        extremeTuples := [[{ x := Dbl.fin 0, y := Dbl.fin 0 }]]
        pivot := [{ x := Dbl.fin 3, y := Dbl.fin 4 }]
        currentDirection := { x := Dbl.fin 1, y := Dbl.fin 0 }
        threatTuple := [{ x := Dbl.fin 0, y := Dbl.fin 0 }] }
    status := st }

/-- A set-up of the engine that starts from the payoff (0,0) of the sample game as only
extreme tuple and pivot, with no iteration made, and whose `initialize` does nothing. -/
def sampleSetup : EngineSetup :=
  { newApprox := fun _ _ _ =>
      { numIterations := 0
        extremeTuples := [[{ x := Dbl.fin 0, y := Dbl.fin 0 }]]
        pivot := [{ x := Dbl.fin 0, y := Dbl.fin 0 }]
        currentDirection := { x := Dbl.fin 1, y := Dbl.fin 0 }
        threatTuple := [{ x := Dbl.fin 0, y := Dbl.fin 0 }] }
    initialize_ := fun a s => some (a, s) }

/-- An engine that counts iterations and returns the distance `d`, as `countingEngine`, but
whose second `push_back` on a solution raises. -/
def fullEngine (d : Dbl) : Engine :=
  { generate := fun a s =>
      GenOutcome.returned d
        { a with numIterations := a.numIterations + 1
                 extremeTuples := a.extremeTuples ++ [a.pivot] } s
    end_ := fun a s => (a, s)
    pushRaises := fun s _ => decide (1 ≤ s.extremeTuples.length) }

/-- A game with two states: one action for each player in state 0, two actions for the row
player and three for the column player in state 1. -/
def twoStateGame : SGGame :=
  { delta := Dbl.fin 0
    numStates := 2
    numActions := [[1, 1], [2, 3]]
    payoffs := [[{ x := Dbl.fin 0, y := Dbl.fin 0 }], []]
    probabilities := [[[Dbl.fin 1, Dbl.fin 0]], []]
    unconstrained := [false, true]
    eqActions := [[], []] }

/-- The game tab showing state 0 of `twoStateGame`, with the check state `checked` of the box
"Only calculate feasible set". -/
def sampleHandler (checked : Bool) : SGGameHandler :=
  { game := twoStateGame
    errorTol := Dbl.fin 0
    deltaEdit := { text := "0" }
    errorTolEdit := { text := "0" }
    numStatesEdit := { text := "2" }
    numActionsEdits := [{ text := "1" }, { text := "1" }]
    payoffModel := some { state := 0 }
    probabilityModels := [{ state := 0, nextState := 0 }, { state := 0, nextState := 1 }]
    payoffTableView := { scrollBarsDisabled := false }
    probabilityTableViews := [{ scrollBarsDisabled := true }, { scrollBarsDisabled := true }]
    currentStateCombo := { items := ["0", "1"], currentIndex := 0 }
    feasibleCheckBox := { checked := checked }
    probabilityTableLayout :=
      [LayoutWidget.label "State 0:", LayoutWidget.tableView,
       LayoutWidget.label "State 1:", LayoutWidget.tableView] }

/-- A reading of texts as numbers that knows three texts. -/
def sampleParse (text : String) : Option Dbl :=
  if text = "0.5" then some (Dbl.fin (1 / 2))
  else if text = "1" then some (Dbl.fin 1)
  else if text = "-3" then some (Dbl.fin (-3))
  else none

/-- The number of actions of `player` in `state` changed by `change`, in the table of the
numbers of actions. -/
def changeNumActions (numActions : List (List Int)) (state player change : Int) :
    List (List Int) :=
  match numActions[state.toNat]? with
  | none => numActions
  | some row =>
    match row[player.toNat]? with
    | none => numActions
    | some n => numActions.set state.toNat (row.set player.toNat (n + change))

/-- Editing methods of the game that keep its numbers of states and of actions up to date:
an action more or less for the player in the state, a new state with one action for each
player at the position, the state removed. -/
def sampleOps : GameOps :=
  { addAction := fun g state player _ =>
      { g with numActions := changeNumActions g.numActions state player 1 }
    removeAction := fun g state player _ =>
      { g with numActions := changeNumActions g.numActions state player (-1) }
    addState := fun g position =>
      { g with numStates := g.numStates + 1
               numActions := g.numActions.take position.toNat ++ [[1, 1]]
                 ++ g.numActions.drop position.toNat }
    removeState := fun g state =>
      { g with numStates := g.numStates - 1
               numActions := g.numActions.eraseIdx state.toNat } }

/-- The game tab showing the only state of `sampleGame`. -/
def oneStateHandler : SGGameHandler :=
  { game := sampleGame
    errorTol := Dbl.fin 0
    deltaEdit := { text := "0" }
    errorTolEdit := { text := "0" }
    numStatesEdit := { text := "1" }
    numActionsEdits := [{ text := "1" }, { text := "1" }]
    payoffModel := some { state := 0 }
    probabilityModels := [{ state := 0, nextState := 0 }]
    payoffTableView := { scrollBarsDisabled := false }
    probabilityTableViews := [{ scrollBarsDisabled := true }]
    currentStateCombo := { items := ["0"], currentIndex := 0 }
    feasibleCheckBox := { checked := false }
    probabilityTableLayout := [LayoutWidget.label "State 0:", LayoutWidget.tableView] }

/-- A printing of numbers as texts that knows the numbers 0, 1 and 1/2. -/
def sampleShowNumber (d : Dbl) : String :=
  if d = Dbl.fin 0 then "0"
  else if d = Dbl.fin 1 then "1"
  else if d = Dbl.fin (1 / 2) then "0.5"
  else "nan"

/-- A square, in convex cyclic order. -/
def sampleSquare : List Vertex :=
  [{ x := 0, y := 0 }, { x := 2, y := 0 }, { x := 2, y := 2 }, { x := 0, y := 2 }]

/-- A constraint solver for two states: in iteration `it` the pivot of the first state is
`(3 + it, 1)` and that of every other state is `(1, 3 + it)`. -/
def samplePivots (it : Nat) (_ : List (List Vertex)) (s : Nat) : Vertex :=
  if s = 0 then { x := 3 + (it : ℚ), y := 1 } else { x := 1, y := 3 + (it : ℚ) }

/-! ## Properties of the comparisons -/

/-- A double that is at most another is not greater than it. -/
theorem Dbl.gt_eq_false_of_le {a b : Dbl} (h : a.le b = true) : a.gt b = false := by
  cases a <;> cases b <;> simp_all [Dbl.le, Dbl.gt, Dbl.lt]

/-! ## Properties of `SGSolverWorker::iterate` -/

/-- An iteration whose recording and whose `generate` return normally ends in one of the
two branches of the test of `iterate`. -/
theorem iterate_of_returned (e : Engine) (w : SGSolverWorker) (s0 s1 : SGSolution) (d : Dbl)
    (a : SGApprox) (hrec : recordTuples e w = some (PushOutcome.done s0))
    (hgen : e.generate w.approx s0 = GenOutcome.returned d a s1) :
    iterate e w =
      if d.gt w.env.errorTol && decide (a.numIterations < w.env.maxIterations) then
        some { worker := { w with approx := a, soln := s1,
                                  status := some STATUS.NOTCONVERGED },
               events := [Event.generate, Event.resultReady false] }
      else
        some { worker := { w with approx := (e.end_ a s1).1, soln := (e.end_ a s1).2,
                                  status := some STATUS.CONVERGED },
               events := [Event.generate, Event.end_, Event.resultReady true] } := by
  simp [iterate, hrec, hgen]

/-- The recording of the trajectory has defined behaviour as soon as the approximation has
an extreme tuple or no iteration has been made. -/
theorem recordTuples_defined (e : Engine) (w : SGSolverWorker)
    (hdef : w.approx.numIterations = 0 ∨ w.approx.extremeTuples ≠ []) :
    ∃ o, recordTuples e w = some o := by
  unfold recordTuples
  by_cases h0 : w.approx.numIterations = 0
  · simp [h0]
  · have hne : w.approx.extremeTuples ≠ [] := hdef.resolve_left h0
    obtain ⟨t, ht⟩ : ∃ t, w.approx.extremeTuples.getLast? = some t := by
      cases hl : w.approx.extremeTuples.getLast? with
      | none => exact absurd (List.getLast?_eq_none_iff.mp hl) hne
      | some t => exact ⟨t, rfl⟩
    simp [h0, ht]

/-- Claim C1 fails on the code: in every call of iterate in which generate returns without
error a distance strictly greater than the error tolerance while the iteration count has
reached the maximum number of iterations, the worker calls end, emits resultReady(true) and
reports the status CONVERGED, not NOTCONVERGED. -/
theorem iterate_cap_reached_reports_converged (e : Engine) (w : SGSolverWorker)
    (s0 s1 : SGSolution) (d : Dbl) (a : SGApprox)
    (hrec : recordTuples e w = some (PushOutcome.done s0))
    (hgen : e.generate w.approx s0 = GenOutcome.returned d a s1)
    (hd : d.gt w.env.errorTol = true)
    (hcap : w.env.maxIterations ≤ a.numIterations) :
    ∃ r, iterate e w = some r ∧
      r.worker.status = some STATUS.CONVERGED ∧
      r.worker.status ≠ some STATUS.NOTCONVERGED ∧
      (r.worker.approx, r.worker.soln) = e.end_ a s1 ∧
      r.events = [Event.generate, Event.end_, Event.resultReady true] := by
  rw [iterate_of_returned e w s0 s1 d a hrec hgen]
  have hlt : ¬ a.numIterations < w.env.maxIterations := not_lt.mpr hcap
  refine ⟨_, by simp [hd, hlt]; rfl, rfl, by simp, rfl, rfl⟩

/-- Instance of `iterate_cap_reached_reports_converged`: in the fifth iteration of a run
capped at five iterations, generate returns the distance 2, above the tolerance 1, the
iteration count 5 has reached the maximum, and the worker reports CONVERGED. -/
theorem iterate_cap_reached_reports_converged_witness :
    (Dbl.fin 2).gt (sampleWorker 4 5 none).env.errorTol = true ∧
    (sampleWorker 4 5 none).env.maxIterations ≤ 5 ∧
    ∃ r, iterate (countingEngine (Dbl.fin 2)) (sampleWorker 4 5 none) = some r ∧
      r.worker.status = some STATUS.CONVERGED ∧
      r.worker.status ≠ some STATUS.NOTCONVERGED ∧
      (r.worker.approx, r.worker.soln) = (countingEngine (Dbl.fin 2)).end_
        { (sampleWorker 4 5 none).approx with
          numIterations := 5
          extremeTuples := (sampleWorker 4 5 none).approx.extremeTuples
            ++ [(sampleWorker 4 5 none).approx.pivot] }
        { game := sampleGame, extremeTuples := [[{ x := Dbl.fin 0, y := Dbl.fin 0 }]],
          iterations := [] } ∧
      r.events = [Event.generate, Event.end_, Event.resultReady true] :=
  ⟨by decide, by decide,
    iterate_cap_reached_reports_converged (countingEngine (Dbl.fin 2)) (sampleWorker 4 5 none)
      { game := sampleGame, extremeTuples := [[{ x := Dbl.fin 0, y := Dbl.fin 0 }]],
        iterations := [] }
      { game := sampleGame, extremeTuples := [[{ x := Dbl.fin 0, y := Dbl.fin 0 }]],
        iterations := [] }
      (Dbl.fin 2)
      { (sampleWorker 4 5 none).approx with
        numIterations := 5
        extremeTuples := (sampleWorker 4 5 none).approx.extremeTuples
          ++ [(sampleWorker 4 5 none).approx.pivot] }
      rfl rfl (by decide) (by decide)⟩

/-- Claim C2: in every call of iterate in which generate returns without error a distance
less than or equal to the error tolerance, the status becomes CONVERGED, whatever the
iteration count and the maximum number of iterations are. -/
theorem iterate_converged_within_tolerance (e : Engine) (w : SGSolverWorker)
    (s0 s1 : SGSolution) (d : Dbl) (a : SGApprox)
    (hrec : recordTuples e w = some (PushOutcome.done s0))
    (hgen : e.generate w.approx s0 = GenOutcome.returned d a s1)
    (hd : d.le w.env.errorTol = true) :
    ∃ r, iterate e w = some r ∧ r.worker.status = some STATUS.CONVERGED := by
  rw [iterate_of_returned e w s0 s1 d a hrec hgen]
  simp [Dbl.gt_eq_false_of_le hd]

/-- Instance of `iterate_converged_within_tolerance`: the distance equals the tolerance 1,
in the first of a hundred iterations allowed. -/
theorem iterate_converged_within_tolerance_witness :
    ∃ r, iterate (countingEngine (Dbl.fin 1)) (sampleWorker 0 100 none) = some r ∧
      r.worker.status = some STATUS.CONVERGED :=
  iterate_converged_within_tolerance (countingEngine (Dbl.fin 1)) (sampleWorker 0 100 none)
    _ _ (Dbl.fin 1) _ rfl rfl (by decide)

/-- Every iteration with defined behaviour, case by case: what `iterate` returns is fixed by
the outcome of the recording and, when the recording is done, by the outcome of
`generate`. -/
theorem iterate_cases (e : Engine) (w : SGSolverWorker) (r : IterateResult)
    (h : iterate e w = some r) :
    (∃ s, recordTuples e w = some (PushOutcome.raised s) ∧ r = iterateCatch e w w.approx s []) ∨
    (∃ s0 a s1, recordTuples e w = some (PushOutcome.done s0) ∧
      e.generate w.approx s0 = GenOutcome.raised a s1 ∧
      r = iterateCatch e w a s1 [Event.generate]) ∨
    (∃ s0 d a s1, recordTuples e w = some (PushOutcome.done s0) ∧
      e.generate w.approx s0 = GenOutcome.returned d a s1 ∧
      (d.gt w.env.errorTol && decide (a.numIterations < w.env.maxIterations)) = true ∧
      r = { worker := { w with approx := a, soln := s1, status := some STATUS.NOTCONVERGED },
            events := [Event.generate, Event.resultReady false] }) ∨
    (∃ s0 d a s1, recordTuples e w = some (PushOutcome.done s0) ∧
      e.generate w.approx s0 = GenOutcome.returned d a s1 ∧
      (d.gt w.env.errorTol && decide (a.numIterations < w.env.maxIterations)) = false ∧
      r = { worker := { w with approx := (e.end_ a s1).1, soln := (e.end_ a s1).2,
                               status := some STATUS.CONVERGED },
            events := [Event.generate, Event.end_, Event.resultReady true] }) := by
  unfold iterate at h
  cases hrec : recordTuples e w with
  | none => simp [hrec] at h
  | some o =>
    cases o with
    | raised s =>
      simp only [hrec, Option.some.injEq] at h
      exact Or.inl ⟨s, rfl, h.symm⟩
    | done s0 =>
      simp only [hrec] at h
      cases hgen : e.generate w.approx s0 with
      | raised a s1 =>
        simp only [hgen, Option.some.injEq] at h
        exact Or.inr (Or.inl ⟨s0, a, s1, rfl, hgen, h.symm⟩)
      | returned d a s1 =>
        simp only [hgen] at h
        cases hc : (d.gt w.env.errorTol && decide (a.numIterations < w.env.maxIterations)) with
        | true =>
          simp only [hc, if_true, Option.some.injEq] at h
          exact Or.inr (Or.inr (Or.inl ⟨s0, d, a, s1, rfl, hgen, hc, h.symm⟩))
        | false =>
          simp only [hc, Bool.false_eq_true, if_false, Option.some.injEq] at h
          exact Or.inr (Or.inr (Or.inr ⟨s0, d, a, s1, rfl, hgen, hc, h.symm⟩))

/-- Claim C3: after any call of iterate the status is FAILED if and only if an exception was
raised inside the iteration, by the recording of the trajectory or by generate; and an
iteration in which generate raises is reported neither as CONVERGED nor as NOTCONVERGED. -/
theorem iterate_failed_iff_raised (e : Engine) (w : SGSolverWorker) (r : IterateResult)
    (h : iterate e w = some r) :
    (r.worker.status = some STATUS.FAILED ↔ raisedInside e w = true) ∧
    (∀ s0 a s1, recordTuples e w = some (PushOutcome.done s0) →
      e.generate w.approx s0 = GenOutcome.raised a s1 →
      r.worker.status ≠ some STATUS.CONVERGED ∧
      r.worker.status ≠ some STATUS.NOTCONVERGED) := by
  rcases iterate_cases e w r h with ⟨s, hrec, rfl⟩ | ⟨s0, a, s1, hrec, hgen, rfl⟩ |
    ⟨s0, d, a, s1, hrec, hgen, -, rfl⟩ | ⟨s0, d, a, s1, hrec, hgen, -, rfl⟩
  · simp [raisedInside, hrec, iterateCatch]
  · simp [raisedInside, hrec, hgen, iterateCatch]
  · refine ⟨by simp [raisedInside, hrec, hgen], fun t0 a1 t1 hrec1 hgen1 => ?_⟩
    rw [hrec] at hrec1
    cases hrec1
    rw [hgen] at hgen1
    cases hgen1
  · refine ⟨by simp [raisedInside, hrec, hgen], fun t0 a1 t1 hrec1 hgen1 => ?_⟩
    rw [hrec] at hrec1
    cases hrec1
    rw [hgen] at hgen1
    cases hgen1

/-- Instance of `iterate_failed_iff_raised`: an engine whose generate raises. -/
theorem iterate_failed_iff_raised_witness :
    ∃ r, iterate failingEngine (sampleWorker 2 5 none) = some r ∧
      (r.worker.status = some STATUS.FAILED ↔
        raisedInside failingEngine (sampleWorker 2 5 none) = true) ∧
      (∀ s0 a s1, recordTuples failingEngine (sampleWorker 2 5 none)
          = some (PushOutcome.done s0) →
        failingEngine.generate (sampleWorker 2 5 none).approx s0 = GenOutcome.raised a s1 →
        r.worker.status ≠ some STATUS.CONVERGED ∧
        r.worker.status ≠ some STATUS.NOTCONVERGED) :=
  ⟨_, rfl, iterate_failed_iff_raised failingEngine (sampleWorker 2 5 none) _ rfl⟩

/-- A call of `iterate` with defined behaviour returns. -/
theorem iterate_defined (e : Engine) (w : SGSolverWorker)
    (hdef : w.approx.numIterations = 0 ∨ w.approx.extremeTuples ≠ []) :
    ∃ r, iterate e w = some r := by
  obtain ⟨o, hrec⟩ := recordTuples_defined e w hdef
  cases o with
  | raised s => exact ⟨iterateCatch e w w.approx s [], by simp [iterate, hrec]⟩
  | done s0 =>
    cases hgen : e.generate w.approx s0 with
    | raised a s1 =>
      exact ⟨iterateCatch e w a s1 [Event.generate], by simp [iterate, hrec, hgen]⟩
    | returned d a s1 =>
      rw [iterate_of_returned e w s0 s1 d a hrec hgen]
      cases hc : (d.gt w.env.errorTol && decide (a.numIterations < w.env.maxIterations)) with
      | true => exact ⟨_, rfl⟩
      | false => exact ⟨_, rfl⟩

/-- Claim C4: iterate never propagates an error to its caller. For every behaviour of
generate, a raised exception included, and of the recording, a call of iterate (with
defined behaviour: the approximation has an extreme tuple, or no iteration has been made)
returns normally, with the status set to FAILED, CONVERGED or NOTCONVERGED. -/
theorem iterate_returns_with_status (e : Engine) (w : SGSolverWorker)
    (hdef : w.approx.numIterations = 0 ∨ w.approx.extremeTuples ≠ []) :
    ∃ r, iterate e w = some r ∧
      (r.worker.status = some STATUS.FAILED ∨ r.worker.status = some STATUS.CONVERGED ∨
        r.worker.status = some STATUS.NOTCONVERGED) := by
  obtain ⟨r, hr⟩ := iterate_defined e w hdef
  refine ⟨r, hr, ?_⟩
  rcases iterate_cases e w r hr with ⟨s, -, rfl⟩ | ⟨s0, a, s1, -, -, rfl⟩ |
    ⟨s0, d, a, s1, -, -, -, rfl⟩ | ⟨s0, d, a, s1, -, -, -, rfl⟩
  · exact Or.inl rfl
  · exact Or.inl rfl
  · exact Or.inr (Or.inr rfl)
  · exact Or.inr (Or.inl rfl)

/-- Instance of `iterate_returns_with_status`: an engine whose generate raises, on a worker
that has never been given a status. -/
theorem iterate_returns_with_status_witness :
    ∃ r, iterate failingEngine (sampleWorker 2 5 none) = some r ∧
      (r.worker.status = some STATUS.FAILED ∨ r.worker.status = some STATUS.CONVERGED ∨
        r.worker.status = some STATUS.NOTCONVERGED) :=
  iterate_returns_with_status failingEngine (sampleWorker 2 5 none) (Or.inr (by decide))

/-- A `push_back` that does not raise appends the tuple. -/
theorem pushAll_singleton_done (e : Engine) (s s0 : SGSolution) (t : SGTuple)
    (h : pushAll e s [t] = PushOutcome.done s0) :
    s0.extremeTuples = s.extremeTuples ++ [t] := by
  unfold pushAll at h
  by_cases hr : e.pushRaises s t = true
  · simp [hr] at h
  · simp [hr, pushAll] at h
    rw [← h]

/-- A sequence of `push_back` calls of which none raises appends the tuples in order, and
changes nothing else in the solution. -/
theorem pushAll_done (e : Engine) :
    ∀ (ts : List SGTuple) (s s0 : SGSolution), pushAll e s ts = PushOutcome.done s0 →
      s0 = { s with extremeTuples := s.extremeTuples ++ ts } := by
  intro ts
  induction ts with
  | nil =>
    intro s s0 h
    simp only [pushAll, PushOutcome.done.injEq] at h
    simp [← h]
  | cons t ts ih =>
    intro s s0 h
    unfold pushAll at h
    by_cases hr : e.pushRaises s t = true
    · simp [hr] at h
    · simp only [hr, Bool.false_eq_true, if_false] at h
      rw [ih _ _ h]
      simp

/-- Claim C5, as amended: iterate does not read the status, so on a worker whose status is
CONVERGED, as on any other, the call does what it does under every other status. When the
recording does not raise it runs generate once more, on the approximation of the worker and
on the solution with the last extreme tuple appended (for a worker that has made an
iteration), and the worker is left with what this generate has made of them: as it is in an
iteration that goes on, and after end in one that converges or fails. No idempotence after
convergence comes from iterate itself. -/
theorem iterate_ignores_status (e : Engine) (w : SGSolverWorker) (s0 : SGSolution)
    (hrec : recordTuples e w = some (PushOutcome.done s0)) :
    (∀ st, iterate e { w with status := st } = iterate e w) ∧
    (w.approx.numIterations ≠ 0 →
      ∃ t, w.approx.extremeTuples.getLast? = some t ∧
        s0 = { w.soln with extremeTuples := w.soln.extremeTuples ++ [t] }) ∧
    (∃ r, iterate e w = some r ∧ r.events.count Event.generate = 1 ∧
      ((∃ a s1, e.generate w.approx s0 = GenOutcome.raised a s1 ∧
          r.worker.status = some STATUS.FAILED ∧
          (r.worker.approx, r.worker.soln) = e.end_ a s1) ∨
        (∃ d a s1, e.generate w.approx s0 = GenOutcome.returned d a s1 ∧
          ((r.worker.status = some STATUS.NOTCONVERGED ∧
              (r.worker.approx, r.worker.soln) = (a, s1)) ∨
            (r.worker.status = some STATUS.CONVERGED ∧
              (r.worker.approx, r.worker.soln) = e.end_ a s1))))) := by
  refine ⟨fun st => ?_, fun hn => ?_, ?_⟩
  · simp [iterate, recordTuples, iterateCatch]
  · unfold recordTuples at hrec
    simp only [hn, if_false] at hrec
    cases hl : w.approx.extremeTuples.getLast? with
    | none => simp [hl] at hrec
    | some t =>
      simp only [hl, Option.some.injEq] at hrec
      exact ⟨t, rfl, pushAll_done e _ _ _ hrec⟩
  · cases hgen : e.generate w.approx s0 with
    | raised a s1 =>
      exact ⟨iterateCatch e w a s1 [Event.generate], by simp [iterate, hrec, hgen],
        by simp [iterateCatch], Or.inl ⟨a, s1, rfl, rfl, rfl⟩⟩
    | returned d a s1 =>
      rw [iterate_of_returned e w s0 s1 d a hrec hgen]
      cases hc : (d.gt w.env.errorTol && decide (a.numIterations < w.env.maxIterations)) with
      | true => exact ⟨_, rfl, by simp, Or.inr ⟨d, a, s1, rfl, Or.inl ⟨rfl, rfl⟩⟩⟩
      | false => exact ⟨_, rfl, by simp, Or.inr ⟨d, a, s1, rfl, Or.inr ⟨rfl, rfl⟩⟩⟩

/-- Instance of `iterate_ignores_status`: a worker whose status is CONVERGED after three
iterations, on which another call makes a fourth iteration, records a tuple and stores the
iteration in the solution once more. -/
theorem iterate_ignores_status_witness :
    (∃ r, iterate (finishingEngine (Dbl.fin 0)) (sampleWorker 3 10 (some STATUS.CONVERGED))
        = some r ∧
      r.worker.approx.numIterations = 4 ∧
      r.worker.soln.extremeTuples = [[{ x := Dbl.fin 0, y := Dbl.fin 0 }]] ∧
      r.worker.soln.iterations.length = 1) ∧
    (∀ st, iterate (finishingEngine (Dbl.fin 0))
        { sampleWorker 3 10 (some STATUS.CONVERGED) with status := st }
      = iterate (finishingEngine (Dbl.fin 0)) (sampleWorker 3 10 (some STATUS.CONVERGED))) ∧
    ((sampleWorker 3 10 (some STATUS.CONVERGED)).approx.numIterations ≠ 0 →
      ∃ t, (sampleWorker 3 10 (some STATUS.CONVERGED)).approx.extremeTuples.getLast? = some t ∧
        ({ game := sampleGame, extremeTuples := [[{ x := Dbl.fin 0, y := Dbl.fin 0 }]],
           iterations := [] } : SGSolution)
          = { (sampleWorker 3 10 (some STATUS.CONVERGED)).soln with
              extremeTuples :=
                (sampleWorker 3 10 (some STATUS.CONVERGED)).soln.extremeTuples ++ [t] }) ∧
    (∃ r, iterate (finishingEngine (Dbl.fin 0)) (sampleWorker 3 10 (some STATUS.CONVERGED))
        = some r ∧ r.events.count Event.generate = 1 ∧
      ((∃ a s1, (finishingEngine (Dbl.fin 0)).generate
            (sampleWorker 3 10 (some STATUS.CONVERGED)).approx
            { game := sampleGame, extremeTuples := [[{ x := Dbl.fin 0, y := Dbl.fin 0 }]],
              iterations := [] } = GenOutcome.raised a s1 ∧
          r.worker.status = some STATUS.FAILED ∧
          (r.worker.approx, r.worker.soln) = (finishingEngine (Dbl.fin 0)).end_ a s1) ∨
        (∃ d a s1, (finishingEngine (Dbl.fin 0)).generate
            (sampleWorker 3 10 (some STATUS.CONVERGED)).approx
            { game := sampleGame, extremeTuples := [[{ x := Dbl.fin 0, y := Dbl.fin 0 }]],
              iterations := [] } = GenOutcome.returned d a s1 ∧
          ((r.worker.status = some STATUS.NOTCONVERGED ∧
              (r.worker.approx, r.worker.soln) = (a, s1)) ∨
            (r.worker.status = some STATUS.CONVERGED ∧
              (r.worker.approx, r.worker.soln)
                = (finishingEngine (Dbl.fin 0)).end_ a s1))))) :=
  ⟨⟨_, rfl, rfl, rfl, rfl⟩,
    iterate_ignores_status (finishingEngine (Dbl.fin 0))
      (sampleWorker 3 10 (some STATUS.CONVERGED))
      { game := sampleGame, extremeTuples := [[{ x := Dbl.fin 0, y := Dbl.fin 0 }]],
        iterations := [] } rfl⟩

/-- Claim C5 fails: on a worker whose status is CONVERGED after three iterations, with an
empty recorded trajectory, another call of iterate runs generate, which makes a fourth
iteration, and records a tuple in the solution. -/
theorem iterate_after_converged_counterexample :
    (sampleWorker 3 10 (some STATUS.CONVERGED)).status = some STATUS.CONVERGED ∧
    (sampleWorker 3 10 (some STATUS.CONVERGED)).approx.numIterations = 3 ∧
    (sampleWorker 3 10 (some STATUS.CONVERGED)).soln.extremeTuples = [] ∧
    ∃ r, iterate (countingEngine (Dbl.fin 0)) (sampleWorker 3 10 (some STATUS.CONVERGED))
        = some r ∧
      Event.generate ∈ r.events ∧
      r.worker.approx.numIterations = 4 ∧
      r.worker.approx ≠ (sampleWorker 3 10 (some STATUS.CONVERGED)).approx ∧
      r.worker.soln.extremeTuples = [[{ x := Dbl.fin 0, y := Dbl.fin 0 }]] :=
  ⟨rfl, rfl, rfl, _, rfl, by decide, by decide, by decide, by decide⟩

/-- The driving loop on a worker that has made some iterations: when every generate counts
one iteration and leaves an extreme tuple, the loop stops within the iterations that are
left up to the cap, and within one call when none is left. -/
theorem drive_stops_aux (e : Engine)
    (hinc : ∀ a s d a1 s1, e.generate a s = GenOutcome.returned d a1 s1 →
      a1.numIterations = a.numIterations + 1)
    (hne : ∀ a s d a1 s1, e.generate a s = GenOutcome.returned d a1 s1 →
      a1.extremeTuples ≠ []) :
    ∀ (fuel : Nat) (w : SGSolverWorker),
      (w.approx.numIterations = 0 ∨ w.approx.extremeTuples ≠ []) →
      1 ≤ fuel → w.env.maxIterations - w.approx.numIterations ≤ (fuel : Int) →
      ∃ n w1, drive e fuel w = some (n, w1) ∧ 1 ≤ n ∧
        (n : Int) ≤ max 1 (w.env.maxIterations - w.approx.numIterations) ∧
        w1.status ≠ some STATUS.NOTCONVERGED := by
  intro fuel
  induction fuel with
  | zero => intro w _ h1 _; omega
  | succ fuel ih =>
    intro w hdef _ hfuel
    obtain ⟨r, hr⟩ := iterate_defined e w hdef
    have hstop : r.worker.status ≠ some STATUS.NOTCONVERGED →
        ∃ n w1, drive e (fuel + 1) w = some (n, w1) ∧ 1 ≤ n ∧
          (n : Int) ≤ max 1 (w.env.maxIterations - w.approx.numIterations) ∧
          w1.status ≠ some STATUS.NOTCONVERGED := by
      intro hs
      refine ⟨1, r.worker, ?_, le_refl 1, ?_, hs⟩
      · simp [drive, hr, hs]
      · exact_mod_cast le_max_left (1 : Int) _
    rcases iterate_cases e w r hr with ⟨s, -, hrr⟩ | ⟨s0, a, s1, -, -, hrr⟩ |
      ⟨s0, d, a, s1, hrec, hgen, hc, hrr⟩ | ⟨s0, d, a, s1, -, -, -, hrr⟩
    · exact hstop (by rw [hrr]; simp [iterateCatch])
    · exact hstop (by rw [hrr]; simp [iterateCatch])
    · have hlt : a.numIterations < w.env.maxIterations := by
        simp only [Bool.and_eq_true, decide_eq_true_eq] at hc
        exact hc.2
      have hnum := hinc _ _ _ _ _ hgen
      have hnonempty := hne _ _ _ _ _ hgen
      have hwa : r.worker.approx = a := by rw [hrr]
      have hwe : r.worker.env = w.env := by rw [hrr]
      have hws : r.worker.status = some STATUS.NOTCONVERGED := by rw [hrr]
      obtain ⟨n, w1, hd, hn1, hn, hst⟩ := ih r.worker (Or.inr (by rw [hwa]; exact hnonempty))
        (by omega) (by rw [hwa, hwe]; omega)
      refine ⟨n + 1, w1, ?_, by omega, ?_, hst⟩
      · simp [drive, hr, hws, hd]
      · rw [hwa, hwe] at hn
        have h2 : max 1 (w.env.maxIterations - a.numIterations) =
            w.env.maxIterations - a.numIterations := max_eq_right (by omega)
        rw [h2] at hn
        have h3 : w.env.maxIterations - w.approx.numIterations ≤
            max 1 (w.env.maxIterations - w.approx.numIterations) := le_max_right _ _
        push_cast
        omega
    · exact hstop (by rw [hrr]; simp)

/-- Claim C6: bounded driving loop. When every generate call increases numIterations by
exactly one, from 0 after construction (and leaves an extreme tuple, so that the next
recording is defined), the loop that calls iterate until the status is not NOTCONVERGED
stops after at most max(1, MAXITERATIONS) calls, whatever distances generate returns: with
room for that many calls it stops, and it has made no more than that many. -/
theorem drive_stops_within_cap (e : Engine) (w : SGSolverWorker) (fuel : Nat)
    (h0 : w.approx.numIterations = 0)
    (hinc : ∀ a s d a1 s1, e.generate a s = GenOutcome.returned d a1 s1 →
      a1.numIterations = a.numIterations + 1)
    (hne : ∀ a s d a1 s1, e.generate a s = GenOutcome.returned d a1 s1 →
      a1.extremeTuples ≠ [])
    (hfuel : max 1 w.env.maxIterations ≤ (fuel : Int)) :
    ∃ n w1, drive e fuel w = some (n, w1) ∧ (n : Int) ≤ max 1 w.env.maxIterations ∧
      w1.status ≠ some STATUS.NOTCONVERGED := by
  have h1 : (1 : Int) ≤ fuel := le_trans (le_max_left _ _) hfuel
  have h2 : w.env.maxIterations ≤ (fuel : Int) := le_trans (le_max_right _ _) hfuel
  obtain ⟨n, w1, hd, -, hn, hst⟩ := drive_stops_aux e hinc hne fuel w (Or.inl h0)
    (by omega) (by rw [h0]; omega)
  rw [h0, sub_zero] at hn
  exact ⟨n, w1, hd, hn, hst⟩

/-- Instance of `drive_stops_within_cap`: distances that stay above the tolerance, with a
cap of three iterations. -/
theorem drive_stops_within_cap_witness :
    ∃ n w1, drive (countingEngine (Dbl.fin 2)) 3 (sampleWorker 0 3 none) = some (n, w1) ∧
      (n : Int) ≤ max 1 3 ∧ w1.status ≠ some STATUS.NOTCONVERGED :=
  drive_stops_within_cap (countingEngine (Dbl.fin 2)) (sampleWorker 0 3 none) 3 rfl
    (fun a s d a1 s1 h => by
      simp only [countingEngine, GenOutcome.returned.injEq] at h
      rw [← h.2.1])
    (fun a s d a1 s1 h => by
      simp only [countingEngine, GenOutcome.returned.injEq] at h
      rw [← h.2.1]
      simp)
    (by decide)

/-- Claim C7: every call of iterate emits resultReady exactly once, with the argument true
if and only if the status after the call is CONVERGED or FAILED, and with the argument false
if and only if the status after the call is NOTCONVERGED. -/
theorem iterate_emits_resultReady_once (e : Engine) (w : SGSolverWorker) (r : IterateResult)
    (h : iterate e w = some r) :
    r.events.count (Event.resultReady true) + r.events.count (Event.resultReady false) = 1 ∧
    (r.events.count (Event.resultReady true) = 1 ↔
      (r.worker.status = some STATUS.CONVERGED ∨ r.worker.status = some STATUS.FAILED)) ∧
    (r.events.count (Event.resultReady false) = 1 ↔
      r.worker.status = some STATUS.NOTCONVERGED) := by
  rcases iterate_cases e w r h with ⟨s, -, rfl⟩ | ⟨s0, a, s1, -, -, rfl⟩ |
    ⟨s0, d, a, s1, -, -, -, rfl⟩ | ⟨s0, d, a, s1, -, -, -, rfl⟩ <;>
  simp [iterateCatch]

/-- Instance of `iterate_emits_resultReady_once`: an iteration that does not converge. -/
theorem iterate_emits_resultReady_once_witness :
    ∃ r, iterate (countingEngine (Dbl.fin 2)) (sampleWorker 0 3 none) = some r ∧
      (r.events.count (Event.resultReady true)
        + r.events.count (Event.resultReady false) = 1 ∧
      (r.events.count (Event.resultReady true) = 1 ↔
        (r.worker.status = some STATUS.CONVERGED ∨ r.worker.status = some STATUS.FAILED)) ∧
      (r.events.count (Event.resultReady false) = 1 ↔
        r.worker.status = some STATUS.NOTCONVERGED)) :=
  ⟨_, rfl, iterate_emits_resultReady_once (countingEngine (Dbl.fin 2))
    (sampleWorker 0 3 none) _ rfl⟩

/-- Claim C14: iterate calls end exactly once in every iteration that ends with the status
CONVERGED or FAILED, and never in an iteration that ends with the status NOTCONVERGED. In a
terminal iteration the worker is left with what one call of end has made of the
approximation and the solution as the try block left them (where the recording raised,
where generate raised, or where generate returned); in an iteration that ends with
NOTCONVERGED it is left with them as generate returned them, end not applied. -/
theorem iterate_end_once_when_terminal (e : Engine) (w : SGSolverWorker) (r : IterateResult)
    (h : iterate e w = some r) :
    ((r.worker.status = some STATUS.CONVERGED ∨ r.worker.status = some STATUS.FAILED) →
      r.events.count Event.end_ = 1 ∧
      ((∃ s, recordTuples e w = some (PushOutcome.raised s) ∧
          (r.worker.approx, r.worker.soln) = e.end_ w.approx s) ∨
        (∃ s0 a s1, recordTuples e w = some (PushOutcome.done s0) ∧
          e.generate w.approx s0 = GenOutcome.raised a s1 ∧
          (r.worker.approx, r.worker.soln) = e.end_ a s1) ∨
        (∃ s0 d a s1, recordTuples e w = some (PushOutcome.done s0) ∧
          e.generate w.approx s0 = GenOutcome.returned d a s1 ∧
          (r.worker.approx, r.worker.soln) = e.end_ a s1))) ∧
    (r.worker.status = some STATUS.NOTCONVERGED →
      r.events.count Event.end_ = 0 ∧
      ∃ s0 d a s1, recordTuples e w = some (PushOutcome.done s0) ∧
        e.generate w.approx s0 = GenOutcome.returned d a s1 ∧
        (r.worker.approx, r.worker.soln) = (a, s1)) := by
  rcases iterate_cases e w r h with ⟨s, hrec, rfl⟩ | ⟨s0, a, s1, hrec, hgen, rfl⟩ |
    ⟨s0, d, a, s1, hrec, hgen, -, rfl⟩ | ⟨s0, d, a, s1, hrec, hgen, -, rfl⟩
  · refine ⟨fun _ => ⟨by simp [iterateCatch], Or.inl ⟨s, hrec, rfl⟩⟩, fun hst => ?_⟩
    simp [iterateCatch] at hst
  · refine ⟨fun _ => ⟨by simp [iterateCatch], Or.inr (Or.inl ⟨s0, a, s1, hrec, hgen, rfl⟩)⟩,
      fun hst => ?_⟩
    simp [iterateCatch] at hst
  · refine ⟨fun hst => ?_, fun _ => ⟨by simp, s0, d, a, s1, hrec, hgen, rfl⟩⟩
    simp at hst
  · refine ⟨fun _ => ⟨by simp, Or.inr (Or.inr ⟨s0, d, a, s1, hrec, hgen, rfl⟩)⟩,
      fun hst => ?_⟩
    simp at hst

/-- Instance of `iterate_end_once_when_terminal`, with engines whose end stores the
iteration reached in the solution: an iteration that reaches the tolerance ends CONVERGED
with one stored iteration, an iteration whose generate raises ends FAILED with one stored
iteration, and an iteration that does not converge ends NOTCONVERGED with none. -/
theorem iterate_end_once_when_terminal_witness :
    (∃ r, iterate (finishingEngine (Dbl.fin 0)) (sampleWorker 0 3 none) = some r ∧
      r.worker.status = some STATUS.CONVERGED ∧
      r.worker.soln.iterations
        = [{ iteration := 1, pivot := [{ x := Dbl.fin 3, y := Dbl.fin 4 }],
             direction := { x := Dbl.fin 1, y := Dbl.fin 0 } }] ∧
      r.events.count Event.end_ = 1 ∧
      ((∃ s, recordTuples (finishingEngine (Dbl.fin 0)) (sampleWorker 0 3 none)
            = some (PushOutcome.raised s) ∧
          (r.worker.approx, r.worker.soln)
            = (finishingEngine (Dbl.fin 0)).end_ (sampleWorker 0 3 none).approx s) ∨
        (∃ s0 a s1, recordTuples (finishingEngine (Dbl.fin 0)) (sampleWorker 0 3 none)
            = some (PushOutcome.done s0) ∧
          (finishingEngine (Dbl.fin 0)).generate (sampleWorker 0 3 none).approx s0
            = GenOutcome.raised a s1 ∧
          (r.worker.approx, r.worker.soln) = (finishingEngine (Dbl.fin 0)).end_ a s1) ∨
        (∃ s0 d a s1, recordTuples (finishingEngine (Dbl.fin 0)) (sampleWorker 0 3 none)
            = some (PushOutcome.done s0) ∧
          (finishingEngine (Dbl.fin 0)).generate (sampleWorker 0 3 none).approx s0
            = GenOutcome.returned d a s1 ∧
          (r.worker.approx, r.worker.soln) = (finishingEngine (Dbl.fin 0)).end_ a s1))) ∧
    (∃ r, iterate failingFinishingEngine (sampleWorker 2 5 none) = some r ∧
      r.worker.status = some STATUS.FAILED ∧
      r.worker.soln.iterations.length = 1 ∧
      r.events.count Event.end_ = 1) ∧
    (∃ r, iterate (finishingEngine (Dbl.fin 2)) (sampleWorker 0 3 none) = some r ∧
      r.worker.status = some STATUS.NOTCONVERGED ∧
      r.worker.soln.iterations = [] ∧
      r.events.count Event.end_ = 0 ∧
      ∃ s0 d a s1, recordTuples (finishingEngine (Dbl.fin 2)) (sampleWorker 0 3 none)
          = some (PushOutcome.done s0) ∧
        (finishingEngine (Dbl.fin 2)).generate (sampleWorker 0 3 none).approx s0
          = GenOutcome.returned d a s1 ∧
        (r.worker.approx, r.worker.soln) = (a, s1)) :=
  ⟨⟨_, rfl, rfl, rfl,
      (iterate_end_once_when_terminal (finishingEngine (Dbl.fin 0)) (sampleWorker 0 3 none)
        _ rfl).1 (Or.inl rfl)⟩,
    ⟨_, rfl, rfl, rfl,
      ((iterate_end_once_when_terminal failingFinishingEngine (sampleWorker 2 5 none)
        _ rfl).1 (Or.inr rfl)).1⟩,
    ⟨_, rfl, rfl, rfl,
      (iterate_end_once_when_terminal (finishingEngine (Dbl.fin 2)) (sampleWorker 0 3 none)
        _ rfl).2 rfl⟩⟩

/-- Claim C15: each call of iterate runs at most one generate, and exactly one when the
recording of the trajectory does not raise: the worker is then left with what one call of
generate, on its approximation and on the solution as recorded, has made of them (and end
after it in a terminal iteration), and when the recording raises, with its approximation as
no generate has touched it. Nothing that iterate reads can skip the generate of an iteration
that has begun: the worker has no cancel flag, and the call does the same under every value
of the status. -/
theorem iterate_one_generate (e : Engine) (w : SGSolverWorker) (r : IterateResult)
    (h : iterate e w = some r) :
    r.events.count Event.generate ≤ 1 ∧
    (∀ s0, recordTuples e w = some (PushOutcome.done s0) →
      r.events.count Event.generate = 1 ∧
      ((∃ a s1, e.generate w.approx s0 = GenOutcome.raised a s1 ∧
          r.worker.status = some STATUS.FAILED ∧
          (r.worker.approx, r.worker.soln) = e.end_ a s1) ∨
        (∃ d a s1, e.generate w.approx s0 = GenOutcome.returned d a s1 ∧
          ((r.worker.status = some STATUS.NOTCONVERGED ∧
              (r.worker.approx, r.worker.soln) = (a, s1)) ∨
            (r.worker.status = some STATUS.CONVERGED ∧
              (r.worker.approx, r.worker.soln) = e.end_ a s1))))) ∧
    (∀ s, recordTuples e w = some (PushOutcome.raised s) →
      r.events.count Event.generate = 0 ∧
      (r.worker.approx, r.worker.soln) = e.end_ w.approx s) ∧
    (∀ st, iterate e { w with status := st } = some r) := by
  refine ⟨?_, ?_, ?_, fun st => ?_⟩
  · rcases iterate_cases e w r h with ⟨s, -, rfl⟩ | ⟨s0, a, s1, -, -, rfl⟩ |
      ⟨s0, d, a, s1, -, -, -, rfl⟩ | ⟨s0, d, a, s1, -, -, -, rfl⟩ <;>
    simp [iterateCatch]
  · intro t0 ht0
    rcases iterate_cases e w r h with ⟨s, hrec, rfl⟩ | ⟨s0, a, s1, hrec, hgen, rfl⟩ |
      ⟨s0, d, a, s1, hrec, hgen, -, rfl⟩ | ⟨s0, d, a, s1, hrec, hgen, -, rfl⟩
    · rw [hrec] at ht0
      cases ht0
    · rw [hrec] at ht0
      cases ht0
      exact ⟨by simp [iterateCatch], Or.inl ⟨a, s1, hgen, rfl, rfl⟩⟩
    · rw [hrec] at ht0
      cases ht0
      exact ⟨by simp, Or.inr ⟨d, a, s1, hgen, Or.inl ⟨rfl, rfl⟩⟩⟩
    · rw [hrec] at ht0
      cases ht0
      exact ⟨by simp, Or.inr ⟨d, a, s1, hgen, Or.inr ⟨rfl, rfl⟩⟩⟩
  · intro t ht
    rcases iterate_cases e w r h with ⟨s, hrec, rfl⟩ | ⟨s0, a, s1, hrec, hgen, rfl⟩ |
      ⟨s0, d, a, s1, hrec, hgen, -, rfl⟩ | ⟨s0, d, a, s1, hrec, hgen, -, rfl⟩
    · rw [hrec] at ht
      cases ht
      exact ⟨by simp [iterateCatch], rfl⟩
    · rw [hrec] at ht
      cases ht
    · rw [hrec] at ht
      cases ht
    · rw [hrec] at ht
      cases ht
  · rw [← h]
    simp [iterate, recordTuples, iterateCatch]

/-- Instance of `iterate_one_generate`: the second iteration of a run, which does not
converge; generate has counted one iteration more, and only one. -/
theorem iterate_one_generate_witness :
    ∃ r, iterate (countingEngine (Dbl.fin 2)) (sampleWorker 1 3 none) = some r ∧
      r.worker.approx.numIterations = 2 ∧
      r.worker.approx.extremeTuples
        = [[{ x := Dbl.fin 0, y := Dbl.fin 0 }], [{ x := Dbl.fin 3, y := Dbl.fin 4 }]] ∧
      (r.events.count Event.generate ≤ 1 ∧
      (∀ s0, recordTuples (countingEngine (Dbl.fin 2)) (sampleWorker 1 3 none)
          = some (PushOutcome.done s0) →
        r.events.count Event.generate = 1 ∧
        ((∃ a s1, (countingEngine (Dbl.fin 2)).generate (sampleWorker 1 3 none).approx s0
              = GenOutcome.raised a s1 ∧
            r.worker.status = some STATUS.FAILED ∧
            (r.worker.approx, r.worker.soln) = (countingEngine (Dbl.fin 2)).end_ a s1) ∨
          (∃ d a s1, (countingEngine (Dbl.fin 2)).generate (sampleWorker 1 3 none).approx s0
              = GenOutcome.returned d a s1 ∧
            ((r.worker.status = some STATUS.NOTCONVERGED ∧
                (r.worker.approx, r.worker.soln) = (a, s1)) ∨
              (r.worker.status = some STATUS.CONVERGED ∧
                (r.worker.approx, r.worker.soln)
                  = (countingEngine (Dbl.fin 2)).end_ a s1))))) ∧
      (∀ s, recordTuples (countingEngine (Dbl.fin 2)) (sampleWorker 1 3 none)
          = some (PushOutcome.raised s) →
        r.events.count Event.generate = 0 ∧
        (r.worker.approx, r.worker.soln)
          = (countingEngine (Dbl.fin 2)).end_ (sampleWorker 1 3 none).approx s) ∧
      (∀ st, iterate (countingEngine (Dbl.fin 2))
        { sampleWorker 1 3 none with status := st } = some r)) :=
  ⟨_, rfl, rfl, rfl,
    iterate_one_generate (countingEngine (Dbl.fin 2)) (sampleWorker 1 3 none) _ rfl⟩

/-- Claim C16: recording of the pivot trajectory. When no push_back raises, iterate has
appended to the solution, before it runs generate, every tuple of extremeTuples in order
when numIterations is 0, and exactly one tuple, the last element of extremeTuples as it was
before this generate, when numIterations is greater than 0; nothing else in the solution is
touched. Generate is then run, once, on that solution, and an iteration that then fails
takes nothing back: its solution is what generate and end have left of it. -/
theorem iterate_records_trajectory (e : Engine) (w : SGSolverWorker) (s0 : SGSolution)
    (hrec : recordTuples e w = some (PushOutcome.done s0)) :
    (w.approx.numIterations = 0 →
      s0 = { w.soln with extremeTuples := w.soln.extremeTuples ++ w.approx.extremeTuples }) ∧
    (0 < w.approx.numIterations →
      ∃ t, w.approx.extremeTuples.getLast? = some t ∧
        s0 = { w.soln with extremeTuples := w.soln.extremeTuples ++ [t] }) ∧
    (∃ r, iterate e w = some r ∧ r.events.count Event.generate = 1 ∧
      (∀ a s1, e.generate w.approx s0 = GenOutcome.raised a s1 →
        r.worker.status = some STATUS.FAILED ∧ r.worker.soln = (e.end_ a s1).2) ∧
      (∀ d a s1, e.generate w.approx s0 = GenOutcome.returned d a s1 →
        r.worker.soln = s1 ∨ r.worker.soln = (e.end_ a s1).2)) := by
  refine ⟨fun h0 => ?_, fun hpos => ?_, ?_⟩
  · unfold recordTuples at hrec
    simp only [h0, if_true, Option.some.injEq] at hrec
    exact pushAll_done e _ _ _ hrec
  · have hn : w.approx.numIterations ≠ 0 := by omega
    unfold recordTuples at hrec
    simp only [hn, if_false] at hrec
    cases hl : w.approx.extremeTuples.getLast? with
    | none => simp [hl] at hrec
    | some t =>
      simp only [hl, Option.some.injEq] at hrec
      exact ⟨t, rfl, pushAll_done e _ _ _ hrec⟩
  · cases hgen : e.generate w.approx s0 with
    | raised a s1 =>
      refine ⟨iterateCatch e w a s1 [Event.generate], (by simp [iterate, hrec, hgen]),
        (by simp [iterateCatch]), fun a2 s2 h2 => ?_, fun d a2 s2 h2 => (by cases h2)⟩
      cases h2
      exact ⟨rfl, rfl⟩
    | returned d a s1 =>
      rw [iterate_of_returned e w s0 s1 d a hrec hgen]
      cases hc : (d.gt w.env.errorTol && decide (a.numIterations < w.env.maxIterations)) with
      | true =>
        refine ⟨_, rfl, (by simp), fun a2 s2 h2 => (by cases h2), fun d2 a2 s2 h2 => ?_⟩
        cases h2
        exact Or.inl rfl
      | false =>
        refine ⟨_, rfl, (by simp), fun a2 s2 h2 => (by cases h2), fun d2 a2 s2 h2 => ?_⟩
        cases h2
        exact Or.inr rfl

/-- Instance of `iterate_records_trajectory`: the third iteration of an engine whose
generate raises. -/
theorem iterate_records_trajectory_witness :
    ((sampleWorker 2 5 none).approx.numIterations = 0 →
      ({ game := sampleGame, extremeTuples := [[{ x := Dbl.fin 0, y := Dbl.fin 0 }]],
         iterations := [] } : SGSolution)
        = { (sampleWorker 2 5 none).soln with
            extremeTuples := (sampleWorker 2 5 none).soln.extremeTuples
              ++ (sampleWorker 2 5 none).approx.extremeTuples }) ∧
    (0 < (sampleWorker 2 5 none).approx.numIterations →
      ∃ t, (sampleWorker 2 5 none).approx.extremeTuples.getLast? = some t ∧
        ({ game := sampleGame, extremeTuples := [[{ x := Dbl.fin 0, y := Dbl.fin 0 }]],
           iterations := [] } : SGSolution)
          = { (sampleWorker 2 5 none).soln with
              extremeTuples := (sampleWorker 2 5 none).soln.extremeTuples ++ [t] }) ∧
    (∃ r, iterate failingEngine (sampleWorker 2 5 none) = some r ∧
      r.events.count Event.generate = 1 ∧
      (∀ a s1, failingEngine.generate (sampleWorker 2 5 none).approx
          { game := sampleGame, extremeTuples := [[{ x := Dbl.fin 0, y := Dbl.fin 0 }]],
            iterations := [] } = GenOutcome.raised a s1 →
        r.worker.status = some STATUS.FAILED ∧ r.worker.soln = (failingEngine.end_ a s1).2) ∧
      (∀ d a s1, failingEngine.generate (sampleWorker 2 5 none).approx
          { game := sampleGame, extremeTuples := [[{ x := Dbl.fin 0, y := Dbl.fin 0 }]],
            iterations := [] } = GenOutcome.returned d a s1 →
        r.worker.soln = s1 ∨ r.worker.soln = (failingEngine.end_ a s1).2)) :=
  iterate_records_trajectory failingEngine (sampleWorker 2 5 none)
    { game := sampleGame, extremeTuples := [[{ x := Dbl.fin 0, y := Dbl.fin 0 }]],
      iterations := [] } rfl

/-- Claim C17 fails on the code: the constructor runs initialize once and no generate, and
leaves the member status without a value, so that getStatus before the first iterate does
not return a defined status. Here on the sample game. -/
theorem construct_leaves_status_unassigned :
    ∃ w, SGSolverWorker.construct sampleSetup
        { errorTol := Dbl.fin 1, maxIterations := 5 } sampleGame
        = some (w, [Event.initialize_]) ∧
      w.getStatus = none ∧ w.getStatus ≠ some STATUS.NOTCONVERGED :=
  ⟨_, rfl, rfl, by decide⟩

/-! ## Properties of the game tab -/

/-- Claim C8: the game editor keeps the discount factor inside the open interval (0,1).
discountFactorChanged sets the discount factor of the game to the value read from the text
when that value is strictly between 0 and 1, and otherwise leaves the handler, and so the
game, unchanged; a text that does not read as a number reads as 0 and changes nothing. -/
theorem discountFactorChanged_open_unit (parse : String → Option Dbl) (h : SGGameHandler)
    (text : String) :
    (∀ q : ℚ, toDouble parse text = Dbl.fin q → 0 < q → q < 1 →
      SGGameHandler.discountFactorChanged parse h text
        = { h with game := { h.game with delta := Dbl.fin q } }) ∧
    ((¬ ∃ q : ℚ, toDouble parse text = Dbl.fin q ∧ 0 < q ∧ q < 1) →
      SGGameHandler.discountFactorChanged parse h text = h) ∧
    (parse text = none →
      toDouble parse text = Dbl.fin 0 ∧
      SGGameHandler.discountFactorChanged parse h text = h) ∧
    ((∃ q : ℚ, h.game.delta = Dbl.fin q ∧ 0 < q ∧ q < 1) →
      ∃ q : ℚ, (SGGameHandler.discountFactorChanged parse h text).game.delta = Dbl.fin q ∧
        0 < q ∧ q < 1) := by
  have hunchanged : (¬ ∃ q : ℚ, toDouble parse text = Dbl.fin q ∧ 0 < q ∧ q < 1) →
      SGGameHandler.discountFactorChanged parse h text = h := ?_
  have hset : ∀ q : ℚ, toDouble parse text = Dbl.fin q → 0 < q → q < 1 →
      SGGameHandler.discountFactorChanged parse h text
        = { h with game := { h.game with delta := Dbl.fin q } } := ?_
  refine ⟨hset, hunchanged, fun hp => ?_, fun hinv => ?_⟩
  rotate_left 2
  · intro q hq h0 h1
    simp [SGGameHandler.discountFactorChanged, hq, Dbl.gt, Dbl.lt, h0, h1,
      SGGame.setDiscountFactor]
  · intro hn
    unfold SGGameHandler.discountFactorChanged
    cases hv : toDouble parse text with
    | nan => simp [Dbl.gt, Dbl.lt]
    | ninf => simp [Dbl.gt, Dbl.lt]
    | pinf => simp [Dbl.gt, Dbl.lt]
    | fin q =>
      have hq : ¬ (0 < q ∧ q < 1) := fun hq => hn ⟨q, hv, hq.1, hq.2⟩
      simp only [Dbl.gt, Dbl.lt, Bool.and_eq_true, decide_eq_true_eq]
      rw [if_neg hq]
  · have h0 : toDouble parse text = Dbl.fin 0 := by simp [toDouble, hp]
    exact ⟨h0, by simp [SGGameHandler.discountFactorChanged, h0, Dbl.gt, Dbl.lt]⟩
  · by_cases hin : ∃ q : ℚ, toDouble parse text = Dbl.fin q ∧ 0 < q ∧ q < 1
    · obtain ⟨q, hq, h0, h1⟩ := hin
      exact ⟨q, by rw [hset q hq h0 h1], h0, h1⟩
    · rw [hunchanged hin]
      exact hinv

/-- Claim C9: setConstrained sets both unconstrained flags of the game to true when the box
"Only calculate feasible set" is checked and both to false when it is not, for every value
of its integer argument; no other field of the game and nothing else in the handler is
changed. -/
theorem setConstrained_flags (h : SGGameHandler) (newState : Int) :
    (h.setConstrained newState).game.getConstrained
      = [h.feasibleCheckBox.checked, h.feasibleCheckBox.checked] ∧
    (h.setConstrained newState).game
      = { h.game with unconstrained := (h.setConstrained newState).game.unconstrained } ∧
    h.setConstrained newState = { h with game := (h.setConstrained newState).game } := by
  unfold SGGameHandler.setConstrained
  cases hc : h.feasibleCheckBox.checked <;>
    simp [SGGame.setConstrained, SGGame.getConstrained, List.replicate]

/-- The loop of `setState` over the probability models, run over some of them: the models
from `i` on, `k` of them, get the new state, and the others are left as they are. -/
theorem setStateModels_getElem? (state : Int) (views : List SGTableView) :
    ∀ (k i : Nat) (models : List SGProbabilityTableModel),
      i + k ≤ models.length → i + k ≤ views.length →
      ∃ ms, SGGameHandler.setStateModels state views k i models = some ms ∧
        ∀ j : Nat, ms[j]? =
          if i ≤ j ∧ j < i + k then (models[j]?).map (fun m => { m with state := state })
          else models[j]? := by
  intro k
  induction k with
  | zero =>
    intro i models _ _
    refine ⟨models, rfl, fun j => ?_⟩
    have : ¬ (i ≤ j ∧ j < i + 0) := by omega
    rw [if_neg this]
  | succ k ih =>
    intro i models hm hv
    have hi : i < models.length := by omega
    have hiv : i < views.length := by omega
    obtain ⟨ms, hms, hget⟩ := ih (i + 1)
      (models.set i { models[i] with state := state })
      (by rw [List.length_set]; omega) (by omega)
    refine ⟨ms, ?_, fun j => ?_⟩
    · simp only [SGGameHandler.setStateModels, List.getElem?_eq_getElem hi,
        List.getElem?_eq_getElem hiv]
      exact hms
    · rw [hget j, List.getElem?_set]
      by_cases hij : i = j
      · subst hij
        have h1 : ¬ (i + 1 ≤ i ∧ i < i + 1 + k) := by omega
        have h2 : i ≤ i ∧ i < i + (k + 1) := by omega
        rw [if_neg h1, if_pos rfl, if_pos hi, if_pos h2, List.getElem?_eq_getElem hi]
        rfl
      · rw [if_neg hij]
        by_cases hj : i + 1 ≤ j ∧ j < i + 1 + k
        · have h2 : i ≤ j ∧ j < i + (k + 1) := by omega
          rw [if_pos hj, if_pos h2]
        · have h2 : ¬ (i ≤ j ∧ j < i + (k + 1)) := by omega
          rw [if_neg hj, if_neg h2]

/-- The loop of `setState` over the probability models, when there are as many models and
as many views as rounds: every model gets the new state. -/
theorem setStateModels_eq_map (state : Int) (views : List SGTableView)
    (models : List SGProbabilityTableModel) (k : Nat)
    (hm : models.length = k) (hv : views.length = k) :
    SGGameHandler.setStateModels state views k 0 models
      = some (models.map (fun m => { m with state := state })) := by
  obtain ⟨ms, hms, hget⟩ := setStateModels_getElem? state views k 0 models
    (by omega) (by omega)
  rw [hms]
  congr 1
  apply List.ext_getElem?
  intro j
  rw [hget j, List.getElem?_map]
  by_cases hj : j < k
  · have : 0 ≤ j ∧ j < 0 + k := by omega
    rw [if_pos this]
  · have : ¬ (0 ≤ j ∧ j < 0 + k) := by omega
    rw [if_neg this, List.getElem?_eq_none (by omega)]
    rfl

/-- The loop of `setState` over the two players: both edits show the numbers of actions of
the state. -/
theorem setNumActionsEdits_two (g : SGGame) (state : Int) (n0 n1 : Int)
    (edits : List QLineEdit) (hrow : vecGet? g.getNumActions state = some [n0, n1])
    (hedits : edits.length = 2) :
    SGGameHandler.setNumActionsEdits g state 2 0 edits
      = some [{ text := qNumber n0 }, { text := qNumber n1 }] := by
  match edits, hedits with
  | [e0, e1], _ => simp [SGGameHandler.setNumActionsEdits, hrow]

/-- Claim C10: for every valid state index s of a game tab whose models, views, edits and
state selector go with its game (a payoff model, one probability model and one view per
state, one edit per player, one selector entry per state), setState(s) returns and leaves
the payoff model and every probability model, still one per successor state, with the
current state s, the current index of the state selector at s, and in the two edits the
numbers of actions of the two players in state s; the game is as it was. -/
theorem setState_shows_state (h : SGGameHandler) (s n0 n1 : Int)
    (hs0 : 0 ≤ s) (hs : s < h.game.getNumStates)
    (hrow : vecGet? h.game.getNumActions s = some [n0, n1])
    (hedits : h.numActionsEdits.length = 2)
    (hpm : h.payoffModel ≠ none)
    (hmodels : h.probabilityModels.length = h.game.getNumStates.toNat)
    (hviews : h.probabilityTableViews.length = h.game.getNumStates.toNat)
    (hcombo : h.currentStateCombo.count = h.game.getNumStates) :
    ∃ h1, h.setState s = some h1 ∧
      (∃ pm, h1.payoffModel = some pm ∧ pm.state = s) ∧
      (∀ m ∈ h1.probabilityModels, m.state = s) ∧
      h1.probabilityModels.map (fun m => m.nextState)
        = h.probabilityModels.map (fun m => m.nextState) ∧
      h1.probabilityModels.length = h.game.getNumStates.toNat ∧
      h1.currentStateCombo.currentIndex = s ∧
      h1.currentStateCombo.items = h.currentStateCombo.items ∧
      h1.numActionsEdits = [{ text := qNumber n0 }, { text := qNumber n1 }] ∧
      h1.game = h.game := by
  obtain ⟨pm, hpm1⟩ : ∃ pm, h.payoffModel = some pm := by
    cases hp : h.payoffModel with
    | none => exact absurd hp hpm
    | some pm => exact ⟨pm, rfl⟩
  have hloop := setStateModels_eq_map s h.probabilityTableViews h.probabilityModels
    h.game.getNumStates.toNat hmodels hviews
  have hed := setNumActionsEdits_two h.game s n0 n1 h.numActionsEdits hrow hedits
  refine ⟨{ h with
      numActionsEdits := [{ text := qNumber n0 }, { text := qNumber n1 }]
      payoffModel := some { pm with state := s }
      probabilityModels := h.probabilityModels.map (fun m => { m with state := s })
      currentStateCombo := h.currentStateCombo.setCurrentIndex s },
    by simp only [SGGameHandler.setState, hed, hpm1, hloop], ⟨_, rfl, rfl⟩, ?_, ?_, ?_,
    ?_, ?_, rfl, rfl⟩
  · intro m hm
    simp only [List.mem_map] at hm
    obtain ⟨m0, -, rfl⟩ := hm
    rfl
  · simp [List.map_map, Function.comp_def]
  · simp [hmodels]
  · have hlt : s < h.currentStateCombo.count := by rw [hcombo]; exact hs
    simp [QComboBox.setCurrentIndex, hs0, hlt]
  · have hlt : s < h.currentStateCombo.count := by rw [hcombo]; exact hs
    simp [QComboBox.setCurrentIndex, hs0, hlt]

/-- Instance of `setState_shows_state`: state 1 of the two-state sample game, which has two
actions for the row player and three for the column player. -/
theorem setState_shows_state_witness :
    ∃ h1, (sampleHandler false).setState 1 = some h1 ∧
      (∃ pm, h1.payoffModel = some pm ∧ pm.state = 1) ∧
      (∀ m ∈ h1.probabilityModels, m.state = 1) ∧
      h1.probabilityModels.map (fun m => m.nextState)
        = (sampleHandler false).probabilityModels.map (fun m => m.nextState) ∧
      h1.probabilityModels.length = (sampleHandler false).game.getNumStates.toNat ∧
      h1.currentStateCombo.currentIndex = 1 ∧
      h1.currentStateCombo.items = (sampleHandler false).currentStateCombo.items ∧
      h1.numActionsEdits = [{ text := qNumber 2 }, { text := qNumber 3 }] ∧
      h1.game = (sampleHandler false).game :=
  setState_shows_state (sampleHandler false) 1 2 3 (by decide) (by decide) rfl rfl
    (by decide) rfl rfl rfl

/-! ### Loading and editing of the game -/

/-- The loop of `setState` over the probability models, whenever its behaviour is defined,
leaves every model with the tomorrow's state it had. -/
theorem setStateModels_nextState (state : Int) (views : List SGTableView) :
    ∀ (k i : Nat) (models ms : List SGProbabilityTableModel),
      SGGameHandler.setStateModels state views k i models = some ms →
      ms.map (fun m => m.nextState) = models.map (fun m => m.nextState) := by
  intro k
  induction k with
  | zero =>
    intro i models ms h
    simp only [SGGameHandler.setStateModels, Option.some.injEq] at h
    rw [h]
  | succ k ih =>
    intro i models ms h
    unfold SGGameHandler.setStateModels at h
    cases hm : models[i]? with
    | none => simp [hm] at h
    | some m =>
      cases hv : views[i]? with
      | none => simp [hm, hv] at h
      | some v =>
        simp only [hm, hv] at h
        rw [ih _ _ _ h]
        apply List.ext_getElem?
        intro j
        simp only [List.getElem?_map, List.getElem?_set]
        by_cases hij : i = j
        · subst hij
          have hi : i < models.length := (List.getElem?_eq_some.mp hm).1
          simp [hi, hm]
        · simp [hij]

/-- What `setState` leaves as it is, whenever its behaviour is defined: the game, the views,
the layout, the entries of the state selector and the tomorrow's states of the models. -/
theorem setState_frame (h h1 : SGGameHandler) (s : Int) (hs : h.setState s = some h1) :
    h1.game = h.game ∧ h1.probabilityTableViews = h.probabilityTableViews ∧
    h1.probabilityTableLayout = h.probabilityTableLayout ∧
    h1.currentStateCombo.items = h.currentStateCombo.items ∧
    h1.numStatesEdit = h.numStatesEdit ∧
    h1.probabilityModels.map (fun m => m.nextState)
      = h.probabilityModels.map (fun m => m.nextState) := by
  unfold SGGameHandler.setState at hs
  cases he : SGGameHandler.setNumActionsEdits h.game s 2 0 h.numActionsEdits with
  | none => simp [he] at hs
  | some edits =>
    cases hp : h.payoffModel with
    | none => simp [he, hp] at hs
    | some pm =>
      cases hm : SGGameHandler.setStateModels s h.probabilityTableViews
          h.game.getNumStates.toNat 0 h.probabilityModels with
      | none => simp [he, hp, hm] at hs
      | some ms =>
        simp only [he, hp, hm, Option.some.injEq] at hs
        subst hs
        refine ⟨rfl, rfl, rfl, ?_, rfl, ?_⟩
        · unfold QComboBox.setCurrentIndex
          split <;> rfl
        · exact setStateModels_nextState s _ _ _ _ _ hm

/-- What `showNumActions` does, whenever its behaviour is defined: only the edits of the
numbers of actions change, and every index that its loop has used was in range. -/
theorem showNumActions_some (h h1 : SGGameHandler) (state player : Int)
    (hs : h.showNumActions state player = some h1) :
    h1 = { h with numActionsEdits := h1.numActionsEdits } ∧
    SGGameHandler.tablesInRange h.probabilityModels h.probabilityTableViews
      h.game.getNumStates.toNat 0 = true := by
  unfold SGGameHandler.showNumActions at hs
  split at hs
  · split at hs
    · rename_i hin
      simp only [Option.some.injEq] at hs
      subst hs
      exact ⟨rfl, hin⟩
    · exact absurd hs (by simp)
  · exact absurd hs (by simp)

/-- The two ways in which `actionAdded` returns: refused for a player that is neither 0 nor
1, or else after one `addAction` on the game. -/
theorem actionAdded_cases (ops : GameOps) (h : SGGameHandler) (player : Int) (r : EditResult)
    (hA : h.actionAdded ops player = some r) :
    ((player < 0 ∨ player > 1) ∧ r = { handler := h, calls := [] }) ∨
    (¬ (player < 0 ∨ player > 1) ∧ ∃ n h1,
      (vecGet? h.game.getNumActions h.currentStateCombo.currentIndex).bind
        (fun row => vecGet? row player) = some n ∧
      SGGameHandler.showNumActions
        { h with game := ops.addAction h.game h.currentStateCombo.currentIndex player
                   (h.selectedAction player 1 n) }
        h.currentStateCombo.currentIndex player = some h1 ∧
      r = { handler := h1
            calls := [GameCall.addAction h.currentStateCombo.currentIndex player
              (h.selectedAction player 1 n)] }) := by
  unfold SGGameHandler.actionAdded at hA
  by_cases hg : player < 0 ∨ player > 1
  · simp only [hg, if_true, Option.some.injEq] at hA
    exact Or.inl ⟨hg, hA.symm⟩
  · simp only [hg, if_false] at hA
    cases hn : (vecGet? h.game.getNumActions h.currentStateCombo.currentIndex).bind
        (fun row => vecGet? row player) with
    | none => simp [hn] at hA
    | some n =>
      simp only [hn] at hA
      cases hsh : SGGameHandler.showNumActions
          { h with game := ops.addAction h.game h.currentStateCombo.currentIndex player
                     (h.selectedAction player 1 n) }
          h.currentStateCombo.currentIndex player with
      | none => simp [hsh] at hA
      | some h1 =>
        simp only [hsh, Option.some.injEq] at hA
        exact Or.inr ⟨hg, n, h1, rfl, hsh, hA.symm⟩

/-- The two ways in which `actionRemoved` returns: refused when the player has exactly one
action in the current state, or else after one `removeAction` on the game. -/
theorem actionRemoved_cases (ops : GameOps) (h : SGGameHandler) (player : Int)
    (r : EditResult) (hR : h.actionRemoved ops player = some r) :
    ∃ n, (vecGet? h.game.getNumActions h.currentStateCombo.currentIndex).bind
        (fun row => vecGet? row player) = some n ∧
      ((n = 1 ∧ r = { handler := h, calls := [] }) ∨
      (n ≠ 1 ∧ ∃ h1,
        SGGameHandler.showNumActions
          { h with game := ops.removeAction h.game h.currentStateCombo.currentIndex player
                     (h.selectedAction player 0 (n - 1)) }
          h.currentStateCombo.currentIndex player = some h1 ∧
        r = { handler := h1
              calls := [GameCall.removeAction h.currentStateCombo.currentIndex player
                (h.selectedAction player 0 (n - 1))] })) := by
  unfold SGGameHandler.actionRemoved at hR
  cases hn : (vecGet? h.game.getNumActions h.currentStateCombo.currentIndex).bind
      (fun row => vecGet? row player) with
  | none => simp [hn] at hR
  | some n =>
    simp only [hn] at hR
    refine ⟨n, rfl, ?_⟩
    by_cases h1 : n = 1
    · simp only [h1, if_true, Option.some.injEq] at hR
      exact Or.inl ⟨h1, hR.symm⟩
    · simp only [h1, if_false] at hR
      cases hsh : SGGameHandler.showNumActions
          { h with game := ops.removeAction h.game h.currentStateCombo.currentIndex player
                     (h.selectedAction player 0 (n - 1)) }
          h.currentStateCombo.currentIndex player with
      | none => simp [hsh] at hR
      | some h2 =>
        simp only [hsh, Option.some.injEq] at hR
        exact Or.inr ⟨h1, h2, rfl, hR.symm⟩

/-- The way in which `stateAdded` returns: after one `addState` on the game, with the
`setState` that ends it. -/
theorem stateAdded_some (ops : GameOps) (h : SGGameHandler) (r : EditResult)
    (hSA : h.stateAdded ops = some r) :
    ∃ h1, (SGGameHandler.stateAddedTables ops h).setState
        (h.currentStateCombo.currentIndex + 1) = some h1 ∧
      r = { handler := h1
            calls := [GameCall.addState (h.currentStateCombo.currentIndex + 1)] } := by
  unfold SGGameHandler.stateAdded at hSA
  cases hs : (SGGameHandler.stateAddedTables ops h).setState
      (h.currentStateCombo.currentIndex + 1) with
  | none => simp [hs] at hSA
  | some h1 =>
    simp only [hs, Option.some.injEq] at hSA
    exact ⟨h1, rfl, hSA.symm⟩

/-- The two ways in which `stateRemoved` returns: refused when the game has exactly one
state, or else after one `removeState` on the game, with the `setState` that ends it. -/
theorem stateRemoved_cases (ops : GameOps) (h : SGGameHandler) (r : EditResult)
    (hSR : h.stateRemoved ops = some r) :
    (h.game.getNumStates = 1 ∧ r = { handler := h, calls := [] }) ∨
    (h.game.getNumStates ≠ 1 ∧ ∃ h1 h2, h.popBackProbabilityTable = some h1 ∧
      (SGGameHandler.stateRemovedTables ops h1 h.currentStateCombo.currentIndex).setState
        (SGGameHandler.stateRemovedNewState h.currentStateCombo.currentIndex) = some h2 ∧
      r = { handler := h2
            calls := [GameCall.removeState h.currentStateCombo.currentIndex] }) := by
  unfold SGGameHandler.stateRemoved at hSR
  by_cases hg : h.game.getNumStates = 1
  · simp only [hg, if_true, Option.some.injEq] at hSR
    exact Or.inl ⟨hg, hSR.symm⟩
  · simp only [hg, if_false] at hSR
    cases hp : h.popBackProbabilityTable with
    | none => simp [hp] at hSR
    | some h1 =>
      simp only [hp] at hSR
      cases hs : (SGGameHandler.stateRemovedTables ops h1
          h.currentStateCombo.currentIndex).setState
          (SGGameHandler.stateRemovedNewState h.currentStateCombo.currentIndex) with
      | none => simp [hs] at hSR
      | some h2 =>
        simp only [hs, Option.some.injEq] at hSR
        exact Or.inr ⟨hg, h1, h2, rfl, hs, hSR.symm⟩

/-- What `popBackProbabilityTable` does, whenever its behaviour is defined. -/
theorem popBackProbabilityTable_some (h h1 : SGGameHandler)
    (hp : h.popBackProbabilityTable = some h1) :
    h.probabilityModels ≠ [] ∧
    h1 = { h with
      probabilityModels := h.probabilityModels.dropLast
      probabilityTableLayout := h.probabilityTableLayout.dropLast.dropLast
      probabilityTableViews := h.probabilityTableViews.dropLast } := by
  unfold SGGameHandler.popBackProbabilityTable at hp
  by_cases h1e : h.probabilityModels = []
  · simp [h1e] at hp
  · by_cases h2 : h.probabilityTableLayout.length < 2
    · simp [h1e, h2] at hp
    · by_cases h3 : h.probabilityTableViews = []
      · simp [h1e, h2, h3] at hp
      · simp only [h1e, h2, h3, if_false, Option.some.injEq] at hp
        exact ⟨h1e, hp.symm⟩

/-- Claim C11, as amended: an edit request of the game tab that is not refused by a guard
invokes the corresponding SGGame method exactly once on the game of the handler, and no
other editing method: stateAdded invokes addState, actionAdded(player) for player 0 or 1
invokes addAction, actionRemoved(player) invokes removeAction when the current state does
not have exactly one action for that player, and stateRemoved invokes removeState when the
game does not have exactly one state. A refused request invokes no method and changes
nothing. -/
theorem edit_requests_invoke_game_methods (ops : GameOps) (h : SGGameHandler) (player : Int)
    (rA rR rSA rSR : EditResult)
    (hA : h.actionAdded ops player = some rA) (hR : h.actionRemoved ops player = some rR)
    (hSA : h.stateAdded ops = some rSA) (hSR : h.stateRemoved ops = some rSR) :
    ((player = 0 ∨ player = 1) →
      ∃ position, rA.calls = [GameCall.addAction h.currentStateCombo.currentIndex player position]
        ∧ rA.handler.game
          = ops.addAction h.game h.currentStateCombo.currentIndex player position) ∧
    (¬ (player = 0 ∨ player = 1) → rA.calls = [] ∧ rA.handler = h) ∧
    ((vecGet? h.game.getNumActions h.currentStateCombo.currentIndex).bind
        (fun row => vecGet? row player) ≠ some 1 →
      ∃ action, rR.calls = [GameCall.removeAction h.currentStateCombo.currentIndex player action]
        ∧ rR.handler.game
          = ops.removeAction h.game h.currentStateCombo.currentIndex player action) ∧
    ((vecGet? h.game.getNumActions h.currentStateCombo.currentIndex).bind
        (fun row => vecGet? row player) = some 1 → rR.calls = [] ∧ rR.handler = h) ∧
    (rSA.calls = [GameCall.addState (h.currentStateCombo.currentIndex + 1)] ∧
      rSA.handler.game = ops.addState h.game (h.currentStateCombo.currentIndex + 1)) ∧
    (h.game.getNumStates ≠ 1 →
      rSR.calls = [GameCall.removeState h.currentStateCombo.currentIndex] ∧
      rSR.handler.game = ops.removeState h.game h.currentStateCombo.currentIndex) ∧
    (h.game.getNumStates = 1 → rSR.calls = [] ∧ rSR.handler = h) := by
  refine ⟨fun hp => ?_, fun hp => ?_, fun hn => ?_, fun hn => ?_, ?_, fun hn => ?_, fun hn => ?_⟩
  · rcases actionAdded_cases ops h player rA hA with ⟨hg, -⟩ | ⟨-, n, h1, -, hsh, rfl⟩
    · omega
    · refine ⟨_, rfl, ?_⟩
      rw [(showNumActions_some _ _ _ _ hsh).1]
  · rcases actionAdded_cases ops h player rA hA with ⟨-, rfl⟩ | ⟨hg, -⟩
    · exact ⟨rfl, rfl⟩
    · omega
  · obtain ⟨n, hn1, hcase⟩ := actionRemoved_cases ops h player rR hR
    rcases hcase with ⟨h1, -⟩ | ⟨-, h1, hsh, rfl⟩
    · exact absurd (by rw [hn1, h1]) hn
    · refine ⟨_, rfl, ?_⟩
      rw [(showNumActions_some _ _ _ _ hsh).1]
  · obtain ⟨n, hn1, hcase⟩ := actionRemoved_cases ops h player rR hR
    rcases hcase with ⟨-, rfl⟩ | ⟨h1, -⟩
    · exact ⟨rfl, rfl⟩
    · rw [hn1] at hn
      exact absurd (Option.some.inj hn) h1
  · obtain ⟨h1, hset, rfl⟩ := stateAdded_some ops h rSA hSA
    refine ⟨rfl, ?_⟩
    rw [(setState_frame _ _ _ hset).1]
    rfl
  · rcases stateRemoved_cases ops h rSR hSR with ⟨hg, -⟩ | ⟨-, h1, h2, hpop, hset, rfl⟩
    · exact absurd hg hn
    · refine ⟨rfl, ?_⟩
      rw [(setState_frame _ _ _ hset).1, (popBackProbabilityTable_some _ _ hpop).2]
      rfl
  · rcases stateRemoved_cases ops h rSR hSR with ⟨-, rfl⟩ | ⟨hg, -⟩
    · exact ⟨rfl, rfl⟩
    · exact absurd hn hg

/-- Instance of `edit_requests_invoke_game_methods`: the sample game tab showing state 1,
where the row player has two actions and the column player three; each request invokes its
method once. -/
theorem edit_requests_invoke_game_methods_witness :
    ∃ rA rR rSA rSR,
      SGGameHandler.actionAdded sampleOps
        { sampleHandler false with currentStateCombo := { items := ["0", "1"], currentIndex := 1 } }
        1 = some rA ∧
      SGGameHandler.actionRemoved sampleOps
        { sampleHandler false with currentStateCombo := { items := ["0", "1"], currentIndex := 1 } }
        1 = some rR ∧
      SGGameHandler.stateAdded sampleOps
        { sampleHandler false with currentStateCombo := { items := ["0", "1"], currentIndex := 1 } }
        = some rSA ∧
      SGGameHandler.stateRemoved sampleOps
        { sampleHandler false with currentStateCombo := { items := ["0", "1"], currentIndex := 1 } }
        = some rSR ∧
      rA.calls = [GameCall.addAction 1 1 3] ∧ rR.calls = [GameCall.removeAction 1 1 2] ∧
      rSA.calls = [GameCall.addState 2] ∧ rSR.calls = [GameCall.removeState 1] :=
  ⟨_, _, _, _, rfl, rfl, rfl, rfl,
    by
      have h := edit_requests_invoke_game_methods sampleOps
        { sampleHandler false with currentStateCombo := { items := ["0", "1"], currentIndex := 1 } }
        1 _ _ _ _ rfl rfl rfl rfl
      exact ⟨rfl, rfl, h.2.2.2.2.1.1, (h.2.2.2.2.2.1 (by decide)).1⟩⟩

/-- Claim C11 fails: on the game tab of a game with one state and one action for each
player, stateRemoved and actionRemoved(0) return without invoking removeState or
removeAction, and actionAdded(2) returns without invoking addAction. -/
theorem edit_requests_refused_counterexample :
    oneStateHandler.game.getNumStates = 1 ∧
    oneStateHandler.stateRemoved sampleOps = some { handler := oneStateHandler, calls := [] } ∧
    oneStateHandler.actionRemoved sampleOps 0
      = some { handler := oneStateHandler, calls := [] } ∧
    oneStateHandler.actionAdded sampleOps 2
      = some { handler := oneStateHandler, calls := [] } :=
  ⟨rfl, by decide, by decide, by decide⟩

/-- Claim C18 fails on the code: the box is checked and setGame loads the two-state sample
game, whose flags are false for player 0 and true for player 1. The call setChecked(false)
changes the check state, the box emits stateChanged, setConstrained runs on the game just
loaded, and the handler ends with both flags false. With the box unchecked before, the same
call leaves the flags of the game. -/
theorem setGame_overwrites_flags :
    twoStateGame.getConstrained = [false, true] ∧
    (SGGameHandler.setGame sampleParse sampleShowNumber (sampleHandler true) twoStateGame).map
      (fun h => (h.game.getConstrained, h.feasibleCheckBox.checked))
      = some ([false, false], false) ∧
    (SGGameHandler.setGame sampleParse sampleShowNumber (sampleHandler false) twoStateGame).map
      (fun h => (h.game.getConstrained, h.feasibleCheckBox.checked))
      = some ([false, true], false) :=
  ⟨rfl, by decide, by decide⟩

/-- Claim C19: the editor never empties a game. stateRemoved changes nothing when the game
has exactly one state, and actionRemoved(player) changes nothing when the current state has
exactly one action for that player. Hence, when removeAction lowers by one the number of
actions of the player in the state and touches no other number, and removeState leaves one
state less with numbers of actions that were there, every remove request leaves a game with
at least one state and at least one action per player in every state, if the game was
so. -/
theorem remove_requests_keep_game_nonempty (ops : GameOps) (h : SGGameHandler) (player : Int)
    (hRA : ∀ g state pl action row n, vecGet? g.getNumActions state = some row →
      vecGet? row pl = some n →
      (ops.removeAction g state pl action).numStates = g.numStates ∧
      (ops.removeAction g state pl action).numActions
        = g.numActions.set state.toNat (row.set pl.toNat (n - 1)))
    (hRS : ∀ g state, (ops.removeState g state).numStates = g.numStates - 1 ∧
      ∀ row ∈ (ops.removeState g state).numActions, row ∈ g.numActions) :
    (h.game.getNumStates = 1 → h.stateRemoved ops = some { handler := h, calls := [] }) ∧
    ((vecGet? h.game.getNumActions h.currentStateCombo.currentIndex).bind
        (fun row => vecGet? row player) = some 1 →
      h.actionRemoved ops player = some { handler := h, calls := [] }) ∧
    (h.game.HasStatesAndActions →
      (∀ r, h.stateRemoved ops = some r → r.handler.game.HasStatesAndActions) ∧
      (∀ r, h.actionRemoved ops player = some r → r.handler.game.HasStatesAndActions)) := by
  refine ⟨fun h1 => ?_, fun h1 => ?_, fun hinv => ⟨fun r hr => ?_, fun r hr => ?_⟩⟩
  · simp [SGGameHandler.stateRemoved, h1]
  · simp [SGGameHandler.actionRemoved, h1]
  · rcases stateRemoved_cases ops h r hr with ⟨-, rfl⟩ | ⟨hg, h1, h2, hpop, hset, rfl⟩
    · exact hinv
    · have hgame : h2.game = ops.removeState h.game h.currentStateCombo.currentIndex := by
        rw [(setState_frame _ _ _ hset).1, (popBackProbabilityTable_some _ _ hpop).2]
        rfl
      show h2.game.HasStatesAndActions
      rw [hgame]
      obtain ⟨hn, hrows⟩ := hRS h.game h.currentStateCombo.currentIndex
      refine ⟨?_, fun row hrow => hinv.2 row (hrows row hrow)⟩
      have h1le := hinv.1
      have hne : h.game.numStates ≠ 1 := hg
      omega
  · obtain ⟨n, hn, hcase⟩ := actionRemoved_cases ops h player r hr
    rcases hcase with ⟨-, rfl⟩ | ⟨hne, h1, hsh, rfl⟩
    · exact hinv
    · have hgame : h1.game = ops.removeAction h.game h.currentStateCombo.currentIndex player
          (h.selectedAction player 0 (n - 1)) := by
        rw [(showNumActions_some _ _ _ _ hsh).1]
      show h1.game.HasStatesAndActions
      rw [hgame]
      obtain ⟨row, hrow, hpl⟩ := Option.bind_eq_some.mp hn
      obtain ⟨hst, hact⟩ := hRA h.game h.currentStateCombo.currentIndex player
        (h.selectedAction player 0 (n - 1)) row n hrow hpl
      have hrowmem : row ∈ h.game.numActions := by
        unfold vecGet? at hrow
        split at hrow
        · exact absurd hrow (by simp)
        · exact List.getElem?_mem hrow
      have hnmem : n ∈ row := by
        unfold vecGet? at hpl
        split at hpl
        · exact absurd hpl (by simp)
        · exact List.getElem?_mem hpl
      have hn1 : 1 ≤ n := hinv.2 row hrowmem n hnmem
      refine ⟨by rw [hst]; exact hinv.1, fun row1 hrow1 m hm => ?_⟩
      rw [hact] at hrow1
      rcases List.mem_or_eq_of_mem_set hrow1 with hold | rfl
      · exact hinv.2 row1 hold m hm
      · rcases List.mem_or_eq_of_mem_set hm with hold | rfl
        · exact hinv.2 row hrowmem m hold
        · omega

/-! ### The size invariant of the game tab -/

/-- Removing an entry of the state selector at an index in range leaves one entry less. -/
theorem QComboBox.count_removeItem (c : QComboBox) (index : Int) (h0 : 0 ≤ index)
    (h1 : index < c.count) : (c.removeItem index).count = c.count - 1 := by
  have hlt : index.toNat < c.items.length := by
    unfold QComboBox.count at h1
    omega
  have hlen : (c.items.eraseIdx index.toNat).length = c.items.length - 1 :=
    List.length_eraseIdx_of_lt hlt
  unfold QComboBox.removeItem
  simp only [h0, h1, and_self, if_true]
  unfold QComboBox.count
  split
  · simp only [hlen]; omega
  · split
    · simp only [hlen]; omega
    · simp only [hlen]; omega

/-- Adding an entry to the state selector leaves one entry more. -/
theorem QComboBox.count_addItem (c : QComboBox) (text : String) :
    (c.addItem text).count = c.count + 1 := by
  simp [QComboBox.addItem, QComboBox.count]

/-- Setting the current index of the state selector leaves its entries. -/
theorem QComboBox.items_setCurrentIndex (c : QComboBox) (index : Int) :
    (c.setCurrentIndex index).items = c.items := by
  unfold QComboBox.setCurrentIndex
  split <;> rfl

/-- The first loop of `changeNumberOfStates`, given enough rounds, stops with the smaller of
the number of entries and the new number of states, as value of `state` and as number of
entries. -/
theorem removeItemsAbove_count (newS : Int) (h0 : 0 ≤ newS) :
    ∀ (k : Nat) (state : Int) (c : QComboBox), c.count = state → state - newS ≤ k →
      (SGGameHandler.removeItemsAbove newS k state c).1 = min state newS ∧
      (SGGameHandler.removeItemsAbove newS k state c).2.count = min state newS := by
  intro k
  induction k with
  | zero =>
    intro state c hc hk
    have : state ≤ newS := by omega
    rw [min_eq_left this]
    exact ⟨rfl, hc⟩
  | succ k ih =>
    intro state c hc hk
    unfold SGGameHandler.removeItemsAbove
    by_cases hgt : state > newS
    · simp only [hgt, if_true]
      have hcount : (c.removeItem (state - 1)).count = state - 1 := by
        rw [QComboBox.count_removeItem c (state - 1) (by omega) (by omega), hc]
      obtain ⟨h1, h2⟩ := ih (state - 1) (c.removeItem (state - 1)) hcount (by omega)
      have hmin : min (state - 1) newS = min state newS := by
        rw [min_eq_right (by omega), min_eq_right (by omega)]
      exact ⟨by rw [h1, hmin], by rw [h2, hmin]⟩
    · simp only [hgt, if_false]
      have : state ≤ newS := by omega
      rw [min_eq_left this]
      exact ⟨rfl, hc⟩

/-- The second loop of `changeNumberOfStates`, given enough rounds, stops with the larger of
the number of entries and the new number of states as number of entries. -/
theorem addItemsUpTo_count (newS : Int) :
    ∀ (k : Nat) (state : Int) (c : QComboBox), c.count = state → newS - state ≤ k →
      (SGGameHandler.addItemsUpTo newS k state c).2.count = max state newS := by
  intro k
  induction k with
  | zero =>
    intro state c hc hk
    have : newS ≤ state := by omega
    simp only [SGGameHandler.addItemsUpTo, max_eq_left this]
    exact hc
  | succ k ih =>
    intro state c hc hk
    unfold SGGameHandler.addItemsUpTo
    by_cases hlt : state < newS
    · simp only [hlt, if_true]
      have hcount : (c.addItem (qNumber state)).count = state + 1 := by
        rw [QComboBox.count_addItem, hc]
      rw [ih (state + 1) _ hcount (by omega), max_eq_right (by omega), max_eq_right (by omega)]
    · simp only [hlt, if_false]
      have : newS ≤ state := by omega
      rw [max_eq_left this]
      exact hc

/-- After `changeNumberOfStates(newS)` the state selector has `newS` entries; the game and
the probability tables are as they were. -/
theorem changeNumberOfStates_count (h : SGGameHandler) (newS : Int) (h0 : 0 ≤ newS) :
    (h.changeNumberOfStates newS).currentStateCombo.count = newS ∧
    (h.changeNumberOfStates newS).game = h.game ∧
    (h.changeNumberOfStates newS).probabilityModels = h.probabilityModels ∧
    (h.changeNumberOfStates newS).probabilityTableViews = h.probabilityTableViews := by
  refine ⟨?_, rfl, rfl, rfl⟩
  obtain ⟨h1, h2⟩ := removeItemsAbove_count newS h0
    (h.currentStateCombo.count - newS).toNat h.currentStateCombo.count h.currentStateCombo rfl
    (by omega)
  have h3 := addItemsUpTo_count newS
    (newS - (SGGameHandler.removeItemsAbove newS (h.currentStateCombo.count - newS).toNat
      h.currentStateCombo.count h.currentStateCombo).1).toNat
    (SGGameHandler.removeItemsAbove newS (h.currentStateCombo.count - newS).toNat
      h.currentStateCombo.count h.currentStateCombo).1
    (SGGameHandler.removeItemsAbove newS (h.currentStateCombo.count - newS).toNat
      h.currentStateCombo.count h.currentStateCombo).2
    (by rw [h1, h2]) (by omega)
  have hset : ∀ (c : QComboBox) (i : Int), (c.setCurrentIndex i).count = c.count := by
    intro c i
    unfold QComboBox.count
    rw [QComboBox.items_setCurrentIndex]
  show (QComboBox.setCurrentIndex _ 0).count = newS
  rw [hset, h3, h1]
  exact max_eq_right (min_le_right _ _)

/-- The loop of `initializeModels` adds one model and one view per round, the models for
tomorrow's states `state`, `state + 1` and so on, and leaves the game and the selector. -/
theorem pushBackTables_spec :
    ∀ (k : Nat) (state : Int) (h : SGGameHandler),
      (SGGameHandler.pushBackTables k state h).game = h.game ∧
      (SGGameHandler.pushBackTables k state h).currentStateCombo = h.currentStateCombo ∧
      (SGGameHandler.pushBackTables k state h).probabilityTableViews.length
        = h.probabilityTableViews.length + k ∧
      (SGGameHandler.pushBackTables k state h).probabilityModels.map (fun m => m.nextState)
        = h.probabilityModels.map (fun m => m.nextState)
          ++ (List.range k).map (fun (j : Nat) => state + (j : Int)) := by
  intro k
  induction k with
  | zero =>
    intro state h
    simp [SGGameHandler.pushBackTables]
  | succ k ih =>
    intro state h
    obtain ⟨h1, h2, h3, h4⟩ := ih (state + 1) (h.pushBackProbabilityTable state)
    unfold SGGameHandler.pushBackTables
    refine ⟨h1, h2, ?_, ?_⟩
    · rw [h3]
      simp only [SGGameHandler.pushBackProbabilityTable, List.length_append, List.length_singleton]
      omega
    · rw [h4, List.range_succ_eq_map]
      simp only [SGGameHandler.pushBackProbabilityTable, List.map_append, List.map_cons,
        List.map_nil, List.map_map, List.append_assoc, List.singleton_append, Nat.cast_zero,
        add_zero]
      congr 2
      apply List.map_congr_left
      intro j _
      simp only [Function.comp_apply, Nat.succ_eq_add_one, Nat.cast_add, Nat.cast_one]
      omega

/-- After `initializeModels` there are one model and one view per state of the game, the
models for tomorrow's states 0, 1 and so on; the game and the selector are as they were. -/
theorem initializeModels_spec (h : SGGameHandler) (h0 : 0 ≤ h.game.getNumStates) :
    h.initializeModels.game = h.game ∧
    h.initializeModels.currentStateCombo = h.currentStateCombo ∧
    (h.initializeModels.probabilityTableViews.length : Int) = h.game.getNumStates ∧
    (h.initializeModels.probabilityModels.length : Int) = h.game.getNumStates ∧
    h.initializeModels.probabilityModels.map (fun m => m.nextState)
      = (List.range h.initializeModels.probabilityModels.length).map
          (fun (i : Nat) => (i : Int)) := by
  obtain ⟨h1, h2, h3, h4⟩ := pushBackTables_spec h.game.getNumStates.toNat 0
    { h with
      payoffModel := some { state := 0 }
      payoffTableView := { h.payoffTableView with selection := [] }
      probabilityModels := []
      probabilityTableLayout := []
      probabilityTableViews := [] }
  have hlen : h.initializeModels.probabilityModels.length = h.game.getNumStates.toNat := by
    have := congrArg List.length h4
    simpa using this
  refine ⟨h1, h2, ?_, ?_, ?_⟩
  · show ((SGGameHandler.pushBackTables _ _ _).probabilityTableViews.length : Int) = _
    rw [h3]
    simp only [List.length_nil, zero_add]
    omega
  · rw [hlen]
    omega
  · rw [hlen]
    show (SGGameHandler.pushBackTables _ _ _).probabilityModels.map _ = _
    rw [h4]
    simp

/-- The call `setChecked` on the box, with the slot it may trigger, leaves the number of
states of the game and the state selector. -/
theorem setFeasibleChecked_frame (h : SGGameHandler) (checked : Bool) :
    (h.setFeasibleChecked checked).game.getNumStates = h.game.getNumStates ∧
    (h.setFeasibleChecked checked).currentStateCombo = h.currentStateCombo := by
  unfold SGGameHandler.setFeasibleChecked
  split
  · exact ⟨rfl, rfl⟩
  · unfold SGGameHandler.setConstrained
    split <;> exact ⟨rfl, rfl⟩

/-- The call `setText` on the edit of the discount factor, with the slot it may trigger,
leaves the number of states of the game and the state selector. -/
theorem setDeltaText_frame (parse : String → Option Dbl) (h : SGGameHandler) (text : String) :
    (SGGameHandler.setDeltaText parse h text).game.getNumStates = h.game.getNumStates ∧
    (SGGameHandler.setDeltaText parse h text).currentStateCombo = h.currentStateCombo := by
  unfold SGGameHandler.setDeltaText
  split
  · exact ⟨rfl, rfl⟩
  · unfold SGGameHandler.discountFactorChanged
    simp only
    split <;> exact ⟨rfl, rfl⟩

/-- After `setGame` of a game, the size invariant of the game tab holds. -/
theorem setGame_tabSizes (parse : String → Option Dbl) (showNumber : Dbl → String)
    (h h1 : SGGameHandler) (g : SGGame) (h0 : 0 ≤ g.getNumStates)
    (hs : SGGameHandler.setGame parse showNumber h g = some h1) :
    h1.TabSizes ∧ h1.game.getNumStates = g.getNumStates := by
  unfold SGGameHandler.setGame at hs
  simp only at hs
  cases hc0 : g.getConstrained[0]? with
  | none => simp [hc0] at hs
  | some c0 =>
    simp only [hc0] at hs
    cases hboth : (if c0 = true then g.getConstrained[1]? else some false) with
    | none => simp [hboth] at hs
    | some both =>
      simp only [hboth] at hs
      split at hs
      · exact absurd hs (by simp)
      · rename_i edits hedits
        simp only [Option.some.injEq] at hs
        subst hs
        have hA := setFeasibleChecked_frame ({ h with game := g } : SGGameHandler) both
        have hB := changeNumberOfStates_count
          (({ h with game := g } : SGGameHandler).setFeasibleChecked both)
          (({ h with game := g } : SGGameHandler).setFeasibleChecked both).game.getNumStates
          (by rw [hA.1]; exact h0)
        have hC := setDeltaText_frame parse
          ((({ h with game := g } : SGGameHandler).setFeasibleChecked both).changeNumberOfStates
            (({ h with game := g } : SGGameHandler).setFeasibleChecked both).game.getNumStates)
          (showNumber ((({ h with game := g } : SGGameHandler).setFeasibleChecked
            both).changeNumberOfStates
            (({ h with game := g } : SGGameHandler).setFeasibleChecked
              both).game.getNumStates).game.getDelta)
        have hnum : (SGGameHandler.setDeltaText parse
            ((({ h with game := g } : SGGameHandler).setFeasibleChecked
              both).changeNumberOfStates
              (({ h with game := g } : SGGameHandler).setFeasibleChecked both).game.getNumStates)
            (showNumber ((({ h with game := g } : SGGameHandler).setFeasibleChecked
              both).changeNumberOfStates
              (({ h with game := g } : SGGameHandler).setFeasibleChecked
                both).game.getNumStates).game.getDelta)).game.getNumStates = g.getNumStates := by
          rw [hC.1, hB.2.1, hA.1]
        obtain ⟨i1, i2, i3, i4, i5⟩ := initializeModels_spec
          ({ SGGameHandler.setDeltaText parse
              ((({ h with game := g } : SGGameHandler).setFeasibleChecked
                both).changeNumberOfStates
                (({ h with game := g } : SGGameHandler).setFeasibleChecked
                  both).game.getNumStates)
              (showNumber ((({ h with game := g } : SGGameHandler).setFeasibleChecked
                both).changeNumberOfStates
                (({ h with game := g } : SGGameHandler).setFeasibleChecked
                  both).game.getNumStates).game.getDelta) with
            numActionsEdits := edits } : SGGameHandler)
          (by show 0 ≤ (SGGameHandler.setDeltaText _ _ _).game.getNumStates
              rw [hnum]; exact h0)
        refine ⟨⟨?_, ?_, ?_, i5⟩, ?_⟩
        · rw [i4, i1]
        · rw [i3, i1]
        · rw [i2, i1]
          show (SGGameHandler.setDeltaText _ _ _).currentStateCombo.count
            = (SGGameHandler.setDeltaText _ _ _).game.getNumStates
          rw [hC.2, hnum, hB.1, hA.1]
        · rw [i1]
          exact hnum

/-- A `setState` with defined behaviour keeps the size invariant of the game tab. -/
theorem setState_tabSizes (h h1 : SGGameHandler) (s : Int) (hs : h.setState s = some h1)
    (hinv : h.TabSizes) : h1.TabSizes := by
  obtain ⟨f1, f2, -, f4, -, f6⟩ := setState_frame h h1 s hs
  have hlen : h1.probabilityModels.length = h.probabilityModels.length := by
    have := congrArg List.length f6
    simpa using this
  obtain ⟨i1, i2, i3, i4⟩ := hinv
  refine ⟨?_, ?_, ?_, ?_⟩
  · rw [hlen, f1]; exact i1
  · rw [f2, f1]; exact i2
  · unfold QComboBox.count
    rw [f4, f1]
    exact i3
  · rw [f6, hlen]; exact i4

/-- The statements of `stateAdded` before its `setState` keep the size invariant, when
`addState` leaves one state more. -/
theorem stateAddedTables_tabSizes (ops : GameOps) (h : SGGameHandler)
    (hadd : ∀ g position, (ops.addState g position).getNumStates = g.getNumStates + 1)
    (hinv : h.TabSizes) : (SGGameHandler.stateAddedTables ops h).TabSizes := by
  obtain ⟨i1, i2, i3, i4⟩ := hinv
  have hn := hadd h.game (h.currentStateCombo.currentIndex + 1)
  have hB := changeNumberOfStates_count
    ({ h with game := ops.addState h.game (h.currentStateCombo.currentIndex + 1) }
      : SGGameHandler)
    (ops.addState h.game (h.currentStateCombo.currentIndex + 1)).getNumStates
    (by rw [hn]; omega)
  unfold SGGameHandler.stateAddedTables
  simp only
  unfold SGGameHandler.TabSizes SGGameHandler.pushBackProbabilityTable
  simp only [List.length_append, List.length_singleton, List.map_append, List.map_cons,
    List.map_nil]
  rw [hB.2.1, hB.2.2.1, hB.2.2.2]
  refine ⟨?_, ?_, ?_, ?_⟩
  · show ((h.probabilityModels.length + 1 : Nat) : Int) = _
    rw [hn]; omega
  · show ((h.probabilityTableViews.length + 1 : Nat) : Int) = _
    rw [hn]; omega
  · exact hB.1
  · show List.map _ h.probabilityModels ++ [_] = _
    rw [i4, List.range_succ, List.map_append]
    simp only [List.map_cons, List.map_nil]
    congr 2
    show (ops.addState h.game (h.currentStateCombo.currentIndex + 1)).getNumStates - 1
      = (h.probabilityModels.length : Int)
    rw [hn]; omega

/-- The statements of `stateRemoved` from `popBackProbabilityTable` to before its `setState`
keep the size invariant, when `removeState` leaves one state less. -/
theorem stateRemovedTables_tabSizes (ops : GameOps) (h h1 : SGGameHandler) (state : Int)
    (hrem : ∀ g st, (ops.removeState g st).getNumStates = g.getNumStates - 1)
    (hpop : h.popBackProbabilityTable = some h1) (hinv : h.TabSizes) :
    (SGGameHandler.stateRemovedTables ops h1 state).TabSizes := by
  obtain ⟨i1, i2, i3, i4⟩ := hinv
  obtain ⟨hne, rfl⟩ := popBackProbabilityTable_some h h1 hpop
  have hlen : 1 ≤ h.probabilityModels.length := by
    cases hm : h.probabilityModels with
    | nil => exact absurd hm hne
    | cons m ms => simp
  have hn := hrem h.game state
  have hc1 : (h.currentStateCombo.setCurrentIndex
      (min state (SGGameHandler.stateRemovedNewState state))).count = h.game.getNumStates := by
    unfold QComboBox.count
    rw [QComboBox.items_setCurrentIndex]
    exact i3
  have hc2 := QComboBox.count_removeItem
    (h.currentStateCombo.setCurrentIndex (min state (SGGameHandler.stateRemovedNewState state)))
    ((h.currentStateCombo.setCurrentIndex
      (min state (SGGameHandler.stateRemovedNewState state))).count - 1)
    (by rw [hc1]; omega) (by omega)
  unfold SGGameHandler.stateRemovedTables
  simp only
  unfold SGGameHandler.TabSizes
  simp only [List.length_dropLast, List.map_dropLast]
  refine ⟨?_, ?_, ?_, ?_⟩
  · show ((h.probabilityModels.length - 1 : Nat) : Int) = (ops.removeState h.game state).getNumStates
    rw [hn]; omega
  · show ((h.probabilityTableViews.length - 1 : Nat) : Int)
      = (ops.removeState h.game state).getNumStates
    rw [hn]; omega
  · show (QComboBox.removeItem _ _).count = (ops.removeState h.game state).getNumStates
    rw [hc2, hc1, hn]
  · rw [i4]
    obtain ⟨m, hm⟩ : ∃ m, h.probabilityModels.length = m + 1 := ⟨_, (Nat.sub_add_cancel hlen).symm⟩
    rw [hm, List.range_succ, List.map_append]
    simp

/-- The loop over the probability tables of `actionAdded` and `actionRemoved` stays in range
when there are as many models and views as rounds. -/
theorem tablesInRange_of_le (models : List SGProbabilityTableModel)
    (views : List SGTableView) :
    ∀ (k i : Nat), i + k ≤ models.length → i + k ≤ views.length →
      SGGameHandler.tablesInRange models views k i = true := by
  intro k
  induction k with
  | zero => intro i _ _; rfl
  | succ k ih =>
    intro i hm hv
    have him : i < models.length := by omega
    have hiv : i < views.length := by omega
    simp only [SGGameHandler.tablesInRange, List.getElem?_eq_getElem him,
      List.getElem?_eq_getElem hiv]
    exact ih (i + 1) (by omega) (by omega)

/-- The loop of the destructor stays in range when there are as many models as rounds. -/
theorem deleteModelsInRange_of_le (models : List SGProbabilityTableModel) :
    ∀ (k i : Nat), i + k ≤ models.length →
      SGGameHandler.deleteModelsInRange models k i = true := by
  intro k
  induction k with
  | zero => intro i _; rfl
  | succ k ih =>
    intro i hm
    have him : i < models.length := by omega
    simp only [SGGameHandler.deleteModelsInRange, List.getElem?_eq_getElem him]
    exact ih (i + 1) (by omega)

/-- Claim C20: size invariant of the game tab. When addState and removeState change the
number of states by exactly one, setGame (of a game whose number of states is not negative)
establishes, and stateAdded and stateRemoved preserve, that the number of probability
models, the number of probability views and the number of entries of the state selector all
equal the number of states of the game, and that model i is the one built for tomorrow's
state i. Under the invariant every index into probabilityModels and probabilityTableViews
that the loops of setState, of actionAdded and actionRemoved (over a game with the same
number of states) and of the destructor use is in range. -/
theorem tab_sizes_invariant (parse : String → Option Dbl) (showNumber : Dbl → String)
    (ops : GameOps) (h0 : SGGameHandler) (g : SGGame) (h : SGGameHandler)
    (hadd : ∀ g1 position, (ops.addState g1 position).getNumStates = g1.getNumStates + 1)
    (hrem : ∀ g1 state, (ops.removeState g1 state).getNumStates = g1.getNumStates - 1)
    (hg : 0 ≤ g.getNumStates) (hinv : h.TabSizes) :
    (∀ h1, SGGameHandler.setGame parse showNumber h0 g = some h1 → h1.TabSizes) ∧
    (∀ r, h.stateAdded ops = some r → r.handler.TabSizes) ∧
    (∀ r, h.stateRemoved ops = some r → r.handler.TabSizes) ∧
    (∀ s, ∃ models, SGGameHandler.setStateModels s h.probabilityTableViews
      h.game.getNumStates.toNat 0 h.probabilityModels = some models) ∧
    (∀ g1 : SGGame, g1.getNumStates = h.game.getNumStates →
      SGGameHandler.tablesInRange h.probabilityModels h.probabilityTableViews
        g1.getNumStates.toNat 0 = true) ∧
    h.destructorDefined = true := by
  have hm : h.probabilityModels.length = h.game.getNumStates.toNat := by
    have := hinv.1
    omega
  have hv : h.probabilityTableViews.length = h.game.getNumStates.toNat := by
    have := hinv.2.1
    omega
  refine ⟨fun h1 hs => ?_, fun r hr => ?_, fun r hr => ?_, fun s => ?_, fun g1 hg1 => ?_, ?_⟩
  · exact (setGame_tabSizes parse showNumber h0 h1 g hg hs).1
  · obtain ⟨h1, hset, rfl⟩ := stateAdded_some ops h r hr
    exact setState_tabSizes _ h1 _ hset (stateAddedTables_tabSizes ops h hadd hinv)
  · rcases stateRemoved_cases ops h r hr with ⟨-, rfl⟩ | ⟨-, h1, h2, hpop, hset, rfl⟩
    · exact hinv
    · exact setState_tabSizes _ h2 _ hset
        (stateRemovedTables_tabSizes ops h h1 _ hrem hpop hinv)
  · obtain ⟨ms, hms, -⟩ := setStateModels_getElem? s h.probabilityTableViews
      h.game.getNumStates.toNat 0 h.probabilityModels (by omega) (by omega)
    exact ⟨ms, hms⟩
  · rw [hg1]
    exact tablesInRange_of_le _ _ _ 0 (by omega) (by omega)
  · exact deleteModelsInRange_of_le _ _ 0 (by omega)

/-- The sample editing methods remove an action as the properties of the game tab assume:
one action less for the player in the state, and nothing else. -/
theorem sampleOps_removeAction (g : SGGame) (state pl action : Int) (row : List Int)
    (n : Int) (hrow : vecGet? g.getNumActions state = some row)
    (hn : vecGet? row pl = some n) :
    (sampleOps.removeAction g state pl action).numStates = g.numStates ∧
    (sampleOps.removeAction g state pl action).numActions
      = g.numActions.set state.toNat (row.set pl.toNat (n - 1)) := by
  refine ⟨rfl, ?_⟩
  unfold vecGet? at hrow hn
  split at hrow
  · exact absurd hrow (by simp)
  · split at hn
    · exact absurd hn (by simp)
    · have hrow1 : g.numActions[state.toNat]? = some row := hrow
      show changeNumActions g.numActions state pl (-1) = _
      unfold changeNumActions
      simp only [hrow1, hn]
      rfl

/-- The sample editing methods remove a state as the properties of the game tab assume: one
state less, with numbers of actions that were there. -/
theorem sampleOps_removeState (g : SGGame) (state : Int) :
    (sampleOps.removeState g state).numStates = g.numStates - 1 ∧
    ∀ row ∈ (sampleOps.removeState g state).numActions, row ∈ g.numActions :=
  ⟨rfl, fun _ hrow => List.mem_of_mem_eraseIdx hrow⟩

/-- Instance of `remove_requests_keep_game_nonempty`: the sample game tab showing state 1,
for the column player, who has three actions there. -/
theorem remove_requests_keep_game_nonempty_witness :
    (∃ r, SGGameHandler.stateRemoved sampleOps
        { sampleHandler false with currentStateCombo := { items := ["0", "1"], currentIndex := 1 } }
        = some r ∧ r.handler.game.numStates = 1 ∧ r.handler.game.numActions = [[1, 1]]) ∧
    (∃ r, SGGameHandler.actionRemoved sampleOps
        { sampleHandler false with currentStateCombo := { items := ["0", "1"], currentIndex := 1 } }
        1 = some r ∧ r.handler.game.numActions = [[1, 1], [2, 2]]) ∧
    (twoStateGame.HasStatesAndActions →
      (∀ r, SGGameHandler.stateRemoved sampleOps
          { sampleHandler false with
            currentStateCombo := { items := ["0", "1"], currentIndex := 1 } } = some r →
        r.handler.game.HasStatesAndActions) ∧
      (∀ r, SGGameHandler.actionRemoved sampleOps
          { sampleHandler false with
            currentStateCombo := { items := ["0", "1"], currentIndex := 1 } } 1 = some r →
        r.handler.game.HasStatesAndActions)) :=
  ⟨⟨_, rfl, by decide, by decide⟩, ⟨_, rfl, by decide⟩,
    (remove_requests_keep_game_nonempty sampleOps
      { sampleHandler false with currentStateCombo := { items := ["0", "1"], currentIndex := 1 } }
      1 sampleOps_removeAction sampleOps_removeState).2.2⟩

/-- Instance of `tab_sizes_invariant`: the two-state sample game loaded into the game tab of
the one-state sample game, and a state added to and removed from the two-state game tab. -/
theorem tab_sizes_invariant_witness :
    (sampleHandler false).TabSizes ∧
    (∃ h1, SGGameHandler.setGame sampleParse sampleShowNumber oneStateHandler twoStateGame
      = some h1) ∧
    (∃ r, (sampleHandler false).stateAdded sampleOps = some r) ∧
    (∃ r, (sampleHandler false).stateRemoved sampleOps = some r) ∧
    ((∀ h1, SGGameHandler.setGame sampleParse sampleShowNumber oneStateHandler twoStateGame
        = some h1 → h1.TabSizes) ∧
    (∀ r, (sampleHandler false).stateAdded sampleOps = some r → r.handler.TabSizes) ∧
    (∀ r, (sampleHandler false).stateRemoved sampleOps = some r → r.handler.TabSizes) ∧
    (∀ s, ∃ models, SGGameHandler.setStateModels s (sampleHandler false).probabilityTableViews
      (sampleHandler false).game.getNumStates.toNat 0 (sampleHandler false).probabilityModels
        = some models) ∧
    (∀ g1 : SGGame, g1.getNumStates = (sampleHandler false).game.getNumStates →
      SGGameHandler.tablesInRange (sampleHandler false).probabilityModels
        (sampleHandler false).probabilityTableViews g1.getNumStates.toNat 0 = true) ∧
    (sampleHandler false).destructorDefined = true) :=
  ⟨⟨rfl, rfl, rfl, rfl⟩, ⟨_, rfl⟩, ⟨_, rfl⟩, ⟨_, rfl⟩,
    tab_sizes_invariant sampleParse sampleShowNumber sampleOps oneStateHandler twoStateGame
      (sampleHandler false) (fun _ _ => rfl) (fun _ _ => rfl) (by decide)
      ⟨rfl, rfl, rfl, rfl⟩⟩

/-! ## Properties of the polygons of the approximation engine -/

/-- The signed area of a triangle with two equal corners is zero. -/
theorem orient_degenerate (a b : Vertex) :
    orient a b b = 0 ∧ orient a b a = 0 ∧ orient a a b = 0 := by
  refine ⟨?_, ?_, ?_⟩ <;> unfold orient <;> ring

/-- The relation between the signed areas of the triangles on five points that places the
pivot `p` and a vertex `m` around a corner `o` of a polygon with neighbours `u` and `w`. -/
theorem orient_corner_end (o u w m p : Vertex) :
    orient o p m * orient o w u
      = orient u o m * (-(orient o w p)) + orient o w m * orient u o p := by
  unfold orient
  ring

/-- The same relation at the corner where the kept boundary starts. -/
theorem orient_corner_start (o l b m p : Vertex) :
    orient p o m * orient o b l
      = orient l o m * orient o b p + orient o b m * (-(orient l o p)) := by
  unfold orient
  ring

/-- A vertex read at an index in range is a vertex of the polygon. -/
theorem vertexAt_mem (P : List Vertex) (i : Nat) (hi : i < P.length) : vertexAt P i ∈ P := by
  unfold vertexAt
  rw [List.getD_eq_getElem _ _ hi]
  exact List.getElem_mem hi

/-- Every vertex of the polygon is read at some index in range. -/
theorem exists_vertexAt_of_mem (P : List Vertex) (c : Vertex) (hc : c ∈ P) :
    ∃ i, i < P.length ∧ vertexAt P i = c := by
  obtain ⟨i, hi, rfl⟩ := List.getElem_of_mem hc
  exact ⟨i, hi, by unfold vertexAt; rw [List.getD_eq_getElem _ _ hi]⟩

/-- In a polygon without repeated vertex, different indices read different vertices. -/
theorem vertexAt_inj (P : List Vertex) (hP : P.Nodup) (i j : Nat) (hi : i < P.length)
    (hj : j < P.length) (h : vertexAt P i = vertexAt P j) : i = j := by
  unfold vertexAt at h
  rw [List.getD_eq_getElem _ _ hi, List.getD_eq_getElem _ _ hj] at h
  exact (List.Nodup.getElem_inj_iff hP).mp h

/-- Vertex `i` of a rotated polygon. -/
theorem vertexAt_rotate (P : List Vertex) (r i : Nat) (hi : i < P.length) :
    vertexAt (P.rotate r) i = vertexAt P ((i + r) % P.length) := by
  unfold vertexAt
  rw [List.getD_eq_getElem?_getD, List.getD_eq_getElem?_getD, List.getElem?_rotate hi]

/-- Vertex `i` of the first `k` vertices of a polygon. -/
theorem vertexAt_take (Q : List Vertex) (k i : Nat) (hi : i < k) :
    vertexAt (Q.take k) i = vertexAt Q i := by
  unfold vertexAt
  rw [List.getD_eq_getElem?_getD, List.getD_eq_getElem?_getD, List.getElem?_take_of_lt hi]

/-- Vertex `i` of a polygon closed by a pivot, when `i` is an index of the polygon. -/
theorem vertexAt_append_left (L : List Vertex) (p : Vertex) (i : Nat) (hi : i < L.length) :
    vertexAt (L ++ [p]) i = vertexAt L i := by
  unfold vertexAt
  rw [List.getD_eq_getElem?_getD, List.getD_eq_getElem?_getD, List.getElem?_append_left hi]

/-- The last vertex of a polygon closed by a pivot is the pivot. -/
theorem vertexAt_append_right (L : List Vertex) (p : Vertex) :
    vertexAt (L ++ [p]) L.length = p := by
  unfold vertexAt
  rw [List.getD_eq_getElem?_getD, List.getElem?_append_right (le_refl _)]
  simp

/-- The successor of an index on the cycle, after a rotation. -/
theorem succ_mod_rotate (n r i : Nat) :
    ((i + 1) % n + r) % n = ((i + r) % n + 1) % n := by
  rw [Nat.mod_add_mod, Nat.mod_add_mod]
  congr 1
  omega

/-- The side of the pivot with respect to an edge of a rotated polygon. -/
theorem edgeSide_rotate (tol : ℚ) (p : Vertex) (P : List Vertex) (r i : Nat)
    (hi : i < P.length) :
    edgeSide tol p (P.rotate r) i = edgeSide tol p P ((i + r) % P.length) := by
  have hn : 0 < P.length := by omega
  unfold edgeSide
  rw [List.length_rotate, vertexAt_rotate P r i hi,
    vertexAt_rotate P r ((i + 1) % P.length) (Nat.mod_lt _ hn), succ_mod_rotate]

/-- Convex cyclic order does not depend on the vertex at which the polygon starts. -/
theorem ConvexCyclic.rotate {P : List Vertex} (hP : ConvexCyclic P) (r : Nat) :
    ConvexCyclic (P.rotate r) := by
  obtain ⟨h3, hnd, hedge⟩ := hP
  have hn : 0 < P.length := by omega
  refine ⟨by rw [List.length_rotate]; exact h3, List.nodup_rotate.mpr hnd, ?_⟩
  intro i hi c hc hca hcb
  rw [List.length_rotate] at hi hcb ⊢
  rw [vertexAt_rotate P r i hi] at hca ⊢
  rw [vertexAt_rotate P r ((i + 1) % P.length) (Nat.mod_lt _ hn), succ_mod_rotate] at hcb ⊢
  exact hedge ((i + r) % P.length) (Nat.mod_lt _ hn) c (List.mem_rotate.mp hc) hca hcb

/-- In a polygon in convex cyclic order, vertex `m` lies strictly to the left of edge `i`
when it is not one of its two ends. -/
theorem ConvexCyclic.orient_pos {Q : List Vertex} (hQ : ConvexCyclic Q) (i m : Nat)
    (hi : i < Q.length) (hm : m < Q.length) (h1 : m ≠ i) (h2 : m ≠ (i + 1) % Q.length) :
    0 < orient (vertexAt Q i) (vertexAt Q ((i + 1) % Q.length)) (vertexAt Q m) := by
  have hn : 0 < Q.length := by omega
  exact hQ.2.2 i hi (vertexAt Q m) (vertexAt_mem Q m hm)
    (fun h => h1 (vertexAt_inj Q hQ.2.1 m i hm hi h))
    (fun h => h2 (vertexAt_inj Q hQ.2.1 m _ hm (Nat.mod_lt _ hn) h))

/-- In a polygon in convex cyclic order, no vertex lies to the right of an edge. -/
theorem ConvexCyclic.orient_nonneg {Q : List Vertex} (hQ : ConvexCyclic Q) (i m : Nat)
    (hi : i < Q.length) (hm : m < Q.length) :
    0 ≤ orient (vertexAt Q i) (vertexAt Q ((i + 1) % Q.length)) (vertexAt Q m) := by
  by_cases h1 : m = i
  · subst h1
    exact le_of_eq (orient_degenerate _ _).2.1.symm
  · by_cases h2 : m = (i + 1) % Q.length
    · have : vertexAt Q m = vertexAt Q ((i + 1) % Q.length) := by rw [← h2]
      rw [this]
      exact le_of_eq (orient_degenerate _ _).1.symm
    · exact le_of_lt (hQ.orient_pos i m hi hm h1 h2)

/-- What the comparison with the tolerance says of the signed area, for a tolerance that is
not negative: inside means strictly left, outside means strictly right. -/
theorem side_orient (tol : ℚ) (h0 : 0 ≤ tol) (p a b : Vertex) :
    (side tol p a b = Side.inside → 0 < orient a b p) ∧
    (side tol p a b = Side.outside → orient a b p < 0) := by
  unfold side
  refine ⟨fun h => ?_, fun h => ?_⟩
  · by_cases h1 : tol < orient a b p
    · linarith
    · rw [if_neg h1] at h
      split at h <;> cases h
  · by_cases h1 : tol < orient a b p
    · rw [if_pos h1] at h
      cases h
    · rw [if_neg h1] at h
      by_cases h2 : orient a b p < -tol
      · linarith
      · rw [if_neg h2] at h
        cases h

/-- The search for the end of the kept boundary: it stops at the first edge that does not
have the pivot inside. -/
theorem chainEnd_spec (tol : ℚ) (p : Vertex) (Q : List Vertex) :
    ∀ (k i : Nat), i ≤ chainEnd tol p Q k i ∧ chainEnd tol p Q k i ≤ i + k ∧
      (∀ m, i ≤ m → m < chainEnd tol p Q k i → edgeSide tol p Q m = Side.inside) ∧
      (chainEnd tol p Q k i < i + k → edgeSide tol p Q (chainEnd tol p Q k i) ≠ Side.inside) := by
  intro k
  induction k with
  | zero =>
    intro i
    simp [chainEnd]
    intro m h1 h2
    omega
  | succ k ih =>
    intro i
    unfold chainEnd
    by_cases hin : edgeSide tol p Q i = Side.inside
    · simp only [hin, if_true]
      obtain ⟨h1, h2, h3, h4⟩ := ih (i + 1)
      refine ⟨by omega, by omega, fun m hm1 hm2 => ?_, fun hlt => h4 (by omega)⟩
      by_cases hmi : m = i
      · rw [hmi]; exact hin
      · exact h3 m (by omega) hm2
    · simp only [hin, if_false]
      exact ⟨le_refl _, by omega, fun m h1 h2 => by omega, fun _ => hin⟩

/-- The heart of the update: when the polygon starts where the boundary seen from the pivot
ends, keeping the vertices up to the first edge seen from the pivot and closing with the
pivot gives a polygon in convex cyclic order. -/
theorem closeChain_convex (tol : ℚ) (h0 : 0 ≤ tol) (p : Vertex) (Q : List Vertex)
    (hQ : ConvexCyclic Q)
    (hnear : ∀ i < Q.length, edgeSide tol p Q i ≠ Side.near)
    (hfirst : edgeSide tol p Q 0 = Side.inside)
    (hlast : edgeSide tol p Q (Q.length - 1) = Side.outside) :
    ConvexCyclic (Q.take (chainEnd tol p Q Q.length 0 + 1) ++ [p]) := by
  obtain ⟨_, c2, c3, c4⟩ := chainEnd_spec tol p Q Q.length 0
  generalize chainEnd tol p Q Q.length 0 = k at c2 c3 c4 ⊢
  have h3 := hQ.1
  have hk1 : 1 ≤ k := by
    by_contra h
    have hk0 : k = 0 := by omega
    rw [hk0] at c4
    exact c4 (by omega) hfirst
  have hkn : k < Q.length := by
    by_contra h
    have : edgeSide tol p Q (Q.length - 1) = Side.inside :=
      c3 (Q.length - 1) (by omega) (by omega)
    rw [this] at hlast
    cases hlast
  have hkout : edgeSide tol p Q k = Side.outside := by
    have a := c4 (by omega)
    have b := hnear k hkn
    cases hs : edgeSide tol p Q k
    · exact absurd hs a
    · rfl
    · exact absurd hs b
  have hin : ∀ m, m < k → 0 < orient (vertexAt Q m) (vertexAt Q (m + 1)) p := by
    intro m hm
    have := (side_orient tol h0 p _ _).1 (c3 m (Nat.zero_le _) hm)
    rwa [Nat.mod_eq_of_lt (by omega)] at this
  have hout : orient (vertexAt Q k) (vertexAt Q ((k + 1) % Q.length)) p < 0 :=
    (side_orient tol h0 p _ _).2 hkout
  have eL : (Q.length - 1 + 1) % Q.length = 0 := by
    rw [Nat.sub_add_cancel (by omega), Nat.mod_self]
  have hclose : orient (vertexAt Q (Q.length - 1)) (vertexAt Q 0) p < 0 := by
    have := (side_orient tol h0 p _ _).2 hlast
    rwa [eL] at this
  have hlenT : (Q.take (k + 1)).length = k + 1 := by
    rw [List.length_take]
    omega
  have hlen : (Q.take (k + 1) ++ [p]).length = k + 2 := by
    rw [List.length_append, hlenT]
    rfl
  have hR : ∀ i, i ≤ k → vertexAt (Q.take (k + 1) ++ [p]) i = vertexAt Q i := by
    intro i hi
    rw [vertexAt_append_left _ _ _ (by rw [hlenT]; omega), vertexAt_take _ _ _ (by omega)]
  have hRp : vertexAt (Q.take (k + 1) ++ [p]) (k + 1) = p := by
    have := vertexAt_append_right (Q.take (k + 1)) p
    rwa [hlenT] at this
  have hmem : ∀ c, c ∈ Q.take (k + 1) → ∃ m, m ≤ k ∧ c = vertexAt Q m := by
    intro c hc
    obtain ⟨m, hm, rfl⟩ := exists_vertexAt_of_mem _ c hc
    rw [hlenT] at hm
    exact ⟨m, by omega, vertexAt_take _ _ _ hm⟩
  have hpn : p ∉ Q.take (k + 1) := by
    intro hp
    obtain ⟨m, hm, e⟩ := hmem p hp
    by_cases hmk : m < k
    · have := hin m hmk
      rw [e, (orient_degenerate _ _).2.1] at this
      exact lt_irrefl _ this
    · have hmk2 : m = k := by omega
      have := hin (k - 1) (by omega)
      rw [Nat.sub_add_cancel hk1, e, hmk2, (orient_degenerate _ _).1] at this
      exact lt_irrefl _ this
  refine ⟨by rw [hlen]; omega, ?_, ?_⟩
  · rw [List.nodup_append]
    refine ⟨hQ.2.1.sublist (List.take_sublist _ _), List.nodup_singleton p, ?_⟩
    intro a ha hb
    rw [List.mem_singleton] at hb
    rw [hb] at ha
    exact hpn ha
  · intro i hi c hc hca hcb
    rw [hlen] at hi hcb ⊢
    rw [List.mem_append, List.mem_singleton] at hc
    by_cases hik : i < k
    · have e1 : (i + 1) % (k + 2) = i + 1 := Nat.mod_eq_of_lt (by omega)
      rw [e1, hR (i + 1) (by omega)] at hcb ⊢
      rw [hR i (by omega)] at hca ⊢
      rcases hc with hc | hc
      · obtain ⟨m, hm, rfl⟩ := hmem c hc
        have e2 : (i + 1) % Q.length = i + 1 := Nat.mod_eq_of_lt (by omega)
        have := hQ.2.2 i (by omega) _ (vertexAt_mem Q m (by omega)) hca (by rw [e2]; exact hcb)
        rwa [e2] at this
      · rw [hc]
        exact hin i hik
    · by_cases hik2 : i = k
      · rw [hik2] at hca hcb ⊢
        have e1 : (k + 1) % (k + 2) = k + 1 := Nat.mod_eq_of_lt (by omega)
        rw [e1, hRp] at hcb ⊢
        rw [hR k (le_refl _)] at hca ⊢
        rcases hc with hc | hc
        swap
        · exact absurd hc hcb
        obtain ⟨m, hm, rfl⟩ := hmem c hc
        have hmk : m < k := by
          by_contra h
          have : m = k := by omega
          rw [this] at hca
          exact hca rfl
        have ekm : (k - 1 + 1) % Q.length = k := by
          rw [Nat.sub_add_cancel hk1, Nat.mod_eq_of_lt hkn]
        have hA : 0 < orient (vertexAt Q k) (vertexAt Q ((k + 1) % Q.length))
            (vertexAt Q (k - 1)) :=
          hQ.orient_pos k (k - 1) hkn (by omega) (by omega) (by
            intro h
            by_cases hw : k + 1 = Q.length
            · rw [hw, Nat.mod_self] at h
              omega
            · rw [Nat.mod_eq_of_lt (by omega)] at h
              omega)
        have hB : 0 ≤ orient (vertexAt Q (k - 1)) (vertexAt Q k) (vertexAt Q m) := by
          have := hQ.orient_nonneg (k - 1) m (by omega) (by omega)
          rwa [ekm] at this
        have hD : 0 ≤ orient (vertexAt Q k) (vertexAt Q ((k + 1) % Q.length)) (vertexAt Q m) :=
          hQ.orient_nonneg k m hkn (by omega)
        have hE : 0 < orient (vertexAt Q (k - 1)) (vertexAt Q k) p := by
          have := hin (k - 1) (by omega)
          rwa [Nat.sub_add_cancel hk1] at this
        have hBD : 0 < orient (vertexAt Q (k - 1)) (vertexAt Q k) (vertexAt Q m) ∨
            0 < orient (vertexAt Q k) (vertexAt Q ((k + 1) % Q.length)) (vertexAt Q m) := by
          by_cases hmw : m = (k + 1) % Q.length
          · left
            have hm0 : m ≠ k - 1 := by
              by_cases hw : k + 1 = Q.length
              · rw [hw, Nat.mod_self] at hmw
                omega
              · rw [Nat.mod_eq_of_lt (by omega)] at hmw
                omega
            have := hQ.orient_pos (k - 1) m (by omega) (by omega) hm0 (by rw [ekm]; omega)
            rwa [ekm] at this
          · right
            exact hQ.orient_pos k m hkn (by omega) (by omega) hmw
        have key := orient_corner_end (vertexAt Q k) (vertexAt Q (k - 1))
          (vertexAt Q ((k + 1) % Q.length)) (vertexAt Q m) p
        have hpos : 0 < orient (vertexAt Q k) p (vertexAt Q m) *
            orient (vertexAt Q k) (vertexAt Q ((k + 1) % Q.length)) (vertexAt Q (k - 1)) := by
          rw [key]
          rcases hBD with h | h
          · have h1 := mul_pos h (neg_pos.mpr hout)
            have h2 := mul_nonneg hD (le_of_lt hE)
            linarith
          · have h1 := mul_nonneg hB (le_of_lt (neg_pos.mpr hout))
            have h2 := mul_pos h hE
            linarith
        by_contra hneg
        push_neg at hneg
        have := mul_nonneg (neg_nonneg.mpr hneg) (le_of_lt hA)
        linarith
      · have hik3 : i = k + 1 := by omega
        rw [hik3] at hca hcb ⊢
        have e1 : (k + 1 + 1) % (k + 2) = 0 := Nat.mod_self _
        rw [e1, hR 0 (Nat.zero_le _)] at hcb ⊢
        rw [hRp] at hca ⊢
        rcases hc with hc | hc
        swap
        · exact absurd hc hca
        obtain ⟨m, hm, rfl⟩ := hmem c hc
        have hm0 : m ≠ 0 := by
          intro h
          rw [h] at hcb
          exact hcb rfl
        have e0 : (0 + 1) % Q.length = 1 := Nat.mod_eq_of_lt (by omega)
        have hA : 0 < orient (vertexAt Q 0) (vertexAt Q 1) (vertexAt Q (Q.length - 1)) := by
          have := hQ.orient_pos 0 (Q.length - 1) (by omega) (by omega) (by omega)
            (by rw [e0]; omega)
          rwa [e0] at this
        have hB : 0 ≤ orient (vertexAt Q (Q.length - 1)) (vertexAt Q 0) (vertexAt Q m) := by
          have := hQ.orient_nonneg (Q.length - 1) m (by omega) (by omega)
          rwa [eL] at this
        have hC : 0 < orient (vertexAt Q 0) (vertexAt Q 1) p := hin 0 (by omega)
        have hD : 0 ≤ orient (vertexAt Q 0) (vertexAt Q 1) (vertexAt Q m) := by
          have := hQ.orient_nonneg 0 m (by omega) (by omega)
          rwa [e0] at this
        have hBD : 0 < orient (vertexAt Q (Q.length - 1)) (vertexAt Q 0) (vertexAt Q m) ∨
            0 < orient (vertexAt Q 0) (vertexAt Q 1) (vertexAt Q m) := by
          by_cases hml : m = Q.length - 1
          · right
            have := hQ.orient_pos 0 m (by omega) (by omega) hm0 (by rw [e0]; omega)
            rwa [e0] at this
          · left
            have := hQ.orient_pos (Q.length - 1) m (by omega) (by omega) hml
              (by rw [eL]; exact hm0)
            rwa [eL] at this
        have key := orient_corner_start (vertexAt Q 0) (vertexAt Q (Q.length - 1))
          (vertexAt Q 1) (vertexAt Q m) p
        have hpos : 0 < orient p (vertexAt Q 0) (vertexAt Q m) *
            orient (vertexAt Q 0) (vertexAt Q 1) (vertexAt Q (Q.length - 1)) := by
          rw [key]
          rcases hBD with h | h
          · have h1 := mul_pos h hC
            have h2 := mul_nonneg hD (le_of_lt (neg_pos.mpr hclose))
            linarith
          · have h1 := mul_nonneg hB (le_of_lt hC)
            have h2 := mul_pos h (neg_pos.mpr hclose)
            linarith
        by_contra hneg
        push_neg at hneg
        have := mul_nonneg (neg_nonneg.mpr hneg) (le_of_lt hA)
        linarith

/-- The update of one polygon preserves convex cyclic order: for a tolerance that is not
negative, a polygon in convex cyclic order is updated to a polygon in convex cyclic order
whenever the update does not fail. -/
theorem insertPivot_convex (tol : ℚ) (h0 : 0 ≤ tol) (p : Vertex) (P R : List Vertex)
    (hP : ConvexCyclic P) (h : insertPivot tol p P = some R) : ConvexCyclic R := by
  have h3 := hP.1
  unfold insertPivot at h
  split at h
  · cases h
    exact hP
  · rename_i hall
    split at h
    · cases h
    · rename_i hany
      have hnear : ∀ i < P.length, edgeSide tol p P i ≠ Side.near := by
        intro i hi hs
        apply hany
        rw [List.any_eq_true]
        exact ⟨i, List.mem_range.mpr hi, by simp [hs]⟩
      split at h
      · cases h
      · rename_i r hr
        cases h
        have ht := List.find?_some hr
        unfold tangentStart at ht
        rw [Bool.and_eq_true, decide_eq_true_eq, decide_eq_true_eq] at ht
        have hc := closeChain_convex tol h0 p (P.rotate r) (hP.rotate r)
          (by
            intro i hi
            rw [List.length_rotate] at hi
            rw [edgeSide_rotate _ _ _ _ _ hi]
            exact hnear _ (Nat.mod_lt _ (by omega)))
          ht.1 (by rw [List.length_rotate]; exact ht.2)
        rw [List.length_rotate] at hc
        exact hc

/-- The update of the polygons of all states preserves convex cyclic order. -/
theorem stepFrom_convex (tol : ℚ) (h0 : 0 ≤ tol) (pivot : Nat → Vertex) :
    ∀ (polygons : List (List Vertex)) (s : Nat) (next : List (List Vertex)),
      (∀ P ∈ polygons, ConvexCyclic P) → stepFrom tol pivot s polygons = some next →
      ∀ P ∈ next, ConvexCyclic P := by
  intro polygons
  induction polygons with
  | nil =>
    intro s next _ h
    unfold stepFrom at h
    cases h
    intro P hP
    cases hP
  | cons P rest ih =>
    intro s next hconv h
    unfold stepFrom at h
    cases h1 : insertPivot tol (pivot s) P with
    | none => simp [h1] at h
    | some P1 =>
      cases h2 : stepFrom tol pivot (s + 1) rest with
      | none => simp [h1, h2] at h
      | some rest1 =>
        simp only [h1, h2, Option.some.injEq] at h
        rw [← h]
        intro X hX
        rcases List.mem_cons.mp hX with hX | hX
        · rw [hX]
          exact insertPivot_convex tol h0 (pivot s) P P1 (hconv P (List.mem_cons_self _ _)) h1
        · exact ih (s + 1) rest1 (fun Y hY => hconv Y (List.mem_cons_of_mem _ hY)) h2 X hX

/-- Claim C12: after any number of calls of `step` that do not end in the status Failed,
the vertices of the polygon of every state are in convex cyclic order, when the tolerance
is not negative and the polygons built by `initialize` are in convex cyclic order. -/
theorem steps_preserve_convex_order (tol : ℚ) (h0 : 0 ≤ tol)
    (solver : Nat → List (List Vertex) → Nat → Vertex) (n it : Nat)
    (polygons final : List (List Vertex))
    (hinit : ∀ P ∈ polygons, ConvexCyclic P)
    (hsteps : steps tol solver n it polygons = some final) :
    ∀ P ∈ final, ConvexCyclic P := by
  induction n generalizing it polygons with
  | zero =>
    unfold steps at hsteps
    cases hsteps
    exact hinit
  | succ n ih =>
    unfold steps at hsteps
    cases h1 : step tol (solver it polygons) polygons with
    | none => simp [h1] at hsteps
    | some next =>
      simp only [h1] at hsteps
      exact ih (it + 1) next
        (stepFrom_convex tol h0 (solver it polygons) polygons 0 next hinit h1) hsteps

/-- Two steps on two squares with tolerance 1/100: each step inserts the pivot of each
state, the second step discards the pivot of the first, and all polygons are in convex
cyclic order. -/
theorem steps_preserve_convex_order_witness :
    (0 : ℚ) ≤ 1 / 100 ∧ (∀ P ∈ [sampleSquare, sampleSquare], ConvexCyclic P) ∧
    steps (1 / 100) samplePivots 2 0 [sampleSquare, sampleSquare] =
      some [[{ x := 2, y := 2 }, { x := 0, y := 2 }, { x := 0, y := 0 }, { x := 2, y := 0 },
               { x := 4, y := 1 }],
            [{ x := 0, y := 2 }, { x := 0, y := 0 }, { x := 2, y := 0 }, { x := 2, y := 2 },
               { x := 1, y := 4 }]] ∧
    ∀ P ∈ [[({ x := 2, y := 2 } : Vertex), { x := 0, y := 2 }, { x := 0, y := 0 },
               { x := 2, y := 0 }, { x := 4, y := 1 }],
            [{ x := 0, y := 2 }, { x := 0, y := 0 }, { x := 2, y := 0 }, { x := 2, y := 2 },
               { x := 1, y := 4 }]], ConvexCyclic P :=
  ⟨by norm_num, by decide!, by decide!,
    steps_preserve_convex_order (1 / 100) (by norm_num) samplePivots 2 0
      [sampleSquare, sampleSquare] _ (by decide!) (by decide!)⟩

/-! ## Properties of the state selector and of the navigation -/

/-- Removing the last entry of a box whose entries are labelled with their indices leaves
such a box. -/
theorem QComboBox.numbered_removeItem_last (c : QComboBox) (hc : c.Numbered)
    (h1 : 1 ≤ c.count) : (c.removeItem (c.count - 1)).Numbered := by
  have hlen : 1 ≤ c.items.length := by
    unfold QComboBox.count at h1
    omega
  have he : c.items.eraseIdx (c.count - 1).toNat = c.items.dropLast := by
    rw [List.dropLast_eq_eraseIdx]
    unfold QComboBox.count
    omega
  have hitems : (c.removeItem (c.count - 1)).items = c.items.dropLast := by
    unfold QComboBox.removeItem
    have hr : 0 ≤ c.count - 1 ∧ c.count - 1 < c.count := by omega
    rw [if_pos hr]
    simp only [he]
    split
    · rfl
    · split <;> rfl
  unfold QComboBox.Numbered at hc ⊢
  rw [hitems, List.length_dropLast]
  obtain ⟨m, hm⟩ : ∃ m, c.items.length = m + 1 := ⟨_, (Nat.sub_add_cancel hlen).symm⟩
  rw [hm] at hc ⊢
  rw [hc, List.range_succ, List.map_append]
  simp

/-- Adding to a box whose entries are labelled with their indices an entry labelled with the
number of entries leaves such a box. -/
theorem QComboBox.numbered_addItem (c : QComboBox) (hc : c.Numbered) :
    (c.addItem (qNumber c.count)).Numbered := by
  unfold QComboBox.Numbered at hc ⊢
  unfold QComboBox.addItem QComboBox.count
  simp only [List.length_append, List.length_singleton]
  rw [List.range_succ, List.map_append, ← hc]
  rfl

/-- The first loop of `changeNumberOfStates` keeps the entries labelled with their
indices. -/
theorem removeItemsAbove_numbered (newS : Int) (h0 : 0 ≤ newS) :
    ∀ (k : Nat) (state : Int) (c : QComboBox), c.count = state → c.Numbered →
      (SGGameHandler.removeItemsAbove newS k state c).2.Numbered := by
  intro k
  induction k with
  | zero =>
    intro state c _ hn
    exact hn
  | succ k ih =>
    intro state c hc hn
    unfold SGGameHandler.removeItemsAbove
    by_cases hgt : state > newS
    · simp only [hgt, if_true]
      have hrem : (c.removeItem (state - 1)).Numbered := by
        have := QComboBox.numbered_removeItem_last c hn (by omega)
        rwa [hc] at this
      have hcount : (c.removeItem (state - 1)).count = state - 1 := by
        rw [QComboBox.count_removeItem c (state - 1) (by omega) (by omega), hc]
      exact ih (state - 1) _ hcount hrem
    · simp only [hgt, if_false]
      exact hn

/-- The second loop of `changeNumberOfStates`, given enough rounds, stops with the larger of
the number of entries and the new number of states as value of `state`, and keeps the
entries labelled with their indices. -/
theorem addItemsUpTo_numbered (newS : Int) :
    ∀ (k : Nat) (state : Int) (c : QComboBox), c.count = state → newS - state ≤ k →
      c.Numbered →
      (SGGameHandler.addItemsUpTo newS k state c).1 = max state newS ∧
      (SGGameHandler.addItemsUpTo newS k state c).2.Numbered := by
  intro k
  induction k with
  | zero =>
    intro state c _ hk hn
    have : newS ≤ state := by omega
    rw [max_eq_left this]
    exact ⟨rfl, hn⟩
  | succ k ih =>
    intro state c hc hk hn
    unfold SGGameHandler.addItemsUpTo
    by_cases hlt : state < newS
    · simp only [hlt, if_true]
      have hadd : (c.addItem (qNumber state)).Numbered := by
        have := QComboBox.numbered_addItem c hn
        rwa [hc] at this
      have hcount : (c.addItem (qNumber state)).count = state + 1 := by
        rw [QComboBox.count_addItem, hc]
      obtain ⟨h1, h2⟩ := ih (state + 1) _ hcount (by omega) hadd
      refine ⟨?_, h2⟩
      rw [h1, max_eq_right (by omega), max_eq_right (by omega)]
    · simp only [hlt, if_false]
      have : newS ≤ state := by omega
      rw [max_eq_left this]
      exact ⟨rfl, hn⟩

/-- Claim C21: for every newS >= 1 and every state selector whose entry i is labelled with
the decimal text of i, changeNumberOfStates(newS) terminates (each of its two loops, in the
rounds it is given, ends with its condition false) and leaves the selector with exactly
newS entries, entry i labelled with the decimal text of i for every i < newS, and the
current index 0. -/
theorem changeNumberOfStates_selector (h : SGGameHandler) (newS : Int) (h1 : 1 ≤ newS)
    (hlab : h.currentStateCombo.Numbered) :
    ¬ ((SGGameHandler.removeItemsAbove newS (h.currentStateCombo.count - newS).toNat
          h.currentStateCombo.count h.currentStateCombo).1 > newS) ∧
    ¬ ((SGGameHandler.addItemsUpTo newS
          (newS - (SGGameHandler.removeItemsAbove newS (h.currentStateCombo.count - newS).toNat
            h.currentStateCombo.count h.currentStateCombo).1).toNat
          (SGGameHandler.removeItemsAbove newS (h.currentStateCombo.count - newS).toNat
            h.currentStateCombo.count h.currentStateCombo).1
          (SGGameHandler.removeItemsAbove newS (h.currentStateCombo.count - newS).toNat
            h.currentStateCombo.count h.currentStateCombo).2).1 < newS) ∧
    (h.changeNumberOfStates newS).currentStateCombo.count = newS ∧
    (∀ i : Nat, (i : Int) < newS →
      (h.changeNumberOfStates newS).currentStateCombo.items[i]? = some (qNumber (i : Int))) ∧
    (h.changeNumberOfStates newS).currentStateCombo.currentIndex = 0 := by
  have h0 : 0 ≤ newS := by omega
  obtain ⟨r1, r2⟩ := removeItemsAbove_count newS h0
    (h.currentStateCombo.count - newS).toNat h.currentStateCombo.count h.currentStateCombo rfl
    (by omega)
  have r3 := removeItemsAbove_numbered newS h0
    (h.currentStateCombo.count - newS).toNat h.currentStateCombo.count h.currentStateCombo rfl
    hlab
  obtain ⟨a1, a2⟩ := addItemsUpTo_numbered newS
    (newS - (SGGameHandler.removeItemsAbove newS (h.currentStateCombo.count - newS).toNat
      h.currentStateCombo.count h.currentStateCombo).1).toNat
    (SGGameHandler.removeItemsAbove newS (h.currentStateCombo.count - newS).toNat
      h.currentStateCombo.count h.currentStateCombo).1
    (SGGameHandler.removeItemsAbove newS (h.currentStateCombo.count - newS).toNat
      h.currentStateCombo.count h.currentStateCombo).2
    (by rw [r1, r2]) (by omega) r3
  have hcount := (changeNumberOfStates_count h newS h0).1
  have hitems : (h.changeNumberOfStates newS).currentStateCombo.items
      = (SGGameHandler.addItemsUpTo newS
          (newS - (SGGameHandler.removeItemsAbove newS (h.currentStateCombo.count - newS).toNat
            h.currentStateCombo.count h.currentStateCombo).1).toNat
          (SGGameHandler.removeItemsAbove newS (h.currentStateCombo.count - newS).toNat
            h.currentStateCombo.count h.currentStateCombo).1
          (SGGameHandler.removeItemsAbove newS (h.currentStateCombo.count - newS).toNat
            h.currentStateCombo.count h.currentStateCombo).2).2.items :=
    QComboBox.items_setCurrentIndex _ 0
  have hlen : ((h.changeNumberOfStates newS).currentStateCombo.items.length : Int) = newS :=
    hcount
  refine ⟨?_, ?_, hcount, ?_, ?_⟩
  · rw [r1]
    have := min_le_right h.currentStateCombo.count newS
    omega
  · rw [a1]
    have := le_max_right
      (SGGameHandler.removeItemsAbove newS (h.currentStateCombo.count - newS).toNat
        h.currentStateCombo.count h.currentStateCombo).1 newS
    omega
  · intro i hi
    have hnum : (h.changeNumberOfStates newS).currentStateCombo.Numbered := by
      unfold QComboBox.Numbered
      rw [hitems]
      exact a2
    unfold QComboBox.Numbered at hnum
    rw [hnum, List.getElem?_map, List.getElem?_range (by omega)]
    rfl
  · have hpos : ∀ c : QComboBox, (c.items.length : Int) = newS →
        (c.setCurrentIndex 0).currentIndex = 0 := by
      intro c hc
      unfold QComboBox.setCurrentIndex
      rw [if_pos ⟨le_refl _, by unfold QComboBox.count; omega⟩]
    rw [hitems] at hlen
    exact hpos _ hlen

/-- Instance of `changeNumberOfStates_selector`: the selector of the two-state sample tab is
brought to three entries. -/
theorem changeNumberOfStates_selector_witness :
    (1 : Int) ≤ 3 ∧ (sampleHandler false).currentStateCombo.Numbered ∧
    ((sampleHandler false).changeNumberOfStates 3).currentStateCombo
      = { items := ["0", "1", "2"], currentIndex := 0 } ∧
    ((sampleHandler false).changeNumberOfStates 3).currentStateCombo.count = 3 ∧
    (∀ i : Nat, (i : Int) < 3 →
      ((sampleHandler false).changeNumberOfStates 3).currentStateCombo.items[i]?
        = some (qNumber (i : Int))) ∧
    ((sampleHandler false).changeNumberOfStates 3).currentStateCombo.currentIndex = 0 :=
  have hw := changeNumberOfStates_selector (sampleHandler false) 3 (by decide) (by decide)
  ⟨by decide, by decide, by decide, hw.2.2.1, hw.2.2.2.1, hw.2.2.2.2⟩

/-- A row of the table of the numbers of actions of a game with one row per state and one
number per player, for a valid state index. -/
theorem SGGame.ActionsPerState.row (g : SGGame) (hg : g.ActionsPerState) (s : Int)
    (h0 : 0 ≤ s) (hs : s < g.getNumStates) :
    ∃ n0 n1, vecGet? g.getNumActions s = some [n0, n1] := by
  obtain ⟨hlen, hrows⟩ := hg
  have hlt : s.toNat < g.getNumActions.length := by omega
  have hrow := hrows _ (List.getElem_mem hlt)
  have hget : vecGet? g.getNumActions s = some g.getNumActions[s.toNat] := by
    unfold vecGet?
    rw [if_neg (by omega), List.getElem?_eq_getElem hlt]
  match hr : g.getNumActions[s.toNat], hrow with
  | [n0, n1], _ => exact ⟨n0, n1, by rw [hget, hr]⟩

/-- On a game tab that goes with its game, `setState` of a valid state index returns, makes
that index the current index of the state selector, leaves the entries of the selector and
the game, and leaves a game tab that goes with its game. -/
theorem setState_ready (h : SGGameHandler) (s : Int) (hready : h.TabReady) (h0 : 0 ≤ s)
    (hs : s < h.game.getNumStates) :
    ∃ h1, h.setState s = some h1 ∧ h1.currentStateCombo.currentIndex = s ∧
      h1.currentStateCombo.items = h.currentStateCombo.items ∧ h1.game = h.game ∧
      h1.probabilityTableLayout = h.probabilityTableLayout ∧ h1.TabReady := by
  obtain ⟨hsizes, hedits, hpm, hacts⟩ := hready
  obtain ⟨n0, n1, hrow⟩ := hacts.row h.game s h0 hs
  obtain ⟨pm, hpm1⟩ : ∃ pm, h.payoffModel = some pm := by
    cases hp : h.payoffModel with
    | none => exact absurd hp hpm
    | some pm => exact ⟨pm, rfl⟩
  have hmodels : h.probabilityModels.length = h.game.getNumStates.toNat := by
    have := hsizes.1
    omega
  have hviews : h.probabilityTableViews.length = h.game.getNumStates.toNat := by
    have := hsizes.2.1
    omega
  have hloop := setStateModels_eq_map s h.probabilityTableViews h.probabilityModels
    h.game.getNumStates.toNat hmodels hviews
  have hed := setNumActionsEdits_two h.game s n0 n1 h.numActionsEdits hrow hedits
  have hset : h.setState s = some { h with
      numActionsEdits := [{ text := qNumber n0 }, { text := qNumber n1 }]
      payoffModel := some { pm with state := s }
      probabilityModels := h.probabilityModels.map (fun m => { m with state := s })
      currentStateCombo := h.currentStateCombo.setCurrentIndex s } := by
    simp only [SGGameHandler.setState, hed, hpm1, hloop]
  have hlt : s < h.currentStateCombo.count := by
    rw [hsizes.2.2.1]
    exact hs
  refine ⟨_, hset, ?_, ?_, rfl, rfl, ?_, rfl, ?_, hacts⟩
  · simp [QComboBox.setCurrentIndex, h0, hlt]
  · simp [QComboBox.setCurrentIndex, h0, hlt]
  · exact setState_tabSizes h _ s hset hsizes
  · simp

/-- Claim C22: state navigation is clamped. On a game tab that goes with its game, with n
selector entries and a current index i from 0 to n-1: nextState returns, moves the current
index to i+1 when i < n-1 and changes nothing when i = n-1; prevState returns, moves the
current index to i-1 when i > 0 and changes nothing when i = 0; after either the current
index is again from 0 to n-1 (of the same n entries); and prevState after nextState returns
to the current index i whenever i < n-1. -/
theorem state_navigation_clamped (h : SGGameHandler) (hready : h.TabReady)
    (hi0 : 0 ≤ h.currentStateCombo.currentIndex)
    (hin : h.currentStateCombo.currentIndex < h.currentStateCombo.count) :
    (h.currentStateCombo.currentIndex < h.currentStateCombo.count - 1 →
      ∃ h1, h.nextState = some h1 ∧
        h1.currentStateCombo.currentIndex = h.currentStateCombo.currentIndex + 1) ∧
    (h.currentStateCombo.currentIndex = h.currentStateCombo.count - 1 →
      h.nextState = some h) ∧
    (h.currentStateCombo.currentIndex > 0 →
      ∃ h1, h.prevState = some h1 ∧
        h1.currentStateCombo.currentIndex = h.currentStateCombo.currentIndex - 1) ∧
    (h.currentStateCombo.currentIndex = 0 → h.prevState = some h) ∧
    (∃ h1, h.nextState = some h1 ∧ h1.currentStateCombo.count = h.currentStateCombo.count ∧
      0 ≤ h1.currentStateCombo.currentIndex ∧
      h1.currentStateCombo.currentIndex < h1.currentStateCombo.count) ∧
    (∃ h1, h.prevState = some h1 ∧ h1.currentStateCombo.count = h.currentStateCombo.count ∧
      0 ≤ h1.currentStateCombo.currentIndex ∧
      h1.currentStateCombo.currentIndex < h1.currentStateCombo.count) ∧
    (h.currentStateCombo.currentIndex < h.currentStateCombo.count - 1 →
      ∃ h1 h2, h.nextState = some h1 ∧ h1.prevState = some h2 ∧
        h2.currentStateCombo.currentIndex = h.currentStateCombo.currentIndex) := by
  have hcount : h.currentStateCombo.count = h.game.getNumStates := hready.1.2.2.1
  have hnext : h.currentStateCombo.currentIndex < h.currentStateCombo.count - 1 →
      ∃ h1, h.nextState = some h1 ∧
        h1.currentStateCombo.currentIndex = h.currentStateCombo.currentIndex + 1 ∧
        h1.currentStateCombo.count = h.currentStateCombo.count ∧ h1.TabReady := by
    intro hlt
    obtain ⟨h1, hset, hidx, hitems, -, -, hr1⟩ :=
      setState_ready h (h.currentStateCombo.currentIndex + 1) hready (by omega) (by omega)
    refine ⟨h1, ?_, hidx, ?_, hr1⟩
    · unfold SGGameHandler.nextState
      rw [if_pos hlt]
      exact hset
    · unfold QComboBox.count
      rw [hitems]
  have hprev : ∀ g : SGGameHandler, g.TabReady →
      g.currentStateCombo.currentIndex < g.currentStateCombo.count →
      g.currentStateCombo.currentIndex > 0 →
      ∃ g1, g.prevState = some g1 ∧
        g1.currentStateCombo.currentIndex = g.currentStateCombo.currentIndex - 1 ∧
        g1.currentStateCombo.count = g.currentStateCombo.count := by
    intro g hg hlt hgt
    have hgc : g.currentStateCombo.count = g.game.getNumStates := hg.1.2.2.1
    obtain ⟨g1, hset, hidx, hitems, -, -, -⟩ :=
      setState_ready g (g.currentStateCombo.currentIndex - 1) hg (by omega) (by omega)
    refine ⟨g1, ?_, hidx, ?_⟩
    · unfold SGGameHandler.prevState
      rw [if_pos hgt]
      exact hset
    · unfold QComboBox.count
      rw [hitems]
  have hnextStay : ¬ h.currentStateCombo.currentIndex < h.currentStateCombo.count - 1 →
      h.nextState = some h := by
    intro hge
    unfold SGGameHandler.nextState
    rw [if_neg hge]
  have hprevStay : ¬ h.currentStateCombo.currentIndex > 0 → h.prevState = some h := by
    intro hle
    unfold SGGameHandler.prevState
    rw [if_neg hle]
  refine ⟨?_, ?_, ?_, ?_, ?_, ?_, ?_⟩
  · intro hlt
    obtain ⟨h1, e1, e2, -, -⟩ := hnext hlt
    exact ⟨h1, e1, e2⟩
  · intro heq
    exact hnextStay (by omega)
  · intro hgt
    obtain ⟨h1, e1, e2, -⟩ := hprev h hready hin hgt
    exact ⟨h1, e1, e2⟩
  · intro heq
    exact hprevStay (by omega)
  · by_cases hlt : h.currentStateCombo.currentIndex < h.currentStateCombo.count - 1
    · obtain ⟨h1, e1, e2, e3, -⟩ := hnext hlt
      exact ⟨h1, e1, e3, by omega, by omega⟩
    · exact ⟨h, hnextStay hlt, rfl, hi0, hin⟩
  · by_cases hgt : h.currentStateCombo.currentIndex > 0
    · obtain ⟨h1, e1, e2, e3⟩ := hprev h hready hin hgt
      exact ⟨h1, e1, e3, by omega, by omega⟩
    · exact ⟨h, hprevStay hgt, rfl, hi0, hin⟩
  · intro hlt
    obtain ⟨h1, e1, e2, e3, hr1⟩ := hnext hlt
    obtain ⟨h2, f1, f2, -⟩ := hprev h1 hr1 (by omega) (by omega)
    exact ⟨h1, h2, e1, f1, by omega⟩

/-- Instance of `state_navigation_clamped`: the two-state sample tab, which shows state 0;
nextState moves it to state 1, and prevState leaves it. -/
theorem state_navigation_clamped_witness :
    (sampleHandler false).TabReady ∧
    0 ≤ (sampleHandler false).currentStateCombo.currentIndex ∧
    (sampleHandler false).currentStateCombo.currentIndex
      < (sampleHandler false).currentStateCombo.count ∧
    (∃ h1, (sampleHandler false).nextState = some h1 ∧
      h1.currentStateCombo.currentIndex = 1) ∧
    (sampleHandler false).prevState = some (sampleHandler false) ∧
    (∃ h1 h2, (sampleHandler false).nextState = some h1 ∧ h1.prevState = some h2 ∧
      h2.currentStateCombo.currentIndex = 0) :=
  have hw := state_navigation_clamped (sampleHandler false) (by decide) (by decide)
    (by decide)
  ⟨by decide, by decide, by decide, hw.1 (by decide), hw.2.2.2.1 rfl,
    hw.2.2.2.2.2.2 (by decide)⟩

/-- The new current state that `stateRemoved` computes is the larger of the state before the
current one and 0. -/
theorem stateRemovedNewState_eq_max (state : Int) :
    SGGameHandler.stateRemovedNewState state = max (state - 1) 0 := by
  unfold SGGameHandler.stateRemovedNewState
  by_cases hgt : state > 0
  · rw [if_pos hgt, max_eq_left (by omega)]
  · rw [if_neg hgt, max_eq_right (by omega)]

/-- Claim C23: on a game tab that goes with its game of n states, whose layout holds a label
and a view per probability table, with the current state index i from 0 to n-1, and with
addState and removeState changing the number of states by exactly one and leaving a table
of numbers of actions with one row per state: stateAdded returns, invokes addState(i+1) on
the game and makes i+1 the current state; stateRemoved (n >= 2) returns, invokes
removeState(i) on the game and makes max(i-1, 0) the current state; in both cases the
resulting current index is a valid state index of the updated game. -/
theorem state_edits_move_current (ops : GameOps) (h : SGGameHandler)
    (hadd : ∀ g position, (ops.addState g position).getNumStates = g.getNumStates + 1)
    (hrem : ∀ g state, (ops.removeState g state).getNumStates = g.getNumStates - 1)
    (haddActs : (ops.addState h.game (h.currentStateCombo.currentIndex + 1)).ActionsPerState)
    (hremActs : (ops.removeState h.game h.currentStateCombo.currentIndex).ActionsPerState)
    (hready : h.TabReady)
    (hlayout : h.probabilityTableLayout.length = 2 * h.probabilityModels.length)
    (hi0 : 0 ≤ h.currentStateCombo.currentIndex)
    (hin : h.currentStateCombo.currentIndex < h.game.getNumStates) :
    (∃ r, h.stateAdded ops = some r ∧
      r.calls = [GameCall.addState (h.currentStateCombo.currentIndex + 1)] ∧
      r.handler.game = ops.addState h.game (h.currentStateCombo.currentIndex + 1) ∧
      r.handler.currentStateCombo.currentIndex = h.currentStateCombo.currentIndex + 1 ∧
      0 ≤ r.handler.currentStateCombo.currentIndex ∧
      r.handler.currentStateCombo.currentIndex < r.handler.game.getNumStates) ∧
    (2 ≤ h.game.getNumStates →
      ∃ r, h.stateRemoved ops = some r ∧
        r.calls = [GameCall.removeState h.currentStateCombo.currentIndex] ∧
        r.handler.game = ops.removeState h.game h.currentStateCombo.currentIndex ∧
        r.handler.currentStateCombo.currentIndex
          = max (h.currentStateCombo.currentIndex - 1) 0 ∧
        0 ≤ r.handler.currentStateCombo.currentIndex ∧
        r.handler.currentStateCombo.currentIndex < r.handler.game.getNumStates) := by
  obtain ⟨hsizes, hedits, hpm, hacts⟩ := hready
  refine ⟨?_, fun h2 => ?_⟩
  · have hT : (SGGameHandler.stateAddedTables ops h).TabReady :=
      ⟨stateAddedTables_tabSizes ops h hadd hsizes, hedits, hpm, haddActs⟩
    have hn : (SGGameHandler.stateAddedTables ops h).game.getNumStates
        = h.game.getNumStates + 1 := hadd h.game (h.currentStateCombo.currentIndex + 1)
    obtain ⟨h1, hset, hidx, -, hgame, -, -⟩ := setState_ready
      (SGGameHandler.stateAddedTables ops h) (h.currentStateCombo.currentIndex + 1) hT
      (by omega) (by omega)
    refine ⟨{ handler := h1
              calls := [GameCall.addState (h.currentStateCombo.currentIndex + 1)] },
      ?_, rfl, hgame, hidx, ?_, ?_⟩
    · simp only [SGGameHandler.stateAdded, hset]
    · show 0 ≤ h1.currentStateCombo.currentIndex
      omega
    · show h1.currentStateCombo.currentIndex < h1.game.getNumStates
      rw [hgame, hn, hidx]
      omega
  · have hmlen : (h.probabilityModels.length : Int) = h.game.getNumStates := hsizes.1
    have hvlen : (h.probabilityTableViews.length : Int) = h.game.getNumStates := hsizes.2.1
    have hm : h.probabilityModels ≠ [] := by
      intro he
      rw [he] at hmlen
      simp at hmlen
      omega
    have hv : h.probabilityTableViews ≠ [] := by
      intro he
      rw [he] at hvlen
      simp at hvlen
      omega
    have hl : ¬ h.probabilityTableLayout.length < 2 := by omega
    have hpop : h.popBackProbabilityTable = some { h with
        probabilityModels := h.probabilityModels.dropLast
        probabilityTableLayout := h.probabilityTableLayout.dropLast.dropLast
        probabilityTableViews := h.probabilityTableViews.dropLast } := by
      unfold SGGameHandler.popBackProbabilityTable
      rw [if_neg hm, if_neg hl, if_neg hv]
    have hR : (SGGameHandler.stateRemovedTables ops _
        h.currentStateCombo.currentIndex).TabReady :=
      ⟨stateRemovedTables_tabSizes ops h _ h.currentStateCombo.currentIndex hrem hpop hsizes,
        hedits, hpm, hremActs⟩
    have hn : (SGGameHandler.stateRemovedTables ops
        ({ h with
          probabilityModels := h.probabilityModels.dropLast
          probabilityTableLayout := h.probabilityTableLayout.dropLast.dropLast
          probabilityTableViews := h.probabilityTableViews.dropLast } : SGGameHandler)
        h.currentStateCombo.currentIndex).game.getNumStates
        = h.game.getNumStates - 1 := hrem h.game h.currentStateCombo.currentIndex
    have hnew := stateRemovedNewState_eq_max h.currentStateCombo.currentIndex
    have hmax0 : 0 ≤ max (h.currentStateCombo.currentIndex - 1) 0 := le_max_right _ _
    have hmax1 : max (h.currentStateCombo.currentIndex - 1) 0 < h.game.getNumStates - 1 :=
      max_lt (by omega) (by omega)
    obtain ⟨h3, hset, hidx, -, hgame, -, -⟩ := setState_ready _
      (SGGameHandler.stateRemovedNewState h.currentStateCombo.currentIndex) hR
      (by rw [hnew]; exact hmax0) (by rw [hnew, hn]; exact hmax1)
    have hne : h.game.getNumStates ≠ 1 := by omega
    refine ⟨{ handler := h3
              calls := [GameCall.removeState h.currentStateCombo.currentIndex] },
      ?_, rfl, hgame, ?_, ?_, ?_⟩
    · simp only [SGGameHandler.stateRemoved, hne, if_false, hpop, hset]
    · show h3.currentStateCombo.currentIndex = _
      rw [hidx, hnew]
    · show 0 ≤ h3.currentStateCombo.currentIndex
      rw [hidx, hnew]
      exact hmax0
    · show h3.currentStateCombo.currentIndex < h3.game.getNumStates
      rw [hidx, hnew, hgame, hn]
      exact hmax1

/-- Instance of `state_edits_move_current`: the two-state sample tab, which shows state 0,
with editing methods that keep the numbers of states and actions of the game up to date.
stateAdded leaves three states with state 1 current, and stateRemoved leaves one state with
state 0 current. -/
theorem state_edits_move_current_witness :
    (sampleHandler false).TabReady ∧
    (sampleOps.addState (sampleHandler false).game 1).ActionsPerState ∧
    (sampleOps.removeState (sampleHandler false).game 0).ActionsPerState ∧
    (∃ r, (sampleHandler false).stateAdded sampleOps = some r ∧
      r.calls = [GameCall.addState 1] ∧
      r.handler.game = sampleOps.addState (sampleHandler false).game 1 ∧
      r.handler.currentStateCombo.currentIndex = 1 ∧
      0 ≤ r.handler.currentStateCombo.currentIndex ∧
      r.handler.currentStateCombo.currentIndex < r.handler.game.getNumStates) ∧
    (∃ r, (sampleHandler false).stateRemoved sampleOps = some r ∧
      r.calls = [GameCall.removeState 0] ∧
      r.handler.game = sampleOps.removeState (sampleHandler false).game 0 ∧
      r.handler.currentStateCombo.currentIndex = 0 ∧
      0 ≤ r.handler.currentStateCombo.currentIndex ∧
      r.handler.currentStateCombo.currentIndex < r.handler.game.getNumStates) :=
  have hw := state_edits_move_current sampleOps (sampleHandler false) (fun _ _ => rfl)
    (fun _ _ => rfl) (by decide) (by decide) (by decide) (by decide) (by decide) (by decide)
  ⟨by decide, by decide, by decide, hw.1, hw.2 (by decide)⟩

end SGSolve
